import Mathlib

/-!
# Objective functions of `regrank/xgboost_regrank_obj.hpp`

A shallow embedding of the gradient/hessian objectives (regression, rank softmax,
multi-class softmax, LambdaRank with its pairwise / NDCG / MAP weightings).

Conventions of the embedding
* `float` and `double` values are exact rationals (`ℚ`): no rounding, no NaN, no infinities.
* `expf`, `logf` and `log` have no rational closed form; they are carried in `CMath`.
* `std::vector<float>` is `List ℚ`; an assignment `v[j] = x` is `List.set`, a read is
  `List.getD _ _ 0`.  Sizes and row indices are natural numbers (the 32-bit `unsigned`
  of the source is assumed not to wrap).
* `utils::Assert` aborts the call: the operations return `Except Error _`.
* The OpenMP loops are run sequentially, in index order.
-/

namespace xgboost
namespace regrank

/-- The assertion messages of `utils::Assert` in the objectives. -/
inductive Error where
  /-- Message "label size predict size not match" -/
  | labelSizePredictSizeNotMatch
  /-- Message "rank loss must have group file" -/
  | rankLossMustHaveGroupFile
  /-- Message "softmax does not allow multiple labels" -/
  | softmaxMultipleLabels
  /-- Message "must set num_class to use softmax" -/
  | mustSetNumClass
  /-- Message "SoftmaxMultiClassObj: label size and pred size does not match" -/
  | multiClassSizeNotMatch
  /-- Message "SoftmaxMultiClassObj: label exceed num_class" -/
  | labelExceedNumClass
  /-- The exception `std::length_error` of `std::vector<float> rec(nclass)` when `nclass` is negative -/
  | vectorLength
  deriving DecidableEq, Repr

/-- The functions of `<cmath>` the objectives call, as parameters of the embedding. -/
structure CMath where
  /-- The function `expf` -/
  expf : ℚ → ℚ
  /-- The functions `logf` and `log` (natural logarithm) -/
  logf : ℚ → ℚ

/-- The outputs of `GetGradient`: the two dense vectors `grad` and `hess`. -/
structure GradHess where
  grad : List ℚ
  hess : List ℚ
  deriving DecidableEq, Repr

/-- The call `std::vector<float>::resize(n)`: keeps the first `n` entries, pads with zeros. -/
def resize (v : List ℚ) (n : Nat) : List ℚ :=
  v.take n ++ List.replicate (n - v.length) 0

/-- The conversion `static_cast<int>(x)` of a float: truncation toward zero. -/
def toInt (x : ℚ) : Int :=
  if 0 ≤ x then ⌊x⌋ else ⌈x⌉

/-- Modelled from the spec: the loss variants of `LossType` (declared in
`xgboost_regrank_utils.h`, which is not among the sources), spec section 4.1. -/
inductive LossKind where
  | Regression
  | LogisticClassify
  | LogisticRaw
  deriving DecidableEq, Repr

/-- Modelled from the spec: `LossType` of `xgboost_regrank_utils.h`; `eps` is the lower
bound of the logistic second-order gradient. -/
structure LossType where
  loss_type : LossKind
  eps : ℚ

/-- Modelled from the spec: the sigmoid `1 / (1 + exp(-x))` used by the logistic variants. -/
def sigmoid (M : CMath) (x : ℚ) : ℚ := 1 / (1 + M.expf (-x))

/-- Modelled from the spec: `LossType::PredTransform`, identity for `Regression`, sigmoid for
the two logistic variants (spec section 4.1). -/
def LossType.PredTransform (M : CMath) (loss : LossType) (x : ℚ) : ℚ :=
  match loss.loss_type with
  | .Regression => x
  | .LogisticClassify => sigmoid M x
  | .LogisticRaw => sigmoid M x

/-- Modelled from the spec: `LossType::FirstOrderGradient(p, label) = p - label`. -/
def LossType.FirstOrderGradient (_loss : LossType) (predt label : ℚ) : ℚ :=
  predt - label

/-- Modelled from the spec: `LossType::SecondOrderGradient`, `max(p*(1-p), eps)` for the
logistic variants and `1.0` for `Regression`. -/
def LossType.SecondOrderGradient (loss : LossType) (predt _label : ℚ) : ℚ :=
  match loss.loss_type with
  | .Regression => 1
  | .LogisticClassify => max (predt * (1 - predt)) loss.eps
  | .LogisticRaw => max (predt * (1 - predt)) loss.eps

/-- The part of `DMatrix::Info` the objectives read. -/
structure Info where
  labels : List ℚ
  /-- optional per-row weights -/
  weights : Option (List ℚ)
  group_ptr : List Nat

/-- Modelled from the spec: `DMatrix::Info::GetWeight`, the weight of row `j`, a missing
weight counting as `1`. -/
def Info.GetWeight (info : Info) (j : Nat) : ℚ :=
  match info.weights with
  | none => 1
  | some w => w.getD j 1

/-! ## RegressionObj -/

/-- The fields of a `RegressionObj` (lines 56-57); the constructor leaves `scale_pos_weight`
unset, it is whatever `SetParam` stored. -/
structure RegressionObj where
  scale_pos_weight : ℚ
  loss : LossType

/-- Body of the row loop of `RegressionObj::GetGradient` (lines 36-40). -/
def RegressionObj.row (M : CMath) (o : RegressionObj) (preds : List ℚ) (info : Info)
    (s : GradHess) (j : Nat) : GradHess :=
  let p := o.loss.PredTransform M (preds.getD j 0)
  let w := info.GetWeight j
  let w := if info.labels.getD j 0 = 1 then w * o.scale_pos_weight else w
  { grad := s.grad.set j (o.loss.FirstOrderGradient p (info.labels.getD j 0) * w)
    hess := s.hess.set j (o.loss.SecondOrderGradient p (info.labels.getD j 0) * w) }

/-- The method `RegressionObj::GetGradient` (lines 25-42); `grad`, `hess` are the vectors passed in. -/
def RegressionObj.GetGradient (M : CMath) (o : RegressionObj) (preds : List ℚ) (info : Info)
    (grad hess : List ℚ) : Except Error GradHess :=
  if preds.length ≠ info.labels.length then
    .error .labelSizePredictSizeNotMatch
  else
    let ndata := preds.length
    .ok ((List.range ndata).foldl (RegressionObj.row M o preds info)
      { grad := resize grad preds.length, hess := resize hess preds.length })

/-- The gradient written at row `j` by `RegressionObj::GetGradient`. -/
def RegressionObj.gradAt (M : CMath) (o : RegressionObj) (preds : List ℚ) (info : Info)
    (j : Nat) : ℚ :=
  o.loss.FirstOrderGradient (o.loss.PredTransform M (preds.getD j 0)) (info.labels.getD j 0)
    * (if info.labels.getD j 0 = 1 then info.GetWeight j * o.scale_pos_weight
        else info.GetWeight j)

/-- The hessian written at row `j` by `RegressionObj::GetGradient`. -/
def RegressionObj.hessAt (M : CMath) (o : RegressionObj) (preds : List ℚ) (info : Info)
    (j : Nat) : ℚ :=
  o.loss.SecondOrderGradient (o.loss.PredTransform M (preds.getD j 0)) (info.labels.getD j 0)
    * (if info.labels.getD j 0 = 1 then info.GetWeight j * o.scale_pos_weight
        else info.GetWeight j)

/-! ## Softmax and group boundaries -/

/-- Modelled from the spec: `Softmax` of `xgboost_regrank_utils.h` (not among the sources):
subtract the maximum before exponentiation, then normalise by the sum (spec section 4.4). -/
def Softmax (M : CMath) (rec_ : List ℚ) : List ℚ :=
  let wmax := rec_.foldl max (rec_.headD 0)
  let e := rec_.map (fun x => M.expf (x - wmax))
  e.map (fun x => x / e.sum)

/-- The rows `gptr[k] ≤ j < gptr[k+1]` visited by the loops over group `k`. -/
def groupRows (gptr : List Nat) (k : Nat) : List Nat :=
  List.range' (gptr.getD k 0) (gptr.getD (k + 1) 0 - gptr.getD k 0)

/-! ## SoftmaxRankObj -/

/-- The variables updated by the first row loop of `SoftmaxRankObj::GetGradient`. -/
structure SoftmaxRankObj.Scan where
  rec_ : List ℚ
  out : GradHess
  nhit : Int

/-- Body of the first row loop (lines 89-91): `rec.push_back(preds[j])`,
`grad[j] = hess[j] = 0`, `nhit += labels[j]` (an `int` updated with a float sum). -/
def SoftmaxRankObj.scanRow (preds : List ℚ) (info : Info) (st : SoftmaxRankObj.Scan)
    (j : Nat) : SoftmaxRankObj.Scan :=
  { rec_ := st.rec_ ++ [preds.getD j 0]
    out := { grad := st.out.grad.set j 0, hess := st.out.hess.set j 0 }
    nhit := toInt ((st.nhit : ℚ) + info.labels.getD j 0) }

/-- Body of the second row loop (lines 96-98). -/
def SoftmaxRankObj.fillRow (info : Info) (rec_ : List ℚ) (lo : Nat) (s : GradHess)
    (j : Nat) : GradHess :=
  let p := rec_.getD (j - lo) 0
  { grad := s.grad.set j (p - info.labels.getD j 0)
    hess := s.hess.set j (2 * p * (1 - p)) }

/-- Body of the group loop of `SoftmaxRankObj::GetGradient` (lines 86-102). -/
def SoftmaxRankObj.group (M : CMath) (preds : List ℚ) (info : Info) (s : GradHess)
    (k : Nat) : Except Error GradHess :=
  let gptr := info.group_ptr
  let rows := groupRows gptr k
  let st := rows.foldl (SoftmaxRankObj.scanRow preds info) ⟨[], s, 0⟩
  let rec_ := Softmax M st.rec_
  if st.nhit = 1 then
    .ok (rows.foldl (SoftmaxRankObj.fillRow info rec_ (gptr.getD k 0)) st.out)
  else if st.nhit = 0 then
    .ok st.out
  else
    .error .softmaxMultipleLabels

/-- The method `SoftmaxRankObj::GetGradient` (lines 70-105). -/
def SoftmaxRankObj.GetGradient (M : CMath) (preds : List ℚ) (info : Info)
    (grad hess : List ℚ) : Except Error GradHess :=
  if preds.length ≠ info.labels.length then
    .error .labelSizePredictSizeNotMatch
  else
    let gptr := info.group_ptr
    if ¬ (gptr.length ≠ 0 ∧ gptr.getLastD 0 = preds.length) then
      .error .rankLossMustHaveGroupFile
    else
      let ngroup := gptr.length - 1
      (List.range ngroup).foldlM (SoftmaxRankObj.group M preds info)
        { grad := resize grad preds.length, hess := resize hess preds.length }

/-- The value of `nhit` after the first row loop over group `k`. -/
def SoftmaxRankObj.nhit (info : Info) (k : Nat) : Int :=
  (groupRows info.group_ptr k).foldl
    (fun (n : Int) j => toInt ((n : ℚ) + info.labels.getD j 0)) 0

/-- The softmax of the raw scores of group `k`. -/
def SoftmaxRankObj.probs (M : CMath) (preds : List ℚ) (info : Info) (k : Nat) : List ℚ :=
  Softmax M ((groupRows info.group_ptr k).map (fun j => preds.getD j 0))

/-- The softmax probability of row `j` of group `k` (`rec[j - gptr[k]]`). -/
def SoftmaxRankObj.prob (M : CMath) (preds : List ℚ) (info : Info) (k j : Nat) : ℚ :=
  (SoftmaxRankObj.probs M preds info k).getD (j - info.group_ptr.getD k 0) 0

/-- The number of rows of group `k` whose label is positive. -/
def positiveCount (info : Info) (k : Nat) : Nat :=
  (groupRows info.group_ptr k).countP (fun j => decide (0 < info.labels.getD j 0))

/-! ## SoftmaxMultiClassObj -/

/-- The field of a `SoftmaxMultiClassObj` (line 179): `nclass` is an `int`, `0` until
`SetParam("num_class", ...)`. -/
structure SoftmaxMultiClassObj where
  nclass : Int

/-- The conversion `(size_t)x` of an `int` (64-bit `size_t`). -/
def toSizeT (x : Int) : Nat := (x % 2 ^ 64).toNat

/-- Body of the second class loop of `SoftmaxMultiClassObj::GetGradient` (lines 146-152). -/
def SoftmaxMultiClassObj.cell (rec_ : List ℚ) (label : Int) (j ndata : Nat) (s : GradHess)
    (k : Nat) : GradHess :=
  let p := rec_.getD k 0
  { grad := s.grad.set (j + k * ndata) (if label = (k : Int) then p - 1 else p)
    hess := s.hess.set (j + k * ndata) (2 * p * (1 - p)) }

/-- Body of the row loop of `SoftmaxMultiClassObj::GetGradient` (lines 136-153). -/
def SoftmaxMultiClassObj.row (M : CMath) (o : SoftmaxMultiClassObj) (preds : List ℚ)
    (info : Info) (ndata : Nat) (s : GradHess) (j : Nat) : Except Error GradHess :=
  let rec_ := (List.range o.nclass.toNat).map (fun k => preds.getD (j + k * ndata) 0)
  let rec_ := Softmax M rec_
  let label := toInt (info.labels.getD j 0)
  let label := if label < 0 then -label - 1 else label
  if ¬ (label < o.nclass) then
    .error .labelExceedNumClass
  else
    .ok ((List.range o.nclass.toNat).foldl (SoftmaxMultiClassObj.cell rec_ label j ndata) s)

/-- The method `SoftmaxMultiClassObj::GetGradient` (lines 121-156). -/
def SoftmaxMultiClassObj.GetGradient (M : CMath) (o : SoftmaxMultiClassObj) (preds : List ℚ)
    (info : Info) (grad hess : List ℚ) : Except Error GradHess :=
  if ¬ (o.nclass ≠ 0) then
    .error .mustSetNumClass
  else if ¬ (preds.length = (toSizeT o.nclass * info.labels.length) % 2 ^ 64) then
    .error .multiClassSizeNotMatch
  else
    let ndata := info.labels.length
    if o.nclass < 0 then
      .error .vectorLength
    else
      (List.range ndata).foldlM (SoftmaxMultiClassObj.row M o preds info ndata)
        { grad := resize grad preds.length, hess := resize hess preds.length }

/-- The label decoding of `SoftmaxMultiClassObj::GetGradient` (lines 140-143): a negative
`label` stands for the class `-label - 1`. -/
def SoftmaxMultiClassObj.decode (label : Int) : Int :=
  if label < 0 then -label - 1 else label

/-- Modelled from the spec: `FindMaxIndex` of `xgboost_regrank_utils.h` (not among the
sources): the index of the maximum of `rec`, ties broken by first occurrence (spec section
4.5); a scan that moves to `i` only when `rec[i]` is strictly larger. -/
def FindMaxIndex (rec_ : List ℚ) : Nat :=
  (List.range' 1 (rec_.length - 1)).foldl
    (fun mxid i => if rec_.getD i 0 > rec_.getD mxid 0 then i else mxid) 0

/-- Body of the row loop of `SoftmaxMultiClassObj::PredTransform` (lines 167-170): the scores
of row `j` are read from `preds` as it is now, the class index is written at `preds[j]`. -/
def SoftmaxMultiClassObj.predRow (nclass ndata : Nat) (preds : List ℚ) (j : Nat) : List ℚ :=
  let rec_ := (List.range nclass).map (fun k => preds.getD (j + k * ndata) 0)
  preds.set j ((FindMaxIndex rec_ : Nat) : ℚ)

/-- The method `SoftmaxMultiClassObj::PredTransform` (lines 157-174), returning the new
`preds`. -/
def SoftmaxMultiClassObj.PredTransform (o : SoftmaxMultiClassObj) (preds : List ℚ) :
    Except Error (List ℚ) :=
  if ¬ (o.nclass ≠ 0) then
    .error .mustSetNumClass
  else if ¬ (preds.length % toSizeT o.nclass = 0) then
    .error .multiClassSizeNotMatch
  else
    let ndata := preds.length / toSizeT o.nclass
    if o.nclass < 0 then
      .error .vectorLength
    else
      .ok (resize ((List.range ndata).foldl
        (SoftmaxMultiClassObj.predRow o.nclass.toNat ndata) preds) ndata)

/-! ## LambdaRankObj -/

/-- The struct `LambdaRankObj::ListEntry` (lines 290-307). -/
structure ListEntry where
  pred : ℚ
  label : ℚ
  rindex : Nat
  deriving DecidableEq, Repr

instance : Inhabited ListEntry := ⟨⟨0, 0, 0⟩⟩

/-- The comparator `ListEntry::CmpPred`: `a.pred > b.pred`. -/
def ListEntry.CmpPred (a b : ListEntry) : Bool := decide (a.pred > b.pred)

/-- The comparator `ListEntry::CmpLabel`: `a.label > b.label`. -/
def ListEntry.CmpLabel (a b : ListEntry) : Bool := decide (a.label > b.label)

/-- The struct `LambdaRankObj::LambdaPair` (lines 309-317). -/
structure LambdaPair where
  pos_index : Nat
  neg_index : Nat
  weight : ℚ
  deriving DecidableEq, Repr

/-- The constructor `LambdaPair(pos_index, neg_index)`: the weight starts at `1.0f`. -/
def LambdaPair.new (pos_index neg_index : Nat) : LambdaPair :=
  { pos_index := pos_index, neg_index := neg_index, weight := 1 }

/-- The call `std::sort(lst.begin(), lst.end(), ListEntry::CmpPred)`: descending by `pred`.  The order
of ties is unspecified in the source; the embedding sorts stably (`a` stays before `b`
unless `CmpPred b a`). -/
def sortByPred (lst : List ListEntry) : List ListEntry :=
  lst.insertionSort (fun a b => b.pred ≤ a.pred)

/-- Modelled from the spec: `std::sort(rec.begin(), rec.end(), CmpFirst)`, `CmpFirst` being
declared in `xgboost_regrank_utils.h` (not among the sources): ascending by label, ties
broken by position in the list ascending (spec section 4.6, step 3). -/
def sortRec (rec_ : List (ℚ × Nat)) : List (ℚ × Nat) :=
  rec_.insertionSort (fun a b => a.1 < b.1 ∨ (a.1 = b.1 ∧ a.2 ≤ b.2))

/-- The configuration of a `LambdaRankObj`; `GetLambdaWeight` is the pure virtual method
that the subclasses override.  `num_pairsample` is an `int` in the source, assumed
non-negative here. -/
structure LambdaRankObj where
  loss : LossType
  num_pairsample : Nat
  fix_list_weight : ℚ
  GetLambdaWeight : List ListEntry → List LambdaPair → List LambdaPair

/-- The pair buffer and the number of calls made to `rnd.RandDouble()` so far. -/
structure Sampler where
  pairs : List LambdaPair
  rnd : Nat

/-- The loop `while (j < rec.size() && rec[j].first == rec[i].first) ++j` (line 236),
started at `j` with `fuel` iterations allowed. -/
def bucketEnd (rec_ : List (ℚ × Nat)) (i : Nat) : Nat → Nat → Nat
  | 0, j => j
  | fuel + 1, j =>
    if j < rec_.length ∧ (rec_.getD j (0, 0)).1 = (rec_.getD i (0, 0)).1 then
      bucketEnd rec_ i fuel (j + 1)
    else j

/-- Body of the loop over `pid` (lines 243-248); `draws n` is the value returned by the
`n`-th call of `rnd.RandDouble()`. -/
def samplePid (draws : Nat → ℚ) (rec_ : List (ℚ × Nat)) (i j nleft nright : Nat)
    (st : Sampler) (pid : Nat) : Sampler :=
  let ridx := (toInt (draws st.rnd * ((nleft + nright : Nat) : ℚ))).toNat
  if ridx < nleft then
    { pairs := st.pairs ++ [LambdaPair.new (rec_.getD ridx (0, 0)).2 (rec_.getD pid (0, 0)).2]
      rnd := st.rnd + 1 }
  else
    { pairs := st.pairs ++
        [LambdaPair.new (rec_.getD pid (0, 0)).2 (rec_.getD (ridx + j - i) (0, 0)).2]
      rnd := st.rnd + 1 }

/-- The sampling of one bucket `[i, j)` (lines 238-251). -/
def sampleBucket (draws : Nat → ℚ) (num_pairsample : Nat) (rec_ : List (ℚ × Nat))
    (i j : Nat) (st : Sampler) : Sampler :=
  let nleft := i
  let nright := rec_.length - j
  if nleft + nright ≠ 0 then
    (List.range num_pairsample).foldl
      (fun st _ => (List.range' i (j - i)).foldl (samplePid draws rec_ i j nleft nright) st) st
  else st

/-- The loop over the buckets `for (i = 0; i < rec.size(); ) { ...; i = j; }` (lines 234-253),
with `fuel` iterations allowed. -/
def enumBuckets (draws : Nat → ℚ) (num_pairsample : Nat) (rec_ : List (ℚ × Nat)) :
    Nat → Nat → Sampler → Sampler
  | 0, _, st => st
  | fuel + 1, i, st =>
    if i < rec_.length then
      let j := bucketEnd rec_ i (rec_.length - (i + 1)) (i + 1)
      enumBuckets draws num_pairsample rec_ fuel j
        (sampleBucket draws num_pairsample rec_ i j st)
    else st

/-- Body of the first row loop of `LambdaRankObj::GetGradient` (lines 224-225). -/
def LambdaRankObj.scanRow (preds : List ℚ) (info : Info) (st : List ListEntry × GradHess)
    (j : Nat) : List ListEntry × GradHess :=
  (st.1 ++ [{ pred := preds.getD j 0, label := info.labels.getD j 0, rindex := j }],
   { grad := st.2.grad.set j 0, hess := st.2.hess.set j 0 })

/-- The list `lst` of group `k` after `std::sort(..., CmpPred)` (lines 222-227). -/
def LambdaRankObj.sortedList (preds : List ℚ) (info : Info) (k : Nat) : List ListEntry :=
  sortByPred ((groupRows info.group_ptr k).foldl (LambdaRankObj.scanRow preds info)
    ([], { grad := [], hess := [] })).1

/-- The vector `rec` of a sorted list after `std::sort(..., CmpFirst)` (lines 228-232). -/
def LambdaRankObj.sortedRec (lst : List ListEntry) : List (ℚ × Nat) :=
  sortRec ((List.range lst.length).map (fun i => ((lst.getD i default).label, i)))

/-- The pairs sampled from a sorted list (lines 234-253), the generator having been called
`rnd` times before. -/
def LambdaRankObj.samplePairs (draws : Nat → ℚ) (num_pairsample : Nat) (lst : List ListEntry)
    (rnd : Nat) : Sampler :=
  enumBuckets draws num_pairsample (LambdaRankObj.sortedRec lst)
    (LambdaRankObj.sortedRec lst).length 0 { pairs := [], rnd := rnd }

/-- The value of `scale` for group `k` (lines 257-260). -/
def LambdaRankObj.scale (o : LambdaRankObj) (gptr : List Nat) (k : Nat) : ℚ :=
  let scale : ℚ := 1 / (o.num_pairsample : ℚ)
  if o.fix_list_weight ≠ 0 then
    scale * (o.fix_list_weight / ((gptr.getD (k + 1) 0 - gptr.getD k 0 : Nat) : ℚ))
  else scale

/-- The value `g * w` of a pair (lines 264-266). -/
def LambdaRankObj.pairGrad (M : CMath) (o : LambdaRankObj) (lst : List ListEntry) (scale : ℚ)
    (p : LambdaPair) : ℚ :=
  o.loss.FirstOrderGradient
      (o.loss.PredTransform M
        ((lst.getD p.pos_index default).pred - (lst.getD p.neg_index default).pred)) 1
    * (p.weight * scale)

/-- The value `2 * h * w` of a pair (lines 264-267, 272). -/
def LambdaRankObj.pairHess (M : CMath) (o : LambdaRankObj) (lst : List ListEntry) (scale : ℚ)
    (p : LambdaPair) : ℚ :=
  2 * o.loss.SecondOrderGradient
      (o.loss.PredTransform M
        ((lst.getD p.pos_index default).pred - (lst.getD p.neg_index default).pred)) 1
    * (p.weight * scale)

/-- Body of the loop over the pairs (lines 262-273). -/
def LambdaRankObj.accumulate (M : CMath) (o : LambdaRankObj) (lst : List ListEntry)
    (scale : ℚ) (s : GradHess) (p : LambdaPair) : GradHess :=
  let pos := lst.getD p.pos_index default
  let neg := lst.getD p.neg_index default
  let w := p.weight * scale
  let p' := o.loss.PredTransform M (pos.pred - neg.pred)
  let g := o.loss.FirstOrderGradient p' 1
  let h := o.loss.SecondOrderGradient p' 1
  let grad := s.grad.set pos.rindex (s.grad.getD pos.rindex 0 + g * w)
  let grad := grad.set neg.rindex (grad.getD neg.rindex 0 - g * w)
  let hess := s.hess.set pos.rindex (s.hess.getD pos.rindex 0 + 2 * h * w)
  let hess := hess.set neg.rindex (hess.getD neg.rindex 0 + 2 * h * w)
  { grad := grad, hess := hess }

/-- The outputs and the number of calls made to `rnd.RandDouble()` so far. -/
structure LambdaRankObj.State where
  out : GradHess
  rnd : Nat

/-- Body of the group loop of `LambdaRankObj::GetGradient` (lines 222-274). -/
def LambdaRankObj.group (M : CMath) (o : LambdaRankObj) (draws : Nat → ℚ) (preds : List ℚ)
    (info : Info) (st : LambdaRankObj.State) (k : Nat) : LambdaRankObj.State :=
  let gptr := info.group_ptr
  let scan := (groupRows gptr k).foldl (LambdaRankObj.scanRow preds info) ([], st.out)
  let lst := sortByPred scan.1
  let rec_ := sortRec ((List.range lst.length).map (fun i => ((lst.getD i default).label, i)))
  let sm := enumBuckets draws o.num_pairsample rec_ rec_.length 0 { pairs := [], rnd := st.rnd }
  let pairs := o.GetLambdaWeight lst sm.pairs
  let scale : ℚ := 1 / (o.num_pairsample : ℚ)
  let scale :=
    if o.fix_list_weight ≠ 0 then
      scale * (o.fix_list_weight / ((gptr.getD (k + 1) 0 - gptr.getD k 0 : Nat) : ℚ))
    else scale
  { out := pairs.foldl (LambdaRankObj.accumulate M o lst scale) scan.2
    rnd := sm.rnd }

/-- The method `LambdaRankObj::GetGradient` (lines 200-277); `draws` is the stream of values returned by
the random number generator of the (single) worker. -/
def LambdaRankObj.GetGradient (M : CMath) (o : LambdaRankObj) (draws : Nat → ℚ)
    (preds : List ℚ) (info : Info) (grad hess : List ℚ) : Except Error GradHess :=
  if preds.length ≠ info.labels.length then
    .error .labelSizePredictSizeNotMatch
  else
    let gptr := info.group_ptr
    if ¬ (gptr.length ≠ 0 ∧ gptr.getLastD 0 = preds.length) then
      .error .rankLossMustHaveGroupFile
    else
      let ngroup := gptr.length - 1
      .ok ((List.range ngroup).foldl (LambdaRankObj.group M o draws preds info)
        { out := { grad := resize grad preds.length, hess := resize hess preds.length }
          rnd := 0 }).out

/-- A weighting strategy in the sense of the source: an override of `GetLambdaWeight` that
fills in the `weight` of the pairs it is given and changes nothing else. -/
def FillsWeights (W : List ListEntry → List LambdaPair → List LambdaPair) : Prop :=
  ∀ lst pairs, (W lst pairs).map (fun p => (p.pos_index, p.neg_index))
    = pairs.map (fun p => (p.pos_index, p.neg_index))

/-- The method `PairwiseRankObj::GetLambdaWeight` (line 331): leaves the pairs as they are. -/
def PairwiseRankObj.GetLambdaWeight (_sorted_list : List ListEntry) (pairs : List LambdaPair) :
    List LambdaPair := pairs

/-- A pair that crosses an equal-label run `[i, j)` of `rec`: one of its two list positions
is stored in the run (at `a`), the other outside the run (at `b`), every entry of the run
carries the label of `rec[i]` and no entry outside the run does. -/
def CrossRun (rec_ : List (ℚ × Nat)) (p : LambdaPair) : Prop :=
  ∃ i j a b, i ≤ a ∧ a < j ∧ j ≤ rec_.length ∧ b < rec_.length ∧ (b < i ∨ j ≤ b) ∧
    (∀ t, i ≤ t → t < j → (rec_.getD t (0, 0)).1 = (rec_.getD i (0, 0)).1) ∧
    (∀ t, t < rec_.length → (t < i ∨ j ≤ t) →
      (rec_.getD t (0, 0)).1 ≠ (rec_.getD i (0, 0)).1) ∧
    ((p.pos_index = (rec_.getD b (0, 0)).2 ∧ p.neg_index = (rec_.getD a (0, 0)).2) ∨
     (p.pos_index = (rec_.getD a (0, 0)).2 ∧ p.neg_index = (rec_.getD b (0, 0)).2))

/-- The pairs of group `k` after `GetLambdaWeight`, the generator having been called `rnd`
times before the group. -/
def LambdaRankObj.weightedPairs (o : LambdaRankObj) (draws : Nat → ℚ) (preds : List ℚ)
    (info : Info) (k rnd : Nat) : List LambdaPair :=
  o.GetLambdaWeight (LambdaRankObj.sortedList preds info k)
    (LambdaRankObj.samplePairs draws o.num_pairsample
      (LambdaRankObj.sortedList preds info k) rnd).pairs

/-- The row (`rindex`) of the positive entry of a pair of group `k`. -/
def LambdaRankObj.posRow (preds : List ℚ) (info : Info) (k : Nat) (p : LambdaPair) : Nat :=
  ((LambdaRankObj.sortedList preds info k).getD p.pos_index default).rindex

/-- The row (`rindex`) of the negative entry of a pair of group `k`. -/
def LambdaRankObj.negRow (preds : List ℚ) (info : Info) (k : Nat) (p : LambdaPair) : Nat :=
  ((LambdaRankObj.sortedList preds info k).getD p.neg_index default).rindex

/-! ## LambdaRankObj_NDCG -/

/-- The method `LambdaRankObj_NDCG::CalcDCG` (lines 340-349): `rel` is the label converted to `unsigned`,
`1 << rel` is `2 ^ rel` (no overflow of the `int` shift is modelled). -/
def LambdaRankObj_NDCG.CalcDCG (M : CMath) (labels : List ℚ) : ℚ :=
  (List.range labels.length).foldl
    (fun (sumdcg : ℚ) i =>
      let rel := (toInt (labels.getD i 0)).toNat
      if rel ≠ 0 then
        sumdcg + M.logf 2 * (((2 : ℚ) ^ rel) - 1) / M.logf ((i : ℚ) + 2)
      else sumdcg) 0

/-- The method `LambdaRankObj_NDCG::GetIDCG` (lines 351-359): the labels sorted with
`std::greater<float>`, then `CalcDCG`. -/
def LambdaRankObj_NDCG.GetIDCG (M : CMath) (sorted_list : List ListEntry) : ℚ :=
  LambdaRankObj_NDCG.CalcDCG M
    ((sorted_list.map (fun e => e.label)).insertionSort (fun a b => b ≤ a))

/-- The method `LambdaRankObj_NDCG::GetLambdaNDCG` (lines 368-378); `1 << static_cast<int>(label)` is
`2 ^ label`.  A division by `IDCG = 0` yields `0` in `ℚ` (the source divides doubles). -/
def LambdaRankObj_NDCG.GetLambdaNDCG (M : CMath) (sorted_list : List ListEntry)
    (index1 index2 : Nat) (IDCG : ℚ) : ℚ :=
  let l1 := (toInt (sorted_list.getD index1 default).label).toNat
  let l2 := (toInt (sorted_list.getD index2 default).label).toNat
  let original := (2 : ℚ) ^ l1 / M.logf ((index1 : ℚ) + 2) + (2 : ℚ) ^ l2 / M.logf ((index2 : ℚ) + 2)
  let changed := (2 : ℚ) ^ l2 / M.logf ((index1 : ℚ) + 2) + (2 : ℚ) ^ l1 / M.logf ((index2 : ℚ) + 2)
  let ans := (original - changed) / IDCG
  if ans < 0 then -ans else ans

/-- The method `LambdaRankObj_NDCG::GetLambdaWeight` (lines 380-386). -/
def LambdaRankObj_NDCG.GetLambdaWeight (M : CMath) (sorted_list : List ListEntry)
    (pairs : List LambdaPair) : List LambdaPair :=
  let IDCG := LambdaRankObj_NDCG.GetIDCG M sorted_list
  pairs.map (fun p =>
    { p with weight :=
        LambdaRankObj_NDCG.GetLambdaNDCG M sorted_list p.pos_index p.neg_index IDCG })

/-- The pair weight as the claim words it, for the logarithm `lg`: `|Δ| / IdealDCG` with
`Δ = [gain(l1)/lg(i1+2) + gain(l2)/lg(i2+2)] - [gain(l2)/lg(i1+2) + gain(l1)/lg(i2+2)]`,
`gain(l) = 2^l - 1` and `IdealDCG = Σ (2^label - 1)/lg(position+2)` over the labels in
descending order, the same `lg` being used in `Δ` and in `IdealDCG`. -/
def specNDCGWeight (lg : ℚ → ℚ) (labels : List Nat) (i1 i2 : Nat) : ℚ :=
  let gain := fun (l : Nat) => (2 : ℚ) ^ l - 1
  let delta := (gain (labels.getD i1 0) / lg ((i1 : ℚ) + 2) + gain (labels.getD i2 0) / lg ((i2 : ℚ) + 2))
    - (gain (labels.getD i2 0) / lg ((i1 : ℚ) + 2) + gain (labels.getD i1 0) / lg ((i2 : ℚ) + 2))
  let ideal := labels.insertionSort (fun a b => b ≤ a)
  let idealDCG := ((List.range ideal.length).map
    (fun pos => gain (ideal.getD pos 0) / lg ((pos : ℚ) + 2))).sum
  |delta| / idealDCG

/-! ## LambdaRankObj_MAP -/

/-- The class `LambdaRankObj_MAP::Quadruple` (lines 392-417). -/
structure Quadruple where
  ap_acc_ : ℚ
  ap_acc_miss_ : ℚ
  ap_acc_add_ : ℚ
  hits_ : ℚ
  deriving DecidableEq, Repr

instance : Inhabited Quadruple := ⟨⟨0, 0, 0, 0⟩⟩

/-- The variables of the loop of `GetMAPAcc`. -/
structure MAPAccState where
  hit : ℚ
  acc1 : ℚ
  acc2 : ℚ
  acc3 : ℚ
  map_acc : List Quadruple

/-- Body of the loop of `LambdaRankObj_MAP::GetMAPAcc` (lines 467-476), `i` running from 1. -/
def LambdaRankObj_MAP.accStep (sorted_list : List ListEntry) (st : MAPAccState) (i : Nat) :
    MAPAccState :=
  let st1 : MAPAccState :=
    if toInt (sorted_list.getD (i - 1) default).label > 0 then
      { st with
        hit := st.hit + 1
        acc1 := st.acc1 + (st.hit + 1) / (i : ℚ)
        acc2 := st.acc2 + ((st.hit + 1) - 1) / (i : ℚ)
        acc3 := st.acc3 + ((st.hit + 1) + 1) / (i : ℚ) }
    else st
  { st1 with
    map_acc := st1.map_acc.set (i - 1)
      { ap_acc_ := st1.acc1, ap_acc_miss_ := st1.acc2, ap_acc_add_ := st1.acc3,
        hits_ := st1.hit } }

/-- The method `LambdaRankObj_MAP::GetMAPAcc` (lines 462-479). -/
def LambdaRankObj_MAP.GetMAPAcc (sorted_list : List ListEntry) : List Quadruple :=
  ((List.range' 1 sorted_list.length).foldl (LambdaRankObj_MAP.accStep sorted_list)
    { hit := 0, acc1 := 0, acc2 := 0, acc3 := 0,
      map_acc := List.replicate sorted_list.length default }).map_acc

/-- The method `LambdaRankObj_MAP::GetLambdaMAP` (lines 429-453). -/
def LambdaRankObj_MAP.GetLambdaMAP (sorted_list : List ListEntry) (index1 index2 : Nat)
    (map_acc : List Quadruple) : ℚ :=
  if index1 = index2
      ∨ (sorted_list.getD index1 default).label = (sorted_list.getD index2 default).label
      ∨ (map_acc.getD (map_acc.length - 1) default).hits_ = 0 then 0
  else
    let i1 := if index1 > index2 then index2 else index1
    let i2 := if index1 > index2 then index1 else index2
    let original := (map_acc.getD i2 default).ap_acc_
    let original :=
      if i1 ≠ 0 then original - (map_acc.getD (i1 - 1) default).ap_acc_ else original
    let changed : ℚ :=
      if (sorted_list.getD i1 default).label < (sorted_list.getD i2 default).label then
        (0 + ((map_acc.getD (i2 - 1) default).ap_acc_add_ - (map_acc.getD i1 default).ap_acc_add_))
          + ((map_acc.getD i1 default).hits_ + 1) / ((i1 : ℚ) + 1)
      else
        (0 + ((map_acc.getD (i2 - 1) default).ap_acc_miss_
            - (map_acc.getD i1 default).ap_acc_miss_))
          + (map_acc.getD i2 default).hits_ / ((i2 : ℚ) + 1)
    let ans := (changed - original) / (map_acc.getD (map_acc.length - 1) default).hits_
    if ans < 0 then -ans else ans

/-- The method `LambdaRankObj_MAP::GetLambdaWeight` (lines 480-486). -/
def LambdaRankObj_MAP.GetLambdaWeight (sorted_list : List ListEntry)
    (pairs : List LambdaPair) : List LambdaPair :=
  let map_acc := LambdaRankObj_MAP.GetMAPAcc sorted_list
  pairs.map (fun p =>
    { p with weight :=
        LambdaRankObj_MAP.GetLambdaMAP sorted_list p.pos_index p.neg_index map_acc })

/-- The number of positive labels among the first `m` entries of a list. -/
def hitsUpTo (l : List ListEntry) (m : Nat) : ℚ :=
  Finset.sum (Finset.range m) (fun k => if 0 < (l.getD k default).label then 1 else 0)

/-- Average precision as the claim words it: `(1 / total hits) * Σ` over the positions `k`
(1-indexed, `k = i + 1`) carrying a positive label of `(number of positive labels among the
first k positions) / k`. -/
def AP (l : List ListEntry) : ℚ :=
  (1 / hitsUpTo l l.length) *
    Finset.sum (Finset.range l.length) (fun i =>
      if 0 < (l.getD i default).label then hitsUpTo l (i + 1) / ((i : ℚ) + 1) else 0)

/-- The contribution of position `k` (0-indexed) to the accumulated precision when the hit
count is shifted by `d`: `(hits + d) / (k + 1)` on a positive label, `0` otherwise. -/
def apTerm (l : List ListEntry) (d : ℚ) (k : Nat) : ℚ :=
  if 0 < (l.getD k default).label then (hitsUpTo l (k + 1) + d) / ((k : ℚ) + 1) else 0

/-- The accumulated precision over the first `m` positions, the hit count shifted by `d`. -/
def apPrefix (l : List ListEntry) (d : ℚ) (m : Nat) : ℚ :=
  Finset.sum (Finset.range m) (apTerm l d)

/-- The list with the entries at positions `i` and `j` exchanged. -/
def swapEntries (l : List ListEntry) (i j : Nat) : List ListEntry :=
  (l.set i (l.getD j default)).set j (l.getD i default)

/-! ## Divisions by zero -/

/-- A floating-point division as far as the rationals can follow it: the quotient when the
divisor is not zero; a division by zero yields an infinity or a NaN, which is no rational. -/
def fdiv (a b : ℚ) : Option ℚ :=
  if b = 0 then none else some (a / b)

/-- The method `LambdaRankObj_NDCG::GetLambdaNDCG` (lines 368-378) with its division by `IDCG`
followed through `fdiv`: `none` when the call divides by zero. -/
def LambdaRankObj_NDCG.GetLambdaNDCG_ieee (M : CMath) (sorted_list : List ListEntry)
    (index1 index2 : Nat) (IDCG : ℚ) : Option ℚ :=
  let l1 := (toInt (sorted_list.getD index1 default).label).toNat
  let l2 := (toInt (sorted_list.getD index2 default).label).toNat
  let original := (2 : ℚ) ^ l1 / M.logf ((index1 : ℚ) + 2) + (2 : ℚ) ^ l2 / M.logf ((index2 : ℚ) + 2)
  let changed := (2 : ℚ) ^ l2 / M.logf ((index1 : ℚ) + 2) + (2 : ℚ) ^ l1 / M.logf ((index2 : ℚ) + 2)
  (fdiv (original - changed) IDCG).map (fun ans => if ans < 0 then -ans else ans)

/-- The method `LambdaRankObj_NDCG::GetLambdaWeight` (lines 380-386) with the divisions
followed through `fdiv`: the weight of each pair, `none` where it comes from a division by
zero. -/
def LambdaRankObj_NDCG.GetLambdaWeight_ieee (M : CMath) (sorted_list : List ListEntry)
    (pairs : List LambdaPair) : List (Option ℚ) :=
  let IDCG := LambdaRankObj_NDCG.GetIDCG M sorted_list
  pairs.map (fun p =>
    LambdaRankObj_NDCG.GetLambdaNDCG_ieee M sorted_list p.pos_index p.neg_index IDCG)

/-- The divisor of the division by the total hit count in `LambdaRankObj_MAP::GetLambdaMAP`
(line 450), `none` when the call returns before it (lines 432-435). -/
def LambdaRankObj_MAP.GetLambdaMAP_divisor (sorted_list : List ListEntry)
    (index1 index2 : Nat) (map_acc : List Quadruple) : Option ℚ :=
  if index1 = index2
      ∨ (sorted_list.getD index1 default).label = (sorted_list.getD index2 default).label
      ∨ (map_acc.getD (map_acc.length - 1) default).hits_ = 0 then none
  else some (map_acc.getD (map_acc.length - 1) default).hits_

/-! ## The pair construction as the specification words it -/

/-- The index of the outside entry on the right of the run as the specification words it:
`r - nLeft + j - i`. -/
def specOutsideIndex (r nLeft i j : Nat) : Nat := r - nLeft + j - i

/-- The pair generated for the position `pid` of the run `[i, j)` and the drawn integer `r`
as the specification words it, with `nLeft = i`. -/
def specSamplePair (rec_ : List (ℚ × Nat)) (i j pid r : Nat) : LambdaPair :=
  if r < i then LambdaPair.new (rec_.getD r (0, 0)).2 (rec_.getD pid (0, 0)).2
  else LambdaPair.new (rec_.getD pid (0, 0)).2 (rec_.getD (specOutsideIndex r i i j) (0, 0)).2

/-! ## Frames of the group loops -/

/-- Modification frame of a step that owns the rows `R`: `b` has the lengths of `a` and
agrees with `a` on every row outside `R`. -/
def Frame (R : Nat → Prop) (a b : GradHess) : Prop :=
  b.grad.length = a.grad.length ∧ b.hess.length = a.hess.length ∧
    ∀ j, ¬ R j → b.grad.getD j 0 = a.grad.getD j 0 ∧ b.hess.getD j 0 = a.hess.getD j 0

/-- Both outputs agree on the rows `R`. -/
def AgreeOn (R : Nat → Prop) (a b : GradHess) : Prop :=
  ∀ j, R j → b.grad.getD j 0 = a.grad.getD j 0 ∧ b.hess.getD j 0 = a.hess.getD j 0

/-! ## A concrete stand-in for `<cmath>` -/

/-- A rational stand-in for `<cmath>` used to run the objectives on concrete inputs:
`expf` is positive, increasing and `1` at `0`; `logf x = 2 (x - 1) / (x + 1)` is the first
term of the series of the logarithm (increasing on the positive numbers, `0` at `1`,
`logf 2 = 2/3` for `ln 2 = 0.693...`, `logf 3 = 1` for `ln 3 = 1.098...`). -/
def CMath.rational : CMath where
  expf := fun x => if 0 ≤ x then 1 + x else 1 / (1 - x)
  logf := fun x => 2 * (x - 1) / (x + 1)

/-! # Properties

All definitions are above this line; what follows are the lemmas and theorems about them. -/

/-! ## Lemmas on vectors -/

theorem length_resize (v : List ℚ) (n : Nat) : (resize v n).length = n := by
  simp [resize]; omega

theorem getD_resize_of_le (v : List ℚ) (n j : Nat) (h : n ≤ j) : (resize v n).getD j 0 = 0 := by
  rw [List.getD_eq_getElem?_getD, List.getElem?_eq_none (by rw [length_resize]; exact h)]
  rfl

theorem length_foldl_set (g : Nat → ℚ) (l : List Nat) (v : List ℚ) :
    (l.foldl (fun v j => v.set j (g j)) v).length = v.length := by
  induction l generalizing v with
  | nil => rfl
  | cons a l ih => simp [ih]

/-- A loop `for j in l: v[j] = g j` leaves `g j` at every visited in-range index and does
not touch the others. -/
theorem getD_foldl_set (g : Nat → ℚ) (l : List Nat) (v : List ℚ) (j : Nat) :
    (l.foldl (fun v j => v.set j (g j)) v).getD j 0
      = if j ∈ l ∧ j < v.length then g j else v.getD j 0 := by
  induction l generalizing v with
  | nil => simp
  | cons a l ih =>
    rw [List.foldl_cons, ih]
    simp only [List.length_set, List.mem_cons]
    by_cases hjl : j ∈ l
    · by_cases hlt : j < v.length
      · simp [hjl, hlt]
      · have hge : v.length ≤ j := by omega
        simp only [hjl, hlt, and_false, if_false, or_true]
        rw [List.getD_eq_getElem?_getD, List.getD_eq_getElem?_getD,
          List.getElem?_eq_none (by simpa using hge), List.getElem?_eq_none hge]
    · by_cases hja : j = a
      · subst hja
        by_cases hlt : j < v.length
        · simp [hjl, hlt, List.getD_eq_getElem?_getD, List.getElem?_set]
        · have hge : v.length ≤ j := by omega
          simp only [hjl, hlt, and_false, if_false, false_and]
          rw [List.getD_eq_getElem?_getD, List.getD_eq_getElem?_getD,
            List.getElem?_eq_none (by simpa using hge), List.getElem?_eq_none hge]
      · have hne : ¬ a = j := fun h => hja h.symm
        simp [hjl, hja, hne, List.getD_eq_getElem?_getD, List.getElem?_set]

/-! ## RegressionObj: lemmas -/

theorem RegressionObj.foldl_row (M : CMath) (o : RegressionObj) (preds : List ℚ) (info : Info)
    (l : List Nat) (s : GradHess) :
    l.foldl (RegressionObj.row M o preds info) s
      = { grad := l.foldl (fun v j => v.set j (o.gradAt M preds info j)) s.grad
          hess := l.foldl (fun v j => v.set j (o.hessAt M preds info j)) s.hess } := by
  induction l generalizing s with
  | nil => rfl
  | cons a l ih =>
    rw [List.foldl_cons, ih]
    rfl

/-! ## C1 -/

/-- C1: for `preds` and `labels` of equal length `n`, `RegressionObj::GetGradient` returns
`grad` and `hess` of length `n` with, for every row `j < n`, `p = PredTransform(preds[j])` and
`w = weight[j] * (scale_pos_weight if labels[j] == 1 else 1)` (a missing weight vector
counting as weight 1): `grad[j] = FirstOrderGradient(p, labels[j]) * w = (p - labels[j]) * w`
and `hess[j] = SecondOrderGradient(p, labels[j]) * w`. -/
theorem C1_regression_gradient (M : CMath) (o : RegressionObj) (preds : List ℚ) (info : Info)
    (grad hess : List ℚ) (hlen : preds.length = info.labels.length) :
    ∃ out, o.GetGradient M preds info grad hess = .ok out ∧
      out.grad.length = preds.length ∧ out.hess.length = preds.length ∧
      ∀ j, j < preds.length →
        (info.weights = none → info.GetWeight j = 1) ∧
        (∀ ws, info.weights = some ws → j < ws.length → info.GetWeight j = ws.getD j 0) ∧
        out.grad.getD j 0
          = o.loss.FirstOrderGradient (o.loss.PredTransform M (preds.getD j 0))
              (info.labels.getD j 0)
            * (info.GetWeight j * (if info.labels.getD j 0 = 1 then o.scale_pos_weight else 1)) ∧
        out.grad.getD j 0
          = (o.loss.PredTransform M (preds.getD j 0) - info.labels.getD j 0)
            * (info.GetWeight j * (if info.labels.getD j 0 = 1 then o.scale_pos_weight else 1)) ∧
        out.hess.getD j 0
          = o.loss.SecondOrderGradient (o.loss.PredTransform M (preds.getD j 0))
              (info.labels.getD j 0)
            * (info.GetWeight j * (if info.labels.getD j 0 = 1 then o.scale_pos_weight else 1)) := by
  have hrun : o.GetGradient M preds info grad hess
      = .ok ((List.range preds.length).foldl (RegressionObj.row M o preds info)
          { grad := resize grad preds.length, hess := resize hess preds.length }) := by
    unfold RegressionObj.GetGradient
    rw [if_neg (not_not.mpr hlen)]
  refine ⟨_, hrun, ?_, ?_, ?_⟩
  · rw [RegressionObj.foldl_row]; simp [length_foldl_set, length_resize]
  · rw [RegressionObj.foldl_row]; simp [length_foldl_set, length_resize]
  · intro j hj
    have hw : (if info.labels.getD j 0 = 1 then info.GetWeight j * o.scale_pos_weight
        else info.GetWeight j)
        = info.GetWeight j * (if info.labels.getD j 0 = 1 then o.scale_pos_weight else 1) := by
      split <;> simp
    refine ⟨?_, ?_, ?_, ?_, ?_⟩
    · intro h; simp [Info.GetWeight, h]
    · intro ws h hlt
      simp only [Info.GetWeight, h, List.getD_eq_getElem?_getD, List.getElem?_eq_getElem hlt,
        Option.getD_some]
    · rw [RegressionObj.foldl_row]
      simp only [getD_foldl_set, List.mem_range, length_resize, hj, and_self, if_true]
      rw [RegressionObj.gradAt, hw]
    · rw [RegressionObj.foldl_row]
      simp only [getD_foldl_set, List.mem_range, length_resize, hj, and_self, if_true]
      rw [RegressionObj.gradAt, hw, LossType.FirstOrderGradient]
    · rw [RegressionObj.foldl_row]
      simp only [getD_foldl_set, List.mem_range, length_resize, hj, and_self, if_true]
      rw [RegressionObj.hessAt, hw]

/-- C1 at a concrete call: two rows, no weights, the second row positive. -/
theorem C1_regression_gradient_witness :
    ∃ out, RegressionObj.GetGradient ⟨fun _ => 1, fun _ => 0⟩ ⟨3, ⟨.Regression, 0⟩⟩ [2, 5]
        ⟨[0, 1], none, []⟩ [] [] = .ok out ∧
      out.grad.length = 2 ∧ out.hess.length = 2 :=
  let ⟨out, h, hg, hh, _⟩ := C1_regression_gradient ⟨fun _ => 1, fun _ => 0⟩
    ⟨3, ⟨.Regression, 0⟩⟩ [2, 5] ⟨[0, 1], none, []⟩ [] [] rfl
  ⟨out, h, hg, hh⟩

/-! ## Group boundaries -/

theorem mem_groupRows (gptr : List Nat) (k j : Nat) :
    j ∈ groupRows gptr k ↔ gptr.getD k 0 ≤ j ∧ j < gptr.getD (k + 1) 0 := by
  simp only [groupRows, List.mem_range'_1]
  omega

theorem getD_le_of_sorted (gptr : List Nat) (hs : gptr.Sorted (· ≤ ·)) (a b : Nat)
    (hab : a ≤ b) (hb : b < gptr.length) : gptr.getD a 0 ≤ gptr.getD b 0 := by
  have ha : a < gptr.length := by omega
  rw [List.getD_eq_getElem?_getD, List.getD_eq_getElem?_getD, List.getElem?_eq_getElem ha,
    List.getElem?_eq_getElem hb]
  simp only [Option.getD_some]
  rcases Nat.lt_or_eq_of_le hab with h | h
  · exact List.pairwise_iff_getElem.mp hs a b ha hb h
  · subst h; exact le_refl _

theorem getD_le_getLastD (gptr : List Nat) (hs : gptr.Sorted (· ≤ ·)) (a : Nat)
    (ha : a < gptr.length) : gptr.getD a 0 ≤ gptr.getLastD 0 := by
  have hne : gptr ≠ [] := by intro h; simp [h] at ha
  have hl : gptr.getLastD 0 = gptr.getD (gptr.length - 1) 0 := by
    rw [List.getLastD_eq_getLast?, List.getLast?_eq_getElem?, List.getD_eq_getElem?_getD]
  rw [hl]
  exact getD_le_of_sorted gptr hs a _ (by omega) (by omega)

/-! ## Frames: what a group step may change -/

theorem groupRows_disjoint (gptr : List Nat) (hs : gptr.Sorted (· ≤ ·)) (k m j : Nat)
    (hkm : k < m) (hm : m < gptr.length) (hj : j ∈ groupRows gptr k) : j ∉ groupRows gptr m := by
  rw [mem_groupRows] at hj ⊢
  have := getD_le_of_sorted gptr hs (k + 1) m (by omega) hm
  omega

theorem groupRows_lt (gptr : List Nat) (hs : gptr.Sorted (· ≤ ·)) (k j : Nat)
    (hk : k + 1 < gptr.length) (hj : j ∈ groupRows gptr k) : j < gptr.getLastD 0 := by
  rw [mem_groupRows] at hj
  have := getD_le_getLastD gptr hs (k + 1) hk
  omega

/-- Running the steps `0 .. m-1` of a loop in order, step `k` owning the rows `R k` and the
row sets being pairwise disjoint: when every step succeeds, establishes its postcondition
`Q k` on its rows and respects its frame, all postconditions hold at the end and the rows
owned by no step are unchanged. -/
theorem foldlM_frames {σ : Type} (view : σ → GradHess) (step : σ → Nat → Except Error σ)
    (R : Nat → Nat → Prop) (n : Nat)
    (Q : Nat → GradHess → Prop)
    (hQ : ∀ k a b, Q k a → AgreeOn (R k) a b → Q k b)
    (m : Nat) (hdisj : ∀ k l j, k < l → l < m → R k j → ¬ R l j)
    (hstep : ∀ k, k < m → ∀ s, (view s).grad.length = n → (view s).hess.length = n →
      ∃ s', step s k = .ok s' ∧ Q k (view s') ∧ Frame (R k) (view s) (view s'))
    (s0 : σ) (hg0 : (view s0).grad.length = n) (hh0 : (view s0).hess.length = n) :
    ∃ out, (List.range m).foldlM step s0 = .ok out ∧
      (view out).grad.length = n ∧ (view out).hess.length = n ∧
      (∀ k, k < m → Q k (view out)) ∧
      (∀ j, (∀ k, k < m → ¬ R k j) →
        (view out).grad.getD j 0 = (view s0).grad.getD j 0 ∧
        (view out).hess.getD j 0 = (view s0).hess.getD j 0) := by
  induction m with
  | zero =>
    refine ⟨s0, rfl, hg0, hh0, ?_, ?_⟩
    · intro k hk; omega
    · intro j _; exact ⟨rfl, rfl⟩
  | succ m ih =>
    obtain ⟨mid, hmid, hg, hh, hQs, hout⟩ :=
      ih (fun k l j hkl hl => hdisj k l j hkl (by omega)) (fun k hk s => hstep k (by omega) s)
    obtain ⟨s', hs', hQm, hfr⟩ := hstep m (by omega) mid hg hh
    refine ⟨s', ?_, ?_, ?_, ?_, ?_⟩
    · rw [List.range_succ, List.foldlM_append, hmid]
      simp only [List.foldlM_cons, List.foldlM_nil]
      show (step mid m >>= fun s => pure s) = Except.ok s'
      rw [hs']; rfl
    · rw [hfr.1, hg]
    · rw [hfr.2.1, hh]
    · intro k hk
      rcases Nat.lt_or_eq_of_le (Nat.lt_succ_iff.mp hk) with h | h
      · refine hQ k _ _ (hQs k h) ?_
        intro j hj
        exact hfr.2.2 j (hdisj k m j h (by omega) hj)
      · subst h; exact hQm
    · intro j hj
      have h1 := hfr.2.2 j (hj m (by omega))
      have h2 := hout j (fun k hk => hj k (by omega))
      exact ⟨h1.1.trans h2.1, h1.2.trans h2.2⟩

/-! ## SoftmaxRankObj: lemmas -/

theorem SoftmaxRankObj.foldl_scanRow_softmax (preds : List ℚ) (info : Info) (rows : List Nat)
    (st : SoftmaxRankObj.Scan) :
    rows.foldl (SoftmaxRankObj.scanRow preds info) st
      = { rec_ := st.rec_ ++ rows.map (fun j => preds.getD j 0)
          out := { grad := rows.foldl (fun v j => v.set j 0) st.out.grad
                   hess := rows.foldl (fun v j => v.set j 0) st.out.hess }
          nhit := rows.foldl (fun (n : Int) j => toInt ((n : ℚ) + info.labels.getD j 0))
            st.nhit } := by
  induction rows generalizing st with
  | nil => simp
  | cons a l ih =>
    rw [List.foldl_cons, ih]
    simp [SoftmaxRankObj.scanRow]

theorem SoftmaxRankObj.foldl_fillRow (info : Info) (rec_ : List ℚ) (lo : Nat)
    (rows : List Nat) (s : GradHess) :
    rows.foldl (SoftmaxRankObj.fillRow info rec_ lo) s
      = { grad := rows.foldl
            (fun v j => v.set j (rec_.getD (j - lo) 0 - info.labels.getD j 0)) s.grad
          hess := rows.foldl
            (fun v j => v.set j (2 * rec_.getD (j - lo) 0 * (1 - rec_.getD (j - lo) 0)))
            s.hess } := by
  induction rows generalizing s with
  | nil => rfl
  | cons a l ih =>
    rw [List.foldl_cons, ih]
    rfl

/-- A group step of `SoftmaxRankObj::GetGradient` whose `nhit` is 0 or 1 succeeds, writes the
rows of the group and leaves the others. -/
theorem SoftmaxRankObj.group_spec (M : CMath) (preds : List ℚ) (info : Info) (s : GradHess)
    (k : Nat) (hn : SoftmaxRankObj.nhit info k = 0 ∨ SoftmaxRankObj.nhit info k = 1) :
    ∃ s', SoftmaxRankObj.group M preds info s k = .ok s' ∧
      s'.grad.length = s.grad.length ∧ s'.hess.length = s.hess.length ∧
      ∀ j,
        s'.grad.getD j 0
          = (if j ∈ groupRows info.group_ptr k ∧ j < s.grad.length then
              (if SoftmaxRankObj.nhit info k = 1 then
                SoftmaxRankObj.prob M preds info k j - info.labels.getD j 0 else 0)
             else s.grad.getD j 0) ∧
        s'.hess.getD j 0
          = (if j ∈ groupRows info.group_ptr k ∧ j < s.hess.length then
              (if SoftmaxRankObj.nhit info k = 1 then
                2 * SoftmaxRankObj.prob M preds info k j
                  * (1 - SoftmaxRankObj.prob M preds info k j) else 0)
             else s.hess.getD j 0) := by
  unfold SoftmaxRankObj.group
  simp only [SoftmaxRankObj.foldl_scanRow_softmax, List.nil_append, SoftmaxRankObj.foldl_fillRow]
  change ∃ s', (if SoftmaxRankObj.nhit info k = 1 then _
    else if SoftmaxRankObj.nhit info k = 0 then _ else _) = Except.ok s' ∧ _
  rcases hn with h0 | h1
  · rw [if_neg (by rw [h0]; decide), if_pos h0]
    refine ⟨_, rfl, by simp [length_foldl_set], by simp [length_foldl_set], ?_⟩
    intro j
    simp only [getD_foldl_set, h0]
    simp
  · rw [if_pos h1]
    refine ⟨_, rfl, by simp [length_foldl_set], by simp [length_foldl_set], ?_⟩
    intro j
    simp only [getD_foldl_set, length_foldl_set, h1, if_true, SoftmaxRankObj.prob,
      SoftmaxRankObj.probs]
    constructor
    · by_cases hj : j ∈ groupRows info.group_ptr k ∧ j < s.grad.length
      · simp [hj]
      · simp [hj]
    · by_cases hj : j ∈ groupRows info.group_ptr k ∧ j < s.hess.length
      · simp [hj]
      · simp [hj]

theorem SoftmaxRankObj.group_error (M : CMath) (preds : List ℚ) (info : Info) (s : GradHess)
    (k : Nat) (h0 : SoftmaxRankObj.nhit info k ≠ 0) (h1 : SoftmaxRankObj.nhit info k ≠ 1) :
    SoftmaxRankObj.group M preds info s k = .error .softmaxMultipleLabels := by
  unfold SoftmaxRankObj.group
  simp only [SoftmaxRankObj.foldl_scanRow_softmax, List.nil_append]
  change (if SoftmaxRankObj.nhit info k = 1 then _
    else if SoftmaxRankObj.nhit info k = 0 then _ else _) = _
  rw [if_neg h1, if_neg h0]

theorem SoftmaxRankObj.GetGradient_softmax_eq (M : CMath) (preds : List ℚ) (info : Info)
    (grad hess : List ℚ) (hlen : preds.length = info.labels.length)
    (hne : info.group_ptr ≠ []) (hlast : info.group_ptr.getLastD 0 = preds.length) :
    SoftmaxRankObj.GetGradient M preds info grad hess
      = (List.range (info.group_ptr.length - 1)).foldlM (SoftmaxRankObj.group M preds info)
          { grad := resize grad preds.length, hess := resize hess preds.length } := by
  unfold SoftmaxRankObj.GetGradient
  rw [if_neg (not_not.mpr hlen)]
  have h : info.group_ptr.length ≠ 0 ∧ info.group_ptr.getLastD 0 = preds.length :=
    ⟨fun h => hne (List.length_eq_zero.mp h), hlast⟩
  rw [if_neg (not_not.mpr h)]

/-- The whole call of `SoftmaxRankObj::GetGradient`: when no group trips the `nhit`
assertion, it returns, and every row of every group holds the value of its group. -/
theorem SoftmaxRankObj.GetGradient_spec (M : CMath) (preds : List ℚ) (info : Info)
    (grad hess : List ℚ) (hlen : preds.length = info.labels.length)
    (hne : info.group_ptr ≠ []) (hlast : info.group_ptr.getLastD 0 = preds.length)
    (hs : info.group_ptr.Sorted (· ≤ ·))
    (hok : ∀ k, k + 1 < info.group_ptr.length →
      SoftmaxRankObj.nhit info k = 0 ∨ SoftmaxRankObj.nhit info k = 1) :
    ∃ out, SoftmaxRankObj.GetGradient M preds info grad hess = .ok out ∧
      out.grad.length = preds.length ∧ out.hess.length = preds.length ∧
      ∀ k, k + 1 < info.group_ptr.length → ∀ j, j ∈ groupRows info.group_ptr k →
        out.grad.getD j 0
          = (if SoftmaxRankObj.nhit info k = 1 then
              SoftmaxRankObj.prob M preds info k j - info.labels.getD j 0 else 0) ∧
        out.hess.getD j 0
          = (if SoftmaxRankObj.nhit info k = 1 then
              2 * SoftmaxRankObj.prob M preds info k j
                * (1 - SoftmaxRankObj.prob M preds info k j) else 0) := by
  rw [SoftmaxRankObj.GetGradient_softmax_eq M preds info grad hess hlen hne hlast]
  have hpos : 0 < info.group_ptr.length := List.length_pos.mpr hne
  obtain ⟨out, hout, hg, hh, hQ, _⟩ := foldlM_frames (fun s => s)
    (SoftmaxRankObj.group M preds info) (fun k j => j ∈ groupRows info.group_ptr k) preds.length
    (fun k gh => ∀ j, j ∈ groupRows info.group_ptr k →
        gh.grad.getD j 0
          = (if SoftmaxRankObj.nhit info k = 1 then
              SoftmaxRankObj.prob M preds info k j - info.labels.getD j 0 else 0) ∧
        gh.hess.getD j 0
          = (if SoftmaxRankObj.nhit info k = 1 then
              2 * SoftmaxRankObj.prob M preds info k j
                * (1 - SoftmaxRankObj.prob M preds info k j) else 0))
    (fun k a b hQa hab j hj => by
      rw [(hab j hj).1, (hab j hj).2]; exact hQa j hj)
    (info.group_ptr.length - 1)
    (fun k l j hkl hl hj => groupRows_disjoint info.group_ptr hs k l j hkl (by omega) hj)
    (fun k hk s hsg hsh => by
      have hsg' : s.grad.length = preds.length := hsg
      have hsh' : s.hess.length = preds.length := hsh
      obtain ⟨s', hs', hg', hh', hval⟩ :=
        SoftmaxRankObj.group_spec M preds info s k (hok k (by omega))
      refine ⟨s', hs', ?_, hg', hh', ?_⟩
      · intro j hj
        have hjn : j < preds.length := by
          rw [← hlast]; exact groupRows_lt info.group_ptr hs k j (by omega) hj
        have h1 := (hval j).1
        have h2 := (hval j).2
        rw [if_pos ⟨hj, by omega⟩] at h1 h2
        exact ⟨h1, h2⟩
      · intro j hj
        have h1 := (hval j).1
        have h2 := (hval j).2
        rw [if_neg (fun h => hj h.1)] at h1 h2
        exact ⟨h1, h2⟩)
    { grad := resize grad preds.length, hess := resize hess preds.length }
    (length_resize _ _) (length_resize _ _)
  exact ⟨out, hout, hg, hh, fun k hk => hQ k (by omega)⟩

theorem toInt_intCast (n : Int) : toInt (n : ℚ) = n := by
  unfold toInt
  split <;> simp

/-- On a group whose labels are all 0 or 1, `nhit` is the number of labels equal to 1. -/
theorem foldl_nhit_binary (labels : List ℚ) (rows : List Nat)
    (hb : ∀ j, j ∈ rows → labels.getD j 0 = 0 ∨ labels.getD j 0 = 1) (n : Int) :
    rows.foldl (fun (n : Int) j => toInt ((n : ℚ) + labels.getD j 0)) n
      = n + (rows.countP (fun j => decide (labels.getD j 0 = 1)) : Nat) := by
  induction rows generalizing n with
  | nil => simp
  | cons a l ih =>
    rw [List.foldl_cons, ih (fun j hj => hb j (List.mem_cons_of_mem _ hj))]
    rcases hb a (List.mem_cons_self _ _) with h | h
    · have : toInt ((n : ℚ) + labels.getD a 0) = n := by
        rw [h, add_zero, toInt_intCast]
      rw [this, List.countP_cons, h]
      simp
    · have : toInt ((n : ℚ) + labels.getD a 0) = n + 1 := by
        rw [h]
        have : ((n : ℚ) + 1) = ((n + 1 : Int) : ℚ) := by push_cast; ring
        rw [this, toInt_intCast]
      rw [this, List.countP_cons, h]
      simp only [decide_True, if_true]
      push_cast; ring

theorem SoftmaxRankObj.nhit_binary (info : Info) (k : Nat)
    (hb : ∀ j, j ∈ groupRows info.group_ptr k →
      info.labels.getD j 0 = 0 ∨ info.labels.getD j 0 = 1) :
    SoftmaxRankObj.nhit info k
      = ((groupRows info.group_ptr k).countP
          (fun j => decide (info.labels.getD j 0 = 1)) : Nat) := by
  unfold SoftmaxRankObj.nhit
  rw [foldl_nhit_binary info.labels _ hb 0]
  simp

theorem CMath.rational_expf_pos (x : ℚ) : 0 < CMath.rational.expf x := by
  unfold CMath.rational
  simp only
  split
  · linarith
  · apply div_pos one_pos; linarith

/-! ## C7 -/

/-- C7: in a call of `SoftmaxRankObj::GetGradient` that passes its assertions (equal sizes,
group boundaries ending at `preds.size()`, no group with `nhit` outside {0, 1}), for every
group whose labels are all 0 or 1, with `p` the softmax of the raw scores of the group: if
exactly one label is 1, every row `j` of the group gets `grad[j] = p_j - label_j` and
`hess[j] = 2 * p_j * (1 - p_j)`; if no label is 1, every row gets `grad[j] = hess[j] = 0`. -/
theorem C7_softmax_rank_gradient (M : CMath) (preds : List ℚ) (info : Info)
    (grad hess : List ℚ) (hlen : preds.length = info.labels.length)
    (hne : info.group_ptr ≠ []) (hlast : info.group_ptr.getLastD 0 = preds.length)
    (hs : info.group_ptr.Sorted (· ≤ ·))
    (hok : ∀ k, k + 1 < info.group_ptr.length →
      SoftmaxRankObj.nhit info k = 0 ∨ SoftmaxRankObj.nhit info k = 1) :
    ∃ out, SoftmaxRankObj.GetGradient M preds info grad hess = .ok out ∧
      ∀ k, k + 1 < info.group_ptr.length →
        (∀ j, j ∈ groupRows info.group_ptr k →
          info.labels.getD j 0 = 0 ∨ info.labels.getD j 0 = 1) →
        ((groupRows info.group_ptr k).countP (fun j => decide (info.labels.getD j 0 = 1)) = 1 →
          ∀ j, j ∈ groupRows info.group_ptr k →
            out.grad.getD j 0
              = (Softmax M ((groupRows info.group_ptr k).map (fun i => preds.getD i 0))).getD
                  (j - info.group_ptr.getD k 0) 0 - info.labels.getD j 0 ∧
            out.hess.getD j 0
              = 2 * (Softmax M ((groupRows info.group_ptr k).map (fun i => preds.getD i 0))).getD
                  (j - info.group_ptr.getD k 0) 0
                * (1 - (Softmax M ((groupRows info.group_ptr k).map
                    (fun i => preds.getD i 0))).getD (j - info.group_ptr.getD k 0) 0)) ∧
        ((groupRows info.group_ptr k).countP (fun j => decide (info.labels.getD j 0 = 1)) = 0 →
          ∀ j, j ∈ groupRows info.group_ptr k →
            out.grad.getD j 0 = 0 ∧ out.hess.getD j 0 = 0) := by
  obtain ⟨out, hout, _, _, hval⟩ :=
    SoftmaxRankObj.GetGradient_spec M preds info grad hess hlen hne hlast hs hok
  refine ⟨out, hout, ?_⟩
  intro k hk hb
  have hn := SoftmaxRankObj.nhit_binary info k hb
  constructor
  · intro h1 j hj
    have hn1 : SoftmaxRankObj.nhit info k = 1 := by rw [hn, h1]; rfl
    have := hval k hk j hj
    rw [if_pos hn1, if_pos hn1] at this
    exact this
  · intro h0 j hj
    have hn0 : ¬ SoftmaxRankObj.nhit info k = 1 := by rw [hn, h0]; decide
    have := hval k hk j hj
    rw [if_neg hn0, if_neg hn0] at this
    exact this

theorem SoftmaxRankObj.nhit_sample :
    ∀ k, k + 1 < ([0, 3] : List Nat).length →
      SoftmaxRankObj.nhit ⟨[0, 1, 0], none, [0, 3]⟩ k = 0 ∨
      SoftmaxRankObj.nhit ⟨[0, 1, 0], none, [0, 3]⟩ k = 1 := by
  intro k hk
  have hk0 : k = 0 := by simp at hk; omega
  subst hk0
  right
  rw [SoftmaxRankObj.nhit_binary]
  · simp [groupRows, List.range']
  · intro j hj
    simp [groupRows, List.range'] at hj
    rcases hj with h | h | h <;> subst h <;> simp

/-- C7 at a concrete call: one group of three rows with labels `[0, 1, 0]`. -/
theorem C7_softmax_rank_gradient_witness :
    ∃ out, SoftmaxRankObj.GetGradient CMath.rational [1, 2, 3] ⟨[0, 1, 0], none, [0, 3]⟩ [] []
      = .ok out :=
  let ⟨out, h, _⟩ := C7_softmax_rank_gradient CMath.rational [1, 2, 3]
    ⟨[0, 1, 0], none, [0, 3]⟩ [] [] rfl (by simp) rfl (by simp) SoftmaxRankObj.nhit_sample
  ⟨out, h⟩

/-! ## Softmax: lemmas -/

theorem length_Softmax (M : CMath) (l : List ℚ) : (Softmax M l).length = l.length := by
  simp [Softmax]

theorem sum_map_div_const (l : List ℚ) (c : ℚ) : (l.map (fun x => x / c)).sum = l.sum / c := by
  induction l with
  | nil => simp
  | cons a l ih => simp [ih, add_div]

theorem sum_pos_of_forall_pos (l : List ℚ) (hne : l ≠ []) (h : ∀ x, x ∈ l → 0 < x) :
    0 < l.sum := by
  induction l with
  | nil => exact absurd rfl hne
  | cons a l ih =>
    rw [List.sum_cons]
    by_cases hl : l = []
    · subst hl; simpa using h a (List.mem_cons_self _ _)
    · have h1 := h a (List.mem_cons_self _ _)
      have h2 := ih hl (fun x hx => h x (List.mem_cons_of_mem _ hx))
      linarith

/-- With a positive `expf`, the softmax of a non-empty vector sums to 1. -/
theorem sum_Softmax (M : CMath) (hexp : ∀ x, 0 < M.expf x) (l : List ℚ) (hne : l ≠ []) :
    (Softmax M l).sum = 1 := by
  unfold Softmax
  simp only
  rw [sum_map_div_const]
  apply div_self
  apply ne_of_gt
  apply sum_pos_of_forall_pos
  · simpa using hne
  · intro x hx
    rw [List.mem_map] at hx
    obtain ⟨y, _, rfl⟩ := hx
    exact hexp _

theorem map_getD_range' (L : List ℚ) (lo : Nat) :
    (List.range' lo L.length).map (fun j => L.getD (j - lo) 0) = L := by
  induction L generalizing lo with
  | nil => rfl
  | cons a L ih =>
    rw [List.length_cons, List.range'_succ, List.map_cons]
    congr 1
    · simp
    · refine Eq.trans ?_ (ih (lo + 1))
      apply List.map_congr_left
      intro j hj
      rw [List.mem_range'_1] at hj
      have : j - lo = (j - (lo + 1)) + 1 := by omega
      rw [this, List.getD_cons_succ]

theorem sum_map_binary (labels : List ℚ) (rows : List Nat)
    (hb : ∀ j, j ∈ rows → labels.getD j 0 = 0 ∨ labels.getD j 0 = 1) :
    (rows.map (fun j => labels.getD j 0)).sum
      = (rows.countP (fun j => decide (labels.getD j 0 = 1)) : Nat) := by
  induction rows with
  | nil => simp
  | cons a l ih =>
    rw [List.map_cons, List.sum_cons, ih (fun j hj => hb j (List.mem_cons_of_mem _ hj)),
      List.countP_cons]
    rcases hb a (List.mem_cons_self _ _) with h | h
    · rw [h]; simp
    · rw [h]
      simp only [decide_True, if_true]
      push_cast; ring

theorem sum_map_sub (rows : List Nat) (f g : Nat → ℚ) :
    (rows.map (fun j => f j - g j)).sum = (rows.map f).sum - (rows.map g).sum := by
  induction rows with
  | nil => simp
  | cons a l ih => simp only [List.map_cons, List.sum_cons, ih]; ring

/-- The softmax probabilities of the rows of a non-empty group add up to 1. -/
theorem SoftmaxRankObj.sum_prob (M : CMath) (hexp : ∀ x, 0 < M.expf x) (preds : List ℚ)
    (info : Info) (k : Nat) (hne : groupRows info.group_ptr k ≠ []) :
    ((groupRows info.group_ptr k).map (fun j => SoftmaxRankObj.prob M preds info k j)).sum
      = 1 := by
  have hlen : (SoftmaxRankObj.probs M preds info k).length
      = info.group_ptr.getD (k + 1) 0 - info.group_ptr.getD k 0 := by
    simp [SoftmaxRankObj.probs, length_Softmax, groupRows]
  have h := map_getD_range' (SoftmaxRankObj.probs M preds info k) (info.group_ptr.getD k 0)
  rw [hlen] at h
  unfold SoftmaxRankObj.prob
  rw [show groupRows info.group_ptr k = List.range' (info.group_ptr.getD k 0)
    (info.group_ptr.getD (k + 1) 0 - info.group_ptr.getD k 0) from rfl, h]
  apply sum_Softmax M hexp
  intro h0
  apply hne
  simpa using h0

/-! ## C9 -/

/-- C9: in a call of `SoftmaxRankObj::GetGradient` that passes its assertions, with a
positive `expf`, for every group with exactly one label equal to 1 and all other labels 0:
the gradients of the rows of the group sum to 0, the row labelled 1 has gradient `p - 1`
and every other row has gradient `p`, `p` being the softmax probability of the row. -/
theorem C9_softmax_rank_onehot (M : CMath) (hexp : ∀ x, 0 < M.expf x) (preds : List ℚ)
    (info : Info) (grad hess : List ℚ) (hlen : preds.length = info.labels.length)
    (hne : info.group_ptr ≠ []) (hlast : info.group_ptr.getLastD 0 = preds.length)
    (hs : info.group_ptr.Sorted (· ≤ ·))
    (hok : ∀ k, k + 1 < info.group_ptr.length →
      SoftmaxRankObj.nhit info k = 0 ∨ SoftmaxRankObj.nhit info k = 1)
    (k : Nat) (hk : k + 1 < info.group_ptr.length)
    (hb : ∀ j, j ∈ groupRows info.group_ptr k →
      info.labels.getD j 0 = 0 ∨ info.labels.getD j 0 = 1)
    (h1 : (groupRows info.group_ptr k).countP (fun j => decide (info.labels.getD j 0 = 1)) = 1) :
    ∃ out, SoftmaxRankObj.GetGradient M preds info grad hess = .ok out ∧
      ((groupRows info.group_ptr k).map (fun j => out.grad.getD j 0)).sum = 0 ∧
      ∀ j, j ∈ groupRows info.group_ptr k →
        (info.labels.getD j 0 = 1 →
          out.grad.getD j 0
            = (Softmax M ((groupRows info.group_ptr k).map (fun i => preds.getD i 0))).getD
                (j - info.group_ptr.getD k 0) 0 - 1) ∧
        (info.labels.getD j 0 = 0 →
          out.grad.getD j 0
            = (Softmax M ((groupRows info.group_ptr k).map (fun i => preds.getD i 0))).getD
                (j - info.group_ptr.getD k 0) 0) := by
  obtain ⟨out, hout, _, _, hval⟩ :=
    SoftmaxRankObj.GetGradient_spec M preds info grad hess hlen hne hlast hs hok
  have hn1 : SoftmaxRankObj.nhit info k = 1 := by
    rw [SoftmaxRankObj.nhit_binary info k hb, h1]; rfl
  have hg : ∀ j, j ∈ groupRows info.group_ptr k →
      out.grad.getD j 0 = SoftmaxRankObj.prob M preds info k j - info.labels.getD j 0 := by
    intro j hj
    have := (hval k hk j hj).1
    rw [if_pos hn1] at this
    exact this
  refine ⟨out, hout, ?_, ?_⟩
  · rw [List.map_congr_left hg, sum_map_sub, sum_map_binary info.labels _ hb, h1]
    rw [SoftmaxRankObj.sum_prob M hexp preds info k]
    · norm_num
    · intro h0
      rw [h0] at h1
      simp at h1
  · intro j hj
    constructor
    · intro hl
      rw [hg j hj, hl]; rfl
    · intro hl
      rw [hg j hj, hl, sub_zero]; rfl

/-- C9 at a concrete call: one group of three rows with labels `[0, 1, 0]`. -/
theorem C9_softmax_rank_onehot_witness :
    ∃ out, SoftmaxRankObj.GetGradient CMath.rational [1, 2, 3] ⟨[0, 1, 0], none, [0, 3]⟩ [] []
        = .ok out ∧
      ((groupRows [0, 3] 0).map (fun j => out.grad.getD j 0)).sum = 0 :=
  let ⟨out, h, hsum, _⟩ := C9_softmax_rank_onehot CMath.rational CMath.rational_expf_pos
    [1, 2, 3] ⟨[0, 1, 0], none, [0, 3]⟩ [] [] rfl (by simp) rfl (by simp)
    SoftmaxRankObj.nhit_sample 0 (by simp)
    (by
      intro j hj
      simp [groupRows, List.range'] at hj
      rcases hj with h | h | h <;> subst h <;> simp)
    (by simp [groupRows, List.range'])
  ⟨out, h, hsum⟩

/-! ## C8 -/

/-- A sequential loop of fallible steps whose failure depends on the index only fails
exactly when some visited index fails. -/
theorem foldlM_error_iff {σ : Type} (step : σ → Nat → Except Error σ) (e : Error)
    (F : Nat → Prop) (l : List Nat)
    (h : ∀ k, k ∈ l → ∀ s, (F k → step s k = .error e) ∧ (¬ F k → ∃ s', step s k = .ok s'))
    (s : σ) : l.foldlM step s = .error e ↔ ∃ k, k ∈ l ∧ F k := by
  induction l generalizing s with
  | nil =>
    simp only [List.foldlM_nil, List.not_mem_nil, false_and, exists_false, iff_false]
    intro h'; cases h'
  | cons a l ih =>
    rw [List.foldlM_cons]
    by_cases hF : F a
    · rw [(h a (List.mem_cons_self _ _) s).1 hF]
      constructor
      · intro _; exact ⟨a, List.mem_cons_self _ _, hF⟩
      · intro _; rfl
    · obtain ⟨s', hs'⟩ := (h a (List.mem_cons_self _ _) s).2 hF
      rw [hs']
      show l.foldlM step s' = .error e ↔ _
      rw [ih (fun k hk => h k (List.mem_cons_of_mem _ hk)) s']
      constructor
      · rintro ⟨k, hk, hFk⟩; exact ⟨k, List.mem_cons_of_mem _ hk, hFk⟩
      · rintro ⟨k, hk, hFk⟩
        rcases List.mem_cons.mp hk with h1 | h1
        · subst h1; exact absurd hFk hF
        · exact ⟨k, h1, hFk⟩

theorem toInt_half : toInt (1 / 2) = 0 := by
  unfold toInt
  rw [if_pos (by norm_num), Int.floor_eq_iff]
  norm_num

/-- C8 as stated fails: with labels `[1/2, 1/2]` in one group there are two positive labels,
yet `nhit` (an `int` that accumulates the label values) stays 0 and the call succeeds. -/
theorem C8_multiple_labels_counterexample :
    ¬ (SoftmaxRankObj.GetGradient CMath.rational [0, 0] ⟨[1 / 2, 1 / 2], none, [0, 2]⟩ [] []
          = .error .softmaxMultipleLabels ↔
        ∃ k, k + 1 < ([0, 2] : List Nat).length ∧
          1 < positiveCount ⟨[1 / 2, 1 / 2], none, [0, 2]⟩ k) := by
  intro h
  have hr : ∃ k, k + 1 < ([0, 2] : List Nat).length ∧
      1 < positiveCount ⟨[1 / 2, 1 / 2], none, [0, 2]⟩ k :=
    ⟨0, by simp, by simp [positiveCount, groupRows, List.range']⟩
  have herr := h.mpr hr
  have hn : ∀ k, k + 1 < ([0, 2] : List Nat).length →
      SoftmaxRankObj.nhit ⟨[1 / 2, 1 / 2], none, [0, 2]⟩ k = 0 ∨
      SoftmaxRankObj.nhit ⟨[1 / 2, 1 / 2], none, [0, 2]⟩ k = 1 := by
    intro k hk
    have hk0 : k = 0 := by simp at hk; omega
    subst hk0
    left
    simp only [SoftmaxRankObj.nhit, groupRows, List.getD_cons_zero, List.getD_cons_succ,
      List.range', List.foldl_cons, List.foldl_nil, Int.cast_zero, zero_add, toInt_half]
  obtain ⟨out, hout, _⟩ := SoftmaxRankObj.GetGradient_spec CMath.rational [0, 0]
    ⟨[1 / 2, 1 / 2], none, [0, 2]⟩ [] [] rfl (by simp) rfl (by simp) hn
  rw [hout] at herr
  cases herr

theorem positiveCount_binary (info : Info) (k : Nat)
    (hb : ∀ j, info.labels.getD j 0 = 0 ∨ info.labels.getD j 0 = 1) :
    positiveCount info k
      = (groupRows info.group_ptr k).countP (fun j => decide (info.labels.getD j 0 = 1)) := by
  unfold positiveCount
  apply List.countP_congr
  intro j _
  rcases hb j with h | h <;> rw [h] <;> simp

theorem getD_binary (labels : List ℚ) (hb : ∀ x, x ∈ labels → x = 0 ∨ x = 1) (j : Nat) :
    labels.getD j 0 = 0 ∨ labels.getD j 0 = 1 := by
  by_cases hj : j < labels.length
  · rw [List.getD_eq_getElem?_getD, List.getElem?_eq_getElem hj]
    exact hb _ (List.getElem_mem _)
  · left
    rw [List.getD_eq_getElem?_getD, List.getElem?_eq_none (by omega)]
    rfl

/-- C8 (amended): when every label is 0 or 1, `preds` and `labels` have equal length and the
group boundaries are present and end at `preds.size()`, `SoftmaxRankObj::GetGradient` fails with
"softmax does not allow multiple labels" if and only if some group contains more than one
positive label. -/
theorem C8_multiple_labels_binary (M : CMath) (preds : List ℚ) (info : Info)
    (grad hess : List ℚ) (hlen : preds.length = info.labels.length)
    (hne : info.group_ptr ≠ []) (hlast : info.group_ptr.getLastD 0 = preds.length)
    (hb : ∀ x, x ∈ info.labels → x = 0 ∨ x = 1) :
    SoftmaxRankObj.GetGradient M preds info grad hess = .error .softmaxMultipleLabels ↔
      ∃ k, k + 1 < info.group_ptr.length ∧ 1 < positiveCount info k := by
  have hb' := getD_binary info.labels hb
  rw [SoftmaxRankObj.GetGradient_softmax_eq M preds info grad hess hlen hne hlast]
  rw [foldlM_error_iff (SoftmaxRankObj.group M preds info) .softmaxMultipleLabels
    (fun k => 1 < positiveCount info k)]
  · constructor
    · rintro ⟨k, hk, hF⟩
      exact ⟨k, by rw [List.mem_range] at hk; omega, hF⟩
    · rintro ⟨k, hk, hF⟩
      exact ⟨k, by rw [List.mem_range]; omega, hF⟩
  · intro k _ s
    have hn := SoftmaxRankObj.nhit_binary info k (fun j _ => hb' j)
    rw [← positiveCount_binary info k hb'] at hn
    constructor
    · intro hF
      apply SoftmaxRankObj.group_error
      · rw [hn]; omega
      · rw [hn]; omega
    · intro hF
      have h01 : SoftmaxRankObj.nhit info k = 0 ∨ SoftmaxRankObj.nhit info k = 1 := by
        rw [hn]; omega
      obtain ⟨s', hs', _⟩ := SoftmaxRankObj.group_spec M preds info s k h01
      exact ⟨s', hs'⟩

/-- C8 (amended) at a concrete call: two groups, the second with two labels equal to 1. -/
theorem C8_multiple_labels_binary_witness :
    SoftmaxRankObj.GetGradient CMath.rational [0, 0, 0] ⟨[0, 1, 1], none, [0, 1, 3]⟩ [] []
      = .error .softmaxMultipleLabels :=
  (C8_multiple_labels_binary CMath.rational [0, 0, 0] ⟨[0, 1, 1], none, [0, 1, 3]⟩ [] [] rfl
    (by simp) rfl (by simp)).mpr
    ⟨1, by simp, by simp [positiveCount, groupRows, List.range']⟩

/-! ## SoftmaxMultiClassObj: lemmas -/

theorem length_foldl_set_at (f : Nat → Nat) (g : Nat → ℚ) (l : List Nat) (v : List ℚ) :
    (l.foldl (fun v k => v.set (f k) (g k)) v).length = v.length := by
  induction l generalizing v with
  | nil => rfl
  | cons a l ih => simp [ih]

/-- A loop `for k in l: v[j + k*nd] = g k` with `nd > 0`. -/
theorem getD_foldl_set_stride (j nd : Nat) (hnd : 0 < nd) (g : Nat → ℚ) (l : List Nat)
    (v : List ℚ) (i : Nat) :
    (l.foldl (fun v k => v.set (j + k * nd) (g k)) v).getD i 0
      = if i ∈ l.map (fun k => j + k * nd) ∧ i < v.length then g ((i - j) / nd)
        else v.getD i 0 := by
  rw [← getD_foldl_set (fun i => g ((i - j) / nd)) (l.map (fun k => j + k * nd)) v i,
    List.foldl_map]
  have hfun : (fun (v : List ℚ) k => v.set (j + k * nd) (g k))
      = (fun v k => v.set (j + k * nd) (g ((j + k * nd - j) / nd))) := by
    funext v k
    rw [Nat.add_sub_cancel_left, Nat.mul_div_cancel _ hnd]
  rw [hfun]

theorem SoftmaxMultiClassObj.foldl_cell (rec_ : List ℚ) (label : Int) (j ndata : Nat)
    (l : List Nat) (s : GradHess) :
    l.foldl (SoftmaxMultiClassObj.cell rec_ label j ndata) s
      = { grad := l.foldl (fun v k => v.set (j + k * ndata)
            (if label = (k : Int) then rec_.getD k 0 - 1 else rec_.getD k 0)) s.grad
          hess := l.foldl (fun v k => v.set (j + k * ndata)
            (2 * rec_.getD k 0 * (1 - rec_.getD k 0))) s.hess } := by
  induction l generalizing s with
  | nil => rfl
  | cons a l ih =>
    rw [List.foldl_cons, ih]
    rfl

theorem stride_mem_iff (j nd K i : Nat) :
    i ∈ (List.range K).map (fun k => j + k * nd) ↔ ∃ k, k < K ∧ i = j + k * nd := by
  simp only [List.mem_map, List.mem_range]
  constructor
  · rintro ⟨k, hk, rfl⟩; exact ⟨k, hk, rfl⟩
  · rintro ⟨k, hk, rfl⟩; exact ⟨k, hk, rfl⟩

theorem stride_disjoint (nd j l k k' : Nat) (hjl : j < l) (hl : l < nd) :
    j + k * nd ≠ l + k' * nd := by
  intro h
  have h1 : (j + k * nd) % nd = j := by
    rw [Nat.add_mul_mod_self_right, Nat.mod_eq_of_lt (by omega)]
  have h2 : (l + k' * nd) % nd = l := by
    rw [Nat.add_mul_mod_self_right, Nat.mod_eq_of_lt hl]
  rw [h, h2] at h1
  omega

theorem getD_map_intCast (L : List Int) (j : Nat) :
    (L.map (fun z : Int => (z : ℚ))).getD j 0 = ((L.getD j 0 : Int) : ℚ) := by
  by_cases hj : j < L.length
  · simp [List.getD_eq_getElem?_getD, List.getElem?_eq_getElem, hj]
  · simp [List.getD_eq_getElem?_getD, List.getElem?_eq_none, Nat.le_of_not_lt hj]

theorem toSizeT_natCast (K : Nat) (hK : K < 2 ^ 31) : toSizeT (K : Int) = K := by
  unfold toSizeT
  have : ((K : Int) % 2 ^ 64) = (K : Int) := by
    apply Int.emod_eq_of_lt (by omega)
    have : (K : Int) < 2 ^ 31 := by exact_mod_cast hK
    omega
  rw [this]; simp

theorem stride_lt (j k nd K : Nat) (hj : j < nd) (hk : k < K) : j + k * nd < K * nd := by
  have h1 : (k + 1) * nd ≤ K * nd := Nat.mul_le_mul_right nd hk
  have h2 : (k + 1) * nd = k * nd + nd := by ring
  omega

/-- A row step of `SoftmaxMultiClassObj::GetGradient` whose decoded label is below `nclass`
succeeds, writes the `nclass` cells of the row and leaves the others. -/
theorem SoftmaxMultiClassObj.row_spec (M : CMath) (o : SoftmaxMultiClassObj) (preds : List ℚ)
    (info : Info) (ndata : Nat) (s : GradHess) (j K : Nat) (c : Int)
    (hK : o.nclass = (K : Int)) (hj : j < ndata)
    (hc : (if toInt (info.labels.getD j 0) < 0 then -toInt (info.labels.getD j 0) - 1
            else toInt (info.labels.getD j 0)) = c)
    (hcK : c < (K : Int))
    (hg : s.grad.length = K * ndata) (hh : s.hess.length = K * ndata) :
    ∃ s', SoftmaxMultiClassObj.row M o preds info ndata s j = .ok s' ∧
      (∀ k, k < K →
        s'.grad.getD (j + k * ndata) 0
          = (if c = (k : Int) then
              (Softmax M ((List.range K).map (fun k => preds.getD (j + k * ndata) 0))).getD k 0 - 1
             else
              (Softmax M ((List.range K).map (fun k => preds.getD (j + k * ndata) 0))).getD k 0) ∧
        s'.hess.getD (j + k * ndata) 0
          = 2 * (Softmax M ((List.range K).map (fun k => preds.getD (j + k * ndata) 0))).getD k 0
            * (1 - (Softmax M ((List.range K).map
                (fun k => preds.getD (j + k * ndata) 0))).getD k 0)) ∧
      Frame (fun i => ∃ k, k < K ∧ i = j + k * ndata) s s' := by
  have hnd : 0 < ndata := by omega
  unfold SoftmaxMultiClassObj.row
  simp only [hK, Int.toNat_ofNat, hc, SoftmaxMultiClassObj.foldl_cell]
  rw [if_neg (not_not.mpr hcK)]
  refine ⟨_, rfl, ?_, ?_, ?_, ?_⟩
  · intro k hk
    have hmem : (j + k * ndata) ∈ (List.range K).map (fun k => j + k * ndata) :=
      (stride_mem_iff j ndata K _).mpr ⟨k, hk, rfl⟩
    have hlt := stride_lt j k ndata K hj hk
    have hdiv : (j + k * ndata - j) / ndata = k := by
      rw [Nat.add_sub_cancel_left, Nat.mul_div_cancel _ hnd]
    simp only [getD_foldl_set_stride j ndata hnd, hmem, hg, hh, hlt, and_self, if_true, hdiv]
  · simp [length_foldl_set_at]
  · simp [length_foldl_set_at]
  · intro i hi
    have hmem : ¬ i ∈ (List.range K).map (fun k => j + k * ndata) :=
      fun h => hi ((stride_mem_iff j ndata K i).mp h)
    simp only [getD_foldl_set_stride j ndata hnd, hmem, false_and, if_false]
    exact ⟨trivial, trivial⟩

/-! ## C10 -/

/-- C10: for `K = nclass > 0`, integral labels whose decoded class (`L` if `L >= 0`, else
`-L - 1`) is below `K`, and `preds` of length `K * ndata`, `SoftmaxMultiClassObj::GetGradient`
returns `grad` and `hess` of length `K * ndata` with, for every row `j < ndata` and class
`k < K`, `p` the softmax of `(preds[j], preds[j + ndata], ..., preds[j + (K-1)*ndata])` and `c`
the decoded class of row `j`: `grad[j + k*ndata] = p_k - 1` if `k = c` and `p_k` otherwise,
`hess[j + k*ndata] = 2 * p_k * (1 - p_k)`. -/
theorem C10_multiclass_gradient (M : CMath) (K : Nat) (hK : 0 < K) (hK31 : K < 2 ^ 31)
    (L : List Int) (preds : List ℚ) (info : Info) (grad hess : List ℚ)
    (hlab : info.labels = L.map (fun z : Int => (z : ℚ)))
    (hp : preds.length = K * L.length) (hsz : preds.length < 2 ^ 64)
    (hdec : ∀ j, j < L.length →
      (if 0 ≤ L.getD j 0 then L.getD j 0 else -L.getD j 0 - 1) < (K : Int)) :
    ∃ out, SoftmaxMultiClassObj.GetGradient M ⟨(K : Int)⟩ preds info grad hess = .ok out ∧
      out.grad.length = K * L.length ∧ out.hess.length = K * L.length ∧
      ∀ j, j < L.length → ∀ k, k < K →
        out.grad.getD (j + k * L.length) 0
          = (if (k : Int) = (if 0 ≤ L.getD j 0 then L.getD j 0 else -L.getD j 0 - 1) then
              (Softmax M ((List.range K).map
                (fun k => preds.getD (j + k * L.length) 0))).getD k 0 - 1
             else
              (Softmax M ((List.range K).map
                (fun k => preds.getD (j + k * L.length) 0))).getD k 0) ∧
        out.hess.getD (j + k * L.length) 0
          = 2 * (Softmax M ((List.range K).map
                (fun k => preds.getD (j + k * L.length) 0))).getD k 0
            * (1 - (Softmax M ((List.range K).map
                (fun k => preds.getD (j + k * L.length) 0))).getD k 0) := by
  have hnd : info.labels.length = L.length := by rw [hlab, List.length_map]
  have hrun : SoftmaxMultiClassObj.GetGradient M ⟨(K : Int)⟩ preds info grad hess
      = (List.range L.length).foldlM
          (SoftmaxMultiClassObj.row M ⟨(K : Int)⟩ preds info L.length)
          { grad := resize grad preds.length, hess := resize hess preds.length } := by
    unfold SoftmaxMultiClassObj.GetGradient
    have h1 : ((K : Int) ≠ 0) := by exact_mod_cast (Nat.pos_iff_ne_zero.mp hK)
    have h2 : preds.length = (toSizeT (K : Int) * info.labels.length) % 2 ^ 64 := by
      rw [toSizeT_natCast K hK31, hnd, ← hp, Nat.mod_eq_of_lt hsz]
    have h3 : ¬ ((K : Int) < 0) := by omega
    rw [if_neg (not_not.mpr h1), if_neg (not_not.mpr h2), if_neg h3, hnd]
  rw [hrun]
  obtain ⟨out, hout, hg, hh, hQ, _⟩ := foldlM_frames (fun s => s)
    (SoftmaxMultiClassObj.row M ⟨(K : Int)⟩ preds info L.length)
    (fun j i => ∃ k, k < K ∧ i = j + k * L.length) (K * L.length)
    (fun j gh => ∀ k, k < K →
        gh.grad.getD (j + k * L.length) 0
          = (if (if 0 ≤ L.getD j 0 then L.getD j 0 else -L.getD j 0 - 1) = (k : Int) then
              (Softmax M ((List.range K).map
                (fun k => preds.getD (j + k * L.length) 0))).getD k 0 - 1
             else
              (Softmax M ((List.range K).map
                (fun k => preds.getD (j + k * L.length) 0))).getD k 0) ∧
        gh.hess.getD (j + k * L.length) 0
          = 2 * (Softmax M ((List.range K).map
                (fun k => preds.getD (j + k * L.length) 0))).getD k 0
            * (1 - (Softmax M ((List.range K).map
                (fun k => preds.getD (j + k * L.length) 0))).getD k 0))
    (fun j a b hQa hab k hk => by
      rw [(hab _ ⟨k, hk, rfl⟩).1, (hab _ ⟨k, hk, rfl⟩).2]; exact hQa k hk)
    L.length
    (fun j l i hjl hl hj hi => by
      obtain ⟨k, _, rfl⟩ := hj
      obtain ⟨k', _, h⟩ := hi
      exact stride_disjoint L.length j l k k' hjl hl h)
    (fun j hj s hsg hsh => by
      have hlj : toInt (info.labels.getD j 0) = L.getD j 0 := by
        rw [hlab, getD_map_intCast, toInt_intCast]
      have hc : (if toInt (info.labels.getD j 0) < 0 then -toInt (info.labels.getD j 0) - 1
            else toInt (info.labels.getD j 0))
          = (if 0 ≤ L.getD j 0 then L.getD j 0 else -L.getD j 0 - 1) := by
        rw [hlj]
        by_cases h0 : 0 ≤ L.getD j 0
        · rw [if_pos h0, if_neg (by omega)]
        · rw [if_neg h0, if_pos (by omega)]
      obtain ⟨s', hs', hval, hfr⟩ := SoftmaxMultiClassObj.row_spec M ⟨(K : Int)⟩ preds info
        L.length s j K _ rfl hj hc (hdec j hj) hsg hsh
      exact ⟨s', hs', hval, hfr⟩)
    { grad := resize grad preds.length, hess := resize hess preds.length }
    (by simp [length_resize, hp]) (by simp [length_resize, hp])
  refine ⟨out, hout, hg, hh, ?_⟩
  intro j hj k hk
  have := hQ j hj k hk
  simp only [eq_comm (a := (k : Int))]
  exact this

/-- C10 at a concrete call: two classes, two rows, labels `1` and `-1` (decoded class 0). -/
theorem C10_multiclass_gradient_witness :
    ∃ out, SoftmaxMultiClassObj.GetGradient CMath.rational ⟨2⟩ [1, 2, 3, 4]
        ⟨[1, -1], none, []⟩ [] [] = .ok out ∧
      out.grad.length = 4 ∧ out.hess.length = 4 :=
  let ⟨out, h, hg, hh, _⟩ := C10_multiclass_gradient CMath.rational 2 (by decide) (by decide)
    [1, -1] [1, 2, 3, 4] ⟨[1, -1], none, []⟩ [] [] (by simp) rfl (by simp)
    (by
      intro j hj
      have : j = 0 ∨ j = 1 := by simp at hj; omega
      rcases this with h | h <;> subst h <;> simp)
  ⟨out, h, hg, hh⟩

/-! ## LambdaRankObj: the list of a group -/

/-- The entries pushed by the first row loop for the rows `rows`. -/
theorem LambdaRankObj.foldl_scanRow_lambda (preds : List ℚ) (info : Info) (rows : List Nat)
    (st : List ListEntry × GradHess) :
    rows.foldl (LambdaRankObj.scanRow preds info) st
      = (st.1 ++ rows.map (fun j =>
            ({ pred := preds.getD j 0, label := info.labels.getD j 0, rindex := j } : ListEntry)),
         { grad := rows.foldl (fun v j => v.set j 0) st.2.grad
           hess := rows.foldl (fun v j => v.set j 0) st.2.hess }) := by
  induction rows generalizing st with
  | nil => simp
  | cons a l ih =>
    rw [List.foldl_cons, ih]
    simp [LambdaRankObj.scanRow]

theorem LambdaRankObj.sortedList_eq (preds : List ℚ) (info : Info) (k : Nat) :
    LambdaRankObj.sortedList preds info k
      = sortByPred ((groupRows info.group_ptr k).map (fun j =>
          ({ pred := preds.getD j 0, label := info.labels.getD j 0, rindex := j } : ListEntry))) := by
  unfold LambdaRankObj.sortedList
  rw [LambdaRankObj.foldl_scanRow_lambda]
  simp

/-- The group step in terms of the list, the sampled pairs and the scale of the group. -/
theorem LambdaRankObj.group_eq (M : CMath) (o : LambdaRankObj) (draws : Nat → ℚ)
    (preds : List ℚ) (info : Info) (st : LambdaRankObj.State) (k : Nat) :
    LambdaRankObj.group M o draws preds info st k
      = { out := (o.GetLambdaWeight (LambdaRankObj.sortedList preds info k)
              (LambdaRankObj.samplePairs draws o.num_pairsample
                (LambdaRankObj.sortedList preds info k) st.rnd).pairs).foldl
            (LambdaRankObj.accumulate M o (LambdaRankObj.sortedList preds info k)
              (o.scale info.group_ptr k))
            { grad := (groupRows info.group_ptr k).foldl (fun v j => v.set j 0) st.out.grad
              hess := (groupRows info.group_ptr k).foldl (fun v j => v.set j 0) st.out.hess }
          rnd := (LambdaRankObj.samplePairs draws o.num_pairsample
                (LambdaRankObj.sortedList preds info k) st.rnd).rnd } := by
  unfold LambdaRankObj.group
  simp only [LambdaRankObj.foldl_scanRow_lambda, List.nil_append, LambdaRankObj.sortedList_eq]
  rfl

theorem sortByPred_perm (l : List ListEntry) : (sortByPred l).Perm l :=
  List.perm_insertionSort _ l

theorem sortRec_perm (l : List (ℚ × Nat)) : (sortRec l).Perm l :=
  List.perm_insertionSort _ l

theorem length_sortedList (preds : List ℚ) (info : Info) (k : Nat) :
    (LambdaRankObj.sortedList preds info k).length = (groupRows info.group_ptr k).length := by
  rw [LambdaRankObj.sortedList_eq, (sortByPred_perm _).length_eq, List.length_map]

theorem length_sortedRec (lst : List ListEntry) :
    (LambdaRankObj.sortedRec lst).length = lst.length := by
  unfold LambdaRankObj.sortedRec
  rw [(sortRec_perm _).length_eq, List.length_map, List.length_range]

/-- Every entry of the sorted list of group `k` is the entry of one of its rows. -/
theorem mem_sortedList (preds : List ℚ) (info : Info) (k : Nat) (e : ListEntry)
    (he : e ∈ LambdaRankObj.sortedList preds info k) :
    e.rindex ∈ groupRows info.group_ptr k ∧ e.pred = preds.getD e.rindex 0 ∧
      e.label = info.labels.getD e.rindex 0 := by
  rw [LambdaRankObj.sortedList_eq, (sortByPred_perm _).mem_iff, List.mem_map] at he
  obtain ⟨j, hj, rfl⟩ := he
  exact ⟨hj, rfl, rfl⟩

/-- Every entry of `rec` is `(lst[p].label, p)` for a position `p` of the list. -/
theorem mem_sortedRec (lst : List ListEntry) (x : ℚ × Nat)
    (hx : x ∈ LambdaRankObj.sortedRec lst) :
    x.2 < lst.length ∧ x.1 = (lst.getD x.2 default).label := by
  unfold LambdaRankObj.sortedRec at hx
  rw [(sortRec_perm _).mem_iff, List.mem_map] at hx
  obtain ⟨i, hi, rfl⟩ := hx
  exact ⟨List.mem_range.mp hi, rfl⟩

theorem getD_mem_of_lt {α : Type} (l : List α) (d : α) (i : Nat) (hi : i < l.length) :
    l.getD i d ∈ l := by
  rw [List.getD_eq_getElem?_getD, List.getElem?_eq_getElem hi]
  exact List.getElem_mem _

/-! ## LambdaRankObj: the bucket enumeration -/

/-- The inner `while` loop stops at the end of the run of labels equal to `rec[i].first`:
with enough fuel, everything in `[i, j')` carries that label and `rec[j']` (if any) does not. -/
theorem bucketEnd_spec (rec_ : List (ℚ × Nat)) (i : Nat) (fuel j : Nat)
    (hij : i < j) (hjn : j ≤ rec_.length) (hfuel : rec_.length ≤ fuel + j)
    (hrun : ∀ t, i ≤ t → t < j → (rec_.getD t (0, 0)).1 = (rec_.getD i (0, 0)).1) :
    j ≤ bucketEnd rec_ i fuel j ∧ bucketEnd rec_ i fuel j ≤ rec_.length ∧
      (∀ t, i ≤ t → t < bucketEnd rec_ i fuel j →
        (rec_.getD t (0, 0)).1 = (rec_.getD i (0, 0)).1) ∧
      (bucketEnd rec_ i fuel j < rec_.length →
        (rec_.getD (bucketEnd rec_ i fuel j) (0, 0)).1 ≠ (rec_.getD i (0, 0)).1) := by
  induction fuel generalizing j with
  | zero =>
    have : j = rec_.length := by omega
    simp only [bucketEnd]
    exact ⟨le_refl _, hjn, hrun, fun h => by omega⟩
  | succ fuel ih =>
    simp only [bucketEnd]
    by_cases hc : j < rec_.length ∧ (rec_.getD j (0, 0)).1 = (rec_.getD i (0, 0)).1
    · rw [if_pos hc]
      have := ih (j + 1) (by omega) (by omega) (by omega) (fun t hit htj => by
        rcases Nat.lt_or_eq_of_le (Nat.lt_succ_iff.mp htj) with h | h
        · exact hrun t hit h
        · subst h; exact hc.2)
      exact ⟨by omega, this.2.1, this.2.2.1, this.2.2.2⟩
    · rw [if_neg hc]
      refine ⟨le_refl _, hjn, hrun, fun h heq => hc ⟨h, heq⟩⟩

/-- When every label of `rec` is the same, the first bucket is the whole of `rec`. -/
theorem bucketEnd_all_eq (rec_ : List (ℚ × Nat)) (c : ℚ)
    (hc : ∀ t, t < rec_.length → (rec_.getD t (0, 0)).1 = c) (hpos : 0 < rec_.length) :
    bucketEnd rec_ 0 (rec_.length - 1) 1 = rec_.length := by
  have h := bucketEnd_spec rec_ 0 (rec_.length - 1) 1 (by omega) (by omega) (by omega)
    (fun t _ ht => by
      have : t = 0 := by omega
      rw [this])
  by_contra hne
  have hlt : bucketEnd rec_ 0 (rec_.length - 1) 1 < rec_.length := by omega
  apply h.2.2.2 hlt
  rw [hc _ hlt, hc 0 hpos]

theorem enumBuckets_all_eq (draws : Nat → ℚ) (nps : Nat) (rec_ : List (ℚ × Nat)) (c : ℚ)
    (hc : ∀ t, t < rec_.length → (rec_.getD t (0, 0)).1 = c) (st : Sampler) :
    enumBuckets draws nps rec_ rec_.length 0 st = st := by
  rcases Nat.eq_zero_or_pos rec_.length with h0 | hpos
  · rw [h0]; rfl
  · obtain ⟨m, hm⟩ : ∃ m, rec_.length = m + 1 := ⟨rec_.length - 1, by omega⟩
    have hb := bucketEnd_all_eq rec_ c hc hpos
    rw [hm] at hb ⊢
    simp only [enumBuckets, hm, Nat.zero_lt_succ, if_true, Nat.zero_add, Nat.add_sub_cancel] at hb ⊢
    rw [hb]
    have hs : sampleBucket draws nps rec_ 0 (m + 1) st = st := by
      simp [sampleBucket, hm]
    rw [hs]
    cases m with
    | zero => rfl
    | succ m => simp [enumBuckets, hm]

theorem FillsWeights.nil {W : List ListEntry → List LambdaPair → List LambdaPair}
    (hW : FillsWeights W) (lst : List ListEntry) : W lst [] = [] := by
  have := hW lst []
  simpa using this

theorem FillsWeights.length {W : List ListEntry → List LambdaPair → List LambdaPair}
    (hW : FillsWeights W) (lst : List ListEntry) (pairs : List LambdaPair) :
    (W lst pairs).length = pairs.length := by
  have := congrArg List.length (hW lst pairs)
  simpa using this

theorem PairwiseRankObj.fillsWeights : FillsWeights PairwiseRankObj.GetLambdaWeight :=
  fun _ _ => rfl

/-- The labels recorded in `rec` are the labels of the group. -/
theorem sortedRec_label_const (preds : List ℚ) (info : Info) (k : Nat) (c : ℚ)
    (heq : ∀ j, j ∈ groupRows info.group_ptr k → info.labels.getD j 0 = c) (t : Nat)
    (ht : t < (LambdaRankObj.sortedRec (LambdaRankObj.sortedList preds info k)).length) :
    ((LambdaRankObj.sortedRec (LambdaRankObj.sortedList preds info k)).getD t (0, 0)).1 = c := by
  have hx := mem_sortedRec _ _ (getD_mem_of_lt _ (0, 0) t ht)
  rw [hx.2]
  have he := mem_sortedList preds info k _ (getD_mem_of_lt _ default _ hx.1)
  rw [he.2.2]
  exact heq _ he.1

/-! ## LambdaRankObj: the order of `rec` -/

theorem sortRec_sorted (l : List (ℚ × Nat)) :
    (sortRec l).Sorted (fun a b => a.1 < b.1 ∨ (a.1 = b.1 ∧ a.2 ≤ b.2)) := by
  haveI : IsTotal (ℚ × Nat) (fun a b => a.1 < b.1 ∨ (a.1 = b.1 ∧ a.2 ≤ b.2)) :=
    ⟨fun a b => by
      rcases lt_trichotomy a.1 b.1 with h | h | h
      · exact Or.inl (Or.inl h)
      · rcases le_total a.2 b.2 with h2 | h2
        · exact Or.inl (Or.inr ⟨h, h2⟩)
        · exact Or.inr (Or.inr ⟨h.symm, h2⟩)
      · exact Or.inr (Or.inl h)⟩
  haveI : IsTrans (ℚ × Nat) (fun a b => a.1 < b.1 ∨ (a.1 = b.1 ∧ a.2 ≤ b.2)) :=
    ⟨fun a b c hab hbc => by
      rcases hab with h | ⟨h, h2⟩
      · rcases hbc with h' | ⟨h', _⟩
        · exact Or.inl (lt_trans h h')
        · exact Or.inl (h' ▸ h)
      · rcases hbc with h' | ⟨h', h2'⟩
        · exact Or.inl (h ▸ h')
        · exact Or.inr ⟨h.trans h', le_trans h2 h2'⟩⟩
  exact List.sorted_insertionSort _ l

/-- The labels of `rec` are in ascending order. -/
theorem sortedRec_le (lst : List ListEntry) (a b : Nat) (hab : a ≤ b)
    (hb : b < (LambdaRankObj.sortedRec lst).length) :
    ((LambdaRankObj.sortedRec lst).getD a (0, 0)).1
      ≤ ((LambdaRankObj.sortedRec lst).getD b (0, 0)).1 := by
  have ha : a < (LambdaRankObj.sortedRec lst).length := by omega
  rw [List.getD_eq_getElem?_getD, List.getD_eq_getElem?_getD, List.getElem?_eq_getElem ha,
    List.getElem?_eq_getElem hb]
  simp only [Option.getD_some]
  rcases Nat.lt_or_eq_of_le hab with h | h
  · have hs := sortRec_sorted
      ((List.range lst.length).map (fun i => ((lst.getD i default).label, i)))
    have := List.pairwise_iff_getElem.mp hs a b ha hb h
    rcases this with h1 | ⟨h1, _⟩
    · exact le_of_lt h1
    · exact le_of_eq h1
  · subst h; exact le_refl _

/-- The list positions stored in `rec` are pairwise distinct. -/
theorem sortedRec_inj (lst : List ListEntry) (a b : Nat)
    (ha : a < (LambdaRankObj.sortedRec lst).length)
    (hb : b < (LambdaRankObj.sortedRec lst).length)
    (h : ((LambdaRankObj.sortedRec lst).getD a (0, 0)).2
      = ((LambdaRankObj.sortedRec lst).getD b (0, 0)).2) : a = b := by
  have hperm : ((LambdaRankObj.sortedRec lst).map Prod.snd).Perm (List.range lst.length) := by
    unfold LambdaRankObj.sortedRec
    refine ((sortRec_perm _).map Prod.snd).trans ?_
    rw [List.map_map]
    have : (Prod.snd ∘ fun i => ((lst.getD i default).label, i)) = id := by
      funext i; rfl
    rw [this, List.map_id]
  have hnd : ((LambdaRankObj.sortedRec lst).map Prod.snd).Nodup :=
    hperm.nodup_iff.mpr (List.nodup_range _)
  have ha' : a < ((LambdaRankObj.sortedRec lst).map Prod.snd).length := by simpa using ha
  have hb' : b < ((LambdaRankObj.sortedRec lst).map Prod.snd).length := by simpa using hb
  have hget : ((LambdaRankObj.sortedRec lst).map Prod.snd)[a]
      = ((LambdaRankObj.sortedRec lst).map Prod.snd)[b] := by
    rw [List.getD_eq_getElem?_getD, List.getD_eq_getElem?_getD, List.getElem?_eq_getElem ha,
      List.getElem?_eq_getElem hb] at h
    simpa using h
  exact (List.Nodup.getElem_inj_iff hnd).mp hget

theorem toNat_toInt_lt (d : ℚ) (N : Nat) (h0 : 0 ≤ d) (h1 : d < 1) (hN : 0 < N) :
    (toInt (d * (N : ℚ))).toNat < N := by
  have hNq : (0 : ℚ) < (N : ℚ) := by exact_mod_cast hN
  have hnn : 0 ≤ d * (N : ℚ) := mul_nonneg h0 (le_of_lt hNq)
  have hlt : d * (N : ℚ) < (N : ℚ) := by nlinarith
  unfold toInt
  rw [if_pos hnn]
  have h2 : ⌊d * (N : ℚ)⌋ < (N : Int) := by
    rw [Int.floor_lt]; exact_mod_cast hlt
  have h3 : 0 ≤ ⌊d * (N : ℚ)⌋ := Int.floor_nonneg.mpr hnn
  omega

/-! ## LambdaRankObj: every sampled pair crosses a run -/

theorem samplePid_cross (draws : Nat → ℚ) (hd : ∀ m, 0 ≤ draws m ∧ draws m < 1)
    (rec_ : List (ℚ × Nat)) (i j : Nat) (hij : i < j) (hjn : j ≤ rec_.length)
    (hne : i + (rec_.length - j) ≠ 0)
    (hin : ∀ t, i ≤ t → t < j → (rec_.getD t (0, 0)).1 = (rec_.getD i (0, 0)).1)
    (hout : ∀ t, t < rec_.length → (t < i ∨ j ≤ t) →
      (rec_.getD t (0, 0)).1 ≠ (rec_.getD i (0, 0)).1)
    (st : Sampler) (hst : ∀ p, p ∈ st.pairs → CrossRun rec_ p)
    (pid : Nat) (hpid : pid ∈ List.range' i (j - i)) :
    ∀ p, p ∈ (samplePid draws rec_ i j i (rec_.length - j) st pid).pairs → CrossRun rec_ p := by
  rw [List.mem_range'_1] at hpid
  have hr := toNat_toInt_lt (draws st.rnd) (i + (rec_.length - j)) (hd _).1 (hd _).2
    (Nat.pos_of_ne_zero hne)
  intro p hp
  unfold samplePid at hp
  simp only at hp
  split at hp
  · rename_i hlt
    rw [List.mem_append, List.mem_singleton] at hp
    rcases hp with hp | hp
    · exact hst p hp
    · subst hp
      exact ⟨i, j, pid, _, hpid.1, by omega, hjn, by omega, Or.inl hlt, hin, hout,
        Or.inl ⟨rfl, rfl⟩⟩
  · rename_i hge
    rw [List.mem_append, List.mem_singleton] at hp
    rcases hp with hp | hp
    · exact hst p hp
    · subst hp
      exact ⟨i, j, pid, _, hpid.1, by omega, hjn, by omega, Or.inr (by omega), hin, hout,
        Or.inr ⟨rfl, rfl⟩⟩

theorem foldl_samplePid_cross (draws : Nat → ℚ) (hd : ∀ m, 0 ≤ draws m ∧ draws m < 1)
    (rec_ : List (ℚ × Nat)) (i j : Nat) (hij : i < j) (hjn : j ≤ rec_.length)
    (hne : i + (rec_.length - j) ≠ 0)
    (hin : ∀ t, i ≤ t → t < j → (rec_.getD t (0, 0)).1 = (rec_.getD i (0, 0)).1)
    (hout : ∀ t, t < rec_.length → (t < i ∨ j ≤ t) →
      (rec_.getD t (0, 0)).1 ≠ (rec_.getD i (0, 0)).1)
    (pids : List Nat) (hpids : ∀ pid, pid ∈ pids → pid ∈ List.range' i (j - i))
    (st : Sampler) (hst : ∀ p, p ∈ st.pairs → CrossRun rec_ p) :
    ∀ p, p ∈ (pids.foldl (samplePid draws rec_ i j i (rec_.length - j)) st).pairs →
      CrossRun rec_ p := by
  induction pids generalizing st with
  | nil => exact hst
  | cons a l ih =>
    rw [List.foldl_cons]
    exact ih (fun pid h => hpids pid (List.mem_cons_of_mem _ h)) _
      (samplePid_cross draws hd rec_ i j hij hjn hne hin hout st hst a
        (hpids a (List.mem_cons_self _ _)))

theorem sampleBucket_cross (draws : Nat → ℚ) (hd : ∀ m, 0 ≤ draws m ∧ draws m < 1)
    (nps : Nat) (rec_ : List (ℚ × Nat)) (i j : Nat) (hij : i < j) (hjn : j ≤ rec_.length)
    (hin : ∀ t, i ≤ t → t < j → (rec_.getD t (0, 0)).1 = (rec_.getD i (0, 0)).1)
    (hout : ∀ t, t < rec_.length → (t < i ∨ j ≤ t) →
      (rec_.getD t (0, 0)).1 ≠ (rec_.getD i (0, 0)).1)
    (st : Sampler) (hst : ∀ p, p ∈ st.pairs → CrossRun rec_ p) :
    ∀ p, p ∈ (sampleBucket draws nps rec_ i j st).pairs → CrossRun rec_ p := by
  unfold sampleBucket
  simp only
  split
  · rename_i hne
    generalize List.range nps = rounds
    induction rounds generalizing st with
    | nil => exact hst
    | cons a l ih =>
      rw [List.foldl_cons]
      exact ih _ (foldl_samplePid_cross draws hd rec_ i j hij hjn hne hin hout _
        (fun _ h => h) st hst)
  · exact hst

/-- Loop invariant of the bucket enumeration: at a bucket start `i`, every label before `i` is
strictly below `rec[i].first`; all pairs sampled so far cross a run. -/
theorem enumBuckets_cross (draws : Nat → ℚ) (hd : ∀ m, 0 ≤ draws m ∧ draws m < 1)
    (nps : Nat) (rec_ : List (ℚ × Nat))
    (hsorted : ∀ a b, a ≤ b → b < rec_.length →
      (rec_.getD a (0, 0)).1 ≤ (rec_.getD b (0, 0)).1)
    (fuel i : Nat) (st : Sampler)
    (hleft : i < rec_.length → ∀ t, t < i →
      (rec_.getD t (0, 0)).1 < (rec_.getD i (0, 0)).1)
    (hst : ∀ p, p ∈ st.pairs → CrossRun rec_ p) :
    ∀ p, p ∈ (enumBuckets draws nps rec_ fuel i st).pairs → CrossRun rec_ p := by
  induction fuel generalizing i st with
  | zero => exact hst
  | succ fuel ih =>
    simp only [enumBuckets]
    split
    · rename_i hi
      have hb := bucketEnd_spec rec_ i (rec_.length - (i + 1)) (i + 1) (by omega) (by omega)
        (by omega) (fun t h1 h2 => by
          have : t = i := by omega
          rw [this])
      obtain ⟨hb1, hb2, hb3, hb4⟩ := hb
      have hright : ∀ t, t < rec_.length →
          bucketEnd rec_ i (rec_.length - (i + 1)) (i + 1) ≤ t →
          (rec_.getD i (0, 0)).1 < (rec_.getD t (0, 0)).1 := by
        intro t ht hjt
        have hjlt : bucketEnd rec_ i (rec_.length - (i + 1)) (i + 1) < rec_.length := by omega
        have h1 := hsorted i _ (by omega) hjlt
        have h2 := hsorted _ t hjt ht
        have h3 := hb4 hjlt
        exact lt_of_lt_of_le (lt_of_le_of_ne h1 (Ne.symm h3)) h2
      apply ih
      · intro hj t ht
        by_cases hti : t < i
        · exact lt_trans (hleft hi t hti) (hright _ hj (le_refl _))
        · rw [hb3 t (by omega) ht]
          exact hright _ hj (le_refl _)
      · apply sampleBucket_cross draws hd nps rec_ i _ (by omega) hb2 hb3 _ st hst
        intro t ht hcase
        rcases hcase with h | h
        · exact ne_of_lt (hleft hi t h)
        · exact ne_of_gt (hright t ht h)
    · exact hst

/-- Every pair sampled from the sorted list of a group crosses a run of `rec`. -/
theorem samplePairs_cross (draws : Nat → ℚ) (hd : ∀ m, 0 ≤ draws m ∧ draws m < 1)
    (nps : Nat) (lst : List ListEntry) (rnd : Nat) :
    ∀ p, p ∈ (LambdaRankObj.samplePairs draws nps lst rnd).pairs →
      CrossRun (LambdaRankObj.sortedRec lst) p := by
  unfold LambdaRankObj.samplePairs
  apply enumBuckets_cross draws hd nps _ (sortedRec_le lst)
  · intro _ t ht; omega
  · intro p hp; cases hp

/-! ## LambdaRankObj: the fuel of the two loops is enough -/

theorem bucketEnd_fuel (rec_ : List (ℚ × Nat)) (i fuel j : Nat) (hjn : j ≤ rec_.length)
    (hf : rec_.length - j ≤ fuel) :
    bucketEnd rec_ i fuel j = bucketEnd rec_ i (rec_.length - j) j := by
  induction fuel generalizing j with
  | zero =>
    have : rec_.length - j = 0 := by omega
    rw [this]
  | succ fuel ih =>
    by_cases hc : j < rec_.length ∧ (rec_.getD j (0, 0)).1 = (rec_.getD i (0, 0)).1
    · have h1 : rec_.length - j = (rec_.length - (j + 1)) + 1 := by omega
      rw [h1]
      simp only [bucketEnd, if_pos hc]
      exact ih (j + 1) (by omega) (by omega)
    · simp only [bucketEnd, if_neg hc]
      cases h : rec_.length - j with
      | zero => rfl
      | succ m => simp only [bucketEnd, if_neg hc]

theorem enumBuckets_fuel (draws : Nat → ℚ) (nps : Nat) (rec_ : List (ℚ × Nat))
    (fuel fuel' i : Nat) (st : Sampler) (hf : rec_.length - i ≤ fuel)
    (hf' : rec_.length - i ≤ fuel') :
    enumBuckets draws nps rec_ fuel i st = enumBuckets draws nps rec_ fuel' i st := by
  induction fuel generalizing fuel' i st with
  | zero =>
    have hi : ¬ i < rec_.length := by omega
    cases fuel' with
    | zero => rfl
    | succ m => simp only [enumBuckets, if_neg hi]
  | succ fuel ih =>
    by_cases hi : i < rec_.length
    · have hb := bucketEnd_spec rec_ i (rec_.length - (i + 1)) (i + 1) (by omega) (by omega)
        (by omega) (fun t h1 h2 => by
          have : t = i := by omega
          rw [this])
      cases fuel' with
      | zero => omega
      | succ m =>
        simp only [enumBuckets, if_pos hi]
        exact ih m _ _ (by omega) (by omega)
    · cases fuel' with
      | zero => simp only [enumBuckets, if_neg hi]
      | succ m => simp only [enumBuckets, if_neg hi]

/-! ## C4 -/

/-- C4: for every group, every `num_pairsample` and every sequence of random draws in
`[0, 1)`, each pair produced by the sampling step of `LambdaRankObj::GetGradient` has
`pos_index` and `neg_index` below the group size (valid positions of the prediction-sorted
list), there is an equal-label run `[i, j)` of `rec` (no entry outside the run carries its
label) that holds exactly one of the two positions, and so the two entries have different
labels. -/
theorem C4_sampled_pairs_cross_runs (draws : Nat → ℚ) (hd : ∀ m, 0 ≤ draws m ∧ draws m < 1)
    (num_pairsample : Nat) (preds : List ℚ) (info : Info) (k rnd : Nat) (p : LambdaPair)
    (hp : p ∈ (LambdaRankObj.samplePairs draws num_pairsample
      (LambdaRankObj.sortedList preds info k) rnd).pairs) :
    (LambdaRankObj.sortedList preds info k).length
        = info.group_ptr.getD (k + 1) 0 - info.group_ptr.getD k 0 ∧
      p.pos_index < (LambdaRankObj.sortedList preds info k).length ∧
      p.neg_index < (LambdaRankObj.sortedList preds info k).length ∧
      (∃ i j, i < j ∧
        j ≤ (LambdaRankObj.sortedRec (LambdaRankObj.sortedList preds info k)).length ∧
        (∀ t, i ≤ t → t < j →
          ((LambdaRankObj.sortedRec (LambdaRankObj.sortedList preds info k)).getD t (0, 0)).1
            = ((LambdaRankObj.sortedRec (LambdaRankObj.sortedList preds info k)).getD i (0, 0)).1) ∧
        (∀ t, t < (LambdaRankObj.sortedRec (LambdaRankObj.sortedList preds info k)).length →
          (t < i ∨ j ≤ t) →
          ((LambdaRankObj.sortedRec (LambdaRankObj.sortedList preds info k)).getD t (0, 0)).1
            ≠ ((LambdaRankObj.sortedRec (LambdaRankObj.sortedList preds info k)).getD i (0, 0)).1) ∧
        (((∃ t, i ≤ t ∧ t < j ∧
              ((LambdaRankObj.sortedRec (LambdaRankObj.sortedList preds info k)).getD t (0, 0)).2
                = p.pos_index) ∧
            ¬ (∃ t, i ≤ t ∧ t < j ∧
              ((LambdaRankObj.sortedRec (LambdaRankObj.sortedList preds info k)).getD t (0, 0)).2
                = p.neg_index)) ∨
          (¬ (∃ t, i ≤ t ∧ t < j ∧
              ((LambdaRankObj.sortedRec (LambdaRankObj.sortedList preds info k)).getD t (0, 0)).2
                = p.pos_index) ∧
            (∃ t, i ≤ t ∧ t < j ∧
              ((LambdaRankObj.sortedRec (LambdaRankObj.sortedList preds info k)).getD t (0, 0)).2
                = p.neg_index)))) ∧
      ((LambdaRankObj.sortedList preds info k).getD p.pos_index default).label
        ≠ ((LambdaRankObj.sortedList preds info k).getD p.neg_index default).label := by
  obtain ⟨i, j, a, b, hia, haj, hjn, hbn, hb, hin, hout, hpair⟩ :=
    samplePairs_cross draws hd num_pairsample _ rnd p hp
  have han : a < (LambdaRankObj.sortedRec (LambdaRankObj.sortedList preds info k)).length := by
    omega
  have hma := mem_sortedRec _ _ (getD_mem_of_lt _ (0, 0) a han)
  have hmb := mem_sortedRec _ _ (getD_mem_of_lt _ (0, 0) b hbn)
  have hnotb : ¬ (∃ t, i ≤ t ∧ t < j ∧
      ((LambdaRankObj.sortedRec (LambdaRankObj.sortedList preds info k)).getD t (0, 0)).2
        = ((LambdaRankObj.sortedRec (LambdaRankObj.sortedList preds info k)).getD b (0, 0)).2) := by
    rintro ⟨t, hit, htj, ht⟩
    have := sortedRec_inj _ t b (by omega) hbn ht
    omega
  have hla : ((LambdaRankObj.sortedList preds info k).getD
        ((LambdaRankObj.sortedRec (LambdaRankObj.sortedList preds info k)).getD a (0, 0)).2
        default).label
      = ((LambdaRankObj.sortedRec (LambdaRankObj.sortedList preds info k)).getD i (0, 0)).1 := by
    rw [← hma.2]; exact hin a hia haj
  have hlb : ((LambdaRankObj.sortedList preds info k).getD
        ((LambdaRankObj.sortedRec (LambdaRankObj.sortedList preds info k)).getD b (0, 0)).2
        default).label
      ≠ ((LambdaRankObj.sortedRec (LambdaRankObj.sortedList preds info k)).getD i (0, 0)).1 := by
    rw [← hmb.2]; exact hout b hbn hb
  refine ⟨by rw [length_sortedList]; simp [groupRows], ?_, ?_, ⟨i, j, by omega, hjn, hin, hout, ?_⟩, ?_⟩
  · rcases hpair with ⟨h1, _⟩ | ⟨h1, _⟩ <;> rw [h1]
    · exact hmb.1
    · exact hma.1
  · rcases hpair with ⟨_, h2⟩ | ⟨_, h2⟩ <;> rw [h2]
    · exact hma.1
    · exact hmb.1
  · rcases hpair with ⟨h1, h2⟩ | ⟨h1, h2⟩
    · right
      rw [h1, h2]
      exact ⟨hnotb, a, hia, haj, rfl⟩
    · left
      rw [h1, h2]
      exact ⟨⟨a, hia, haj, rfl⟩, hnotb⟩
  · rcases hpair with ⟨h1, h2⟩ | ⟨h1, h2⟩
    · rw [h1, h2, hla]; exact hlb
    · rw [h1, h2, hla]; exact hlb.symm

theorem LambdaRankObj.samplePairs_sample :
    (LambdaRankObj.samplePairs (fun _ => 1 / 2) 1
      (LambdaRankObj.sortedList [1, 2] ⟨[0, 1], none, [0, 2]⟩ 0) 0).pairs
      = [⟨1, 0, 1⟩, ⟨1, 0, 1⟩] := by
  have hl : LambdaRankObj.sortedList [1, 2] ⟨[0, 1], none, [0, 2]⟩ 0
      = [⟨2, 1, 1⟩, ⟨1, 0, 0⟩] := by decide
  have hr : LambdaRankObj.sortedRec [⟨2, 1, 1⟩, ⟨1, 0, 0⟩] = [(0, 1), (1, 0)] := by decide
  rw [hl]
  unfold LambdaRankObj.samplePairs
  rw [hr]
  simp [enumBuckets, bucketEnd, sampleBucket, samplePid, List.range', LambdaPair.new,
    List.range_succ]
  norm_num [toInt, Int.floor_eq_iff]

/-- C4 at a concrete group: two rows with labels 0 and 1, every draw equal to 1/2. -/
theorem C4_sampled_pairs_cross_runs_witness :
    (⟨1, 0, 1⟩ : LambdaPair).pos_index
        < (LambdaRankObj.sortedList [1, 2] ⟨[0, 1], none, [0, 2]⟩ 0).length ∧
      ((LambdaRankObj.sortedList [1, 2] ⟨[0, 1], none, [0, 2]⟩ 0).getD
          (⟨1, 0, 1⟩ : LambdaPair).pos_index default).label
        ≠ ((LambdaRankObj.sortedList [1, 2] ⟨[0, 1], none, [0, 2]⟩ 0).getD
          (⟨1, 0, 1⟩ : LambdaPair).neg_index default).label :=
  let h := C4_sampled_pairs_cross_runs (fun _ => 1 / 2) (fun _ => by norm_num) 1 [1, 2]
    ⟨[0, 1], none, [0, 2]⟩ 0 0 ⟨1, 0, 1⟩
    (by rw [LambdaRankObj.samplePairs_sample]; exact List.mem_cons_self _ _)
  ⟨h.2.1, h.2.2.2.2⟩

/-! ## LambdaRankObj: the accumulation loop -/

theorem getD_set_eq (v : List ℚ) (a r : Nat) (x : ℚ) :
    (v.set a x).getD r 0 = if r = a ∧ a < v.length then x else v.getD r 0 := by
  have h := getD_foldl_set (fun _ => x) [a] v r
  simp only [List.foldl_cons, List.foldl_nil, List.mem_singleton] at h
  rw [h]
  by_cases hra : r = a
  · subst hra; rfl
  · rw [if_neg (fun hh => hra hh.1), if_neg (fun hh => hra hh.1)]

/-- Two successive updates `v[a] += x; v[b] += y` seen from an in-range index `r`. -/
theorem getD_set_set_add (v : List ℚ) (a b r : Nat) (x y : ℚ) (hr : r < v.length) :
    ((v.set a (v.getD a 0 + x)).set b ((v.set a (v.getD a 0 + x)).getD b 0 + y)).getD r 0
      = v.getD r 0 + ((if a = r then x else 0) + (if b = r then y else 0)) := by
  rw [getD_set_eq, getD_set_eq, getD_set_eq, List.length_set]
  by_cases h1 : a = r
  · subst h1
    by_cases h2 : b = a
    · subst h2
      rw [if_pos ⟨rfl, hr⟩, if_pos ⟨rfl, hr⟩, if_pos rfl, if_pos rfl]; ring
    · rw [if_neg (fun h => h2 h.1.symm), if_pos ⟨rfl, hr⟩, if_pos rfl, if_neg h2]; ring
  · by_cases h2 : b = r
    · subst h2
      rw [if_pos ⟨rfl, hr⟩, if_neg (fun h => h1 h.1.symm), if_neg h1, if_pos rfl]; ring
    · rw [if_neg (fun h => h2 h.1.symm), if_neg (fun h => h1 h.1.symm), if_neg h1, if_neg h2]
      ring

theorem LambdaRankObj.accumulate_length (M : CMath) (o : LambdaRankObj) (lst : List ListEntry)
    (scale : ℚ) (s : GradHess) (p : LambdaPair) :
    (LambdaRankObj.accumulate M o lst scale s p).grad.length = s.grad.length ∧
      (LambdaRankObj.accumulate M o lst scale s p).hess.length = s.hess.length := by
  simp [LambdaRankObj.accumulate]

theorem LambdaRankObj.accumulate_grad (M : CMath) (o : LambdaRankObj) (lst : List ListEntry)
    (scale : ℚ) (s : GradHess) (p : LambdaPair) (r : Nat) (hr : r < s.grad.length) :
    (LambdaRankObj.accumulate M o lst scale s p).grad.getD r 0
      = s.grad.getD r 0
        + ((if (lst.getD p.pos_index default).rindex = r then
              LambdaRankObj.pairGrad M o lst scale p else 0)
          - (if (lst.getD p.neg_index default).rindex = r then
              LambdaRankObj.pairGrad M o lst scale p else 0)) := by
  have h := getD_set_set_add s.grad (lst.getD p.pos_index default).rindex
    (lst.getD p.neg_index default).rindex r (LambdaRankObj.pairGrad M o lst scale p)
    (-LambdaRankObj.pairGrad M o lst scale p) hr
  have e : (if (lst.getD p.neg_index default).rindex = r then
        -LambdaRankObj.pairGrad M o lst scale p else 0)
      = -(if (lst.getD p.neg_index default).rindex = r then
        LambdaRankObj.pairGrad M o lst scale p else 0) := by
    split <;> simp
  refine Eq.trans ?_ (h.trans ?_)
  · simp only [LambdaRankObj.accumulate, LambdaRankObj.pairGrad, sub_eq_add_neg]
  · rw [e]; ring

theorem LambdaRankObj.accumulate_hess (M : CMath) (o : LambdaRankObj) (lst : List ListEntry)
    (scale : ℚ) (s : GradHess) (p : LambdaPair) (r : Nat) (hr : r < s.hess.length) :
    (LambdaRankObj.accumulate M o lst scale s p).hess.getD r 0
      = s.hess.getD r 0
        + ((if (lst.getD p.pos_index default).rindex = r then
              LambdaRankObj.pairHess M o lst scale p else 0)
          + (if (lst.getD p.neg_index default).rindex = r then
              LambdaRankObj.pairHess M o lst scale p else 0)) := by
  have h := getD_set_set_add s.hess (lst.getD p.pos_index default).rindex
    (lst.getD p.neg_index default).rindex r (LambdaRankObj.pairHess M o lst scale p)
    (LambdaRankObj.pairHess M o lst scale p) hr
  rw [← h]
  simp only [LambdaRankObj.accumulate, LambdaRankObj.pairHess]

theorem LambdaRankObj.foldl_accumulate_length (M : CMath) (o : LambdaRankObj)
    (lst : List ListEntry) (scale : ℚ) (ps : List LambdaPair) (s : GradHess) :
    (ps.foldl (LambdaRankObj.accumulate M o lst scale) s).grad.length = s.grad.length ∧
      (ps.foldl (LambdaRankObj.accumulate M o lst scale) s).hess.length = s.hess.length := by
  induction ps generalizing s with
  | nil => exact ⟨rfl, rfl⟩
  | cons a l ih =>
    rw [List.foldl_cons]
    have h := LambdaRankObj.accumulate_length M o lst scale s a
    exact ⟨(ih _).1.trans h.1, (ih _).2.trans h.2⟩

/-- The accumulation loop adds to each in-range row the contributions of all pairs. -/
theorem LambdaRankObj.foldl_accumulate (M : CMath) (o : LambdaRankObj)
    (lst : List ListEntry) (scale : ℚ) (ps : List LambdaPair) (s : GradHess) (r : Nat) :
    (r < s.grad.length →
      (ps.foldl (LambdaRankObj.accumulate M o lst scale) s).grad.getD r 0
        = s.grad.getD r 0 + (ps.map (fun p =>
            (if (lst.getD p.pos_index default).rindex = r then
                LambdaRankObj.pairGrad M o lst scale p else 0)
            - (if (lst.getD p.neg_index default).rindex = r then
                LambdaRankObj.pairGrad M o lst scale p else 0))).sum) ∧
    (r < s.hess.length →
      (ps.foldl (LambdaRankObj.accumulate M o lst scale) s).hess.getD r 0
        = s.hess.getD r 0 + (ps.map (fun p =>
            (if (lst.getD p.pos_index default).rindex = r then
                LambdaRankObj.pairHess M o lst scale p else 0)
            + (if (lst.getD p.neg_index default).rindex = r then
                LambdaRankObj.pairHess M o lst scale p else 0))).sum) := by
  induction ps generalizing s with
  | nil => simp
  | cons a l ih =>
    have hl := LambdaRankObj.accumulate_length M o lst scale s a
    constructor
    · intro hr
      rw [List.foldl_cons, (ih _).1 (by rw [hl.1]; exact hr),
        LambdaRankObj.accumulate_grad M o lst scale s a r hr, List.map_cons, List.sum_cons]
      ring
    · intro hr
      rw [List.foldl_cons, (ih _).2 (by rw [hl.2]; exact hr),
        LambdaRankObj.accumulate_hess M o lst scale s a r hr, List.map_cons, List.sum_cons]
      ring

/-! ## LambdaRankObj: the rows of a sampled pair -/

theorem getD_eq_zero_of_le (v : List ℚ) (r : Nat) (h : v.length ≤ r) : v.getD r 0 = 0 := by
  rw [List.getD_eq_getElem?_getD, List.getElem?_eq_none h]
  rfl

/-- The two positions of a pair that crosses a run are distinct positions of the list. -/
theorem CrossRun.bounds (lst : List ListEntry) (p : LambdaPair)
    (h : CrossRun (LambdaRankObj.sortedRec lst) p) :
    p.pos_index < lst.length ∧ p.neg_index < lst.length ∧ p.pos_index ≠ p.neg_index := by
  obtain ⟨i, j, a, b, hia, haj, hjn, hbn, hb, _, _, hpair⟩ := h
  have han : a < (LambdaRankObj.sortedRec lst).length := by omega
  have hma := mem_sortedRec _ _ (getD_mem_of_lt _ (0, 0) a han)
  have hmb := mem_sortedRec _ _ (getD_mem_of_lt _ (0, 0) b hbn)
  have hne : ((LambdaRankObj.sortedRec lst).getD a (0, 0)).2
      ≠ ((LambdaRankObj.sortedRec lst).getD b (0, 0)).2 := by
    intro h
    have := sortedRec_inj lst a b han hbn h
    omega
  rcases hpair with ⟨h1, h2⟩ | ⟨h1, h2⟩ <;> rw [h1, h2]
  · exact ⟨hmb.1, hma.1, hne.symm⟩
  · exact ⟨hma.1, hmb.1, hne⟩

/-- A strategy that only fills weights hands back pairs with the positions it was given. -/
theorem FillsWeights.mem {W : List ListEntry → List LambdaPair → List LambdaPair}
    (hW : FillsWeights W) (lst : List ListEntry) (pairs : List LambdaPair) (p : LambdaPair)
    (hp : p ∈ W lst pairs) :
    ∃ q, q ∈ pairs ∧ q.pos_index = p.pos_index ∧ q.neg_index = p.neg_index := by
  have h1 : (p.pos_index, p.neg_index)
      ∈ (W lst pairs).map (fun p => (p.pos_index, p.neg_index)) :=
    List.mem_map.mpr ⟨p, hp, rfl⟩
  rw [hW lst pairs, List.mem_map] at h1
  obtain ⟨q, hq, heq⟩ := h1
  simp only [Prod.mk.injEq] at heq
  exact ⟨q, hq, heq.1, heq.2⟩

/-- The rows of the sorted list of a group are pairwise distinct. -/
theorem sortedList_rindex_inj (preds : List ℚ) (info : Info) (k : Nat) (x y : Nat)
    (hx : x < (LambdaRankObj.sortedList preds info k).length)
    (hy : y < (LambdaRankObj.sortedList preds info k).length)
    (h : ((LambdaRankObj.sortedList preds info k).getD x default).rindex
      = ((LambdaRankObj.sortedList preds info k).getD y default).rindex) : x = y := by
  have hperm : ((LambdaRankObj.sortedList preds info k).map ListEntry.rindex).Perm
      (groupRows info.group_ptr k) := by
    rw [LambdaRankObj.sortedList_eq]
    refine ((sortByPred_perm _).map ListEntry.rindex).trans ?_
    rw [List.map_map]
    have : (ListEntry.rindex ∘ fun j =>
        ({ pred := preds.getD j 0, label := info.labels.getD j 0, rindex := j } : ListEntry))
        = id := by
      funext j; rfl
    rw [this, List.map_id]
  have hnd : ((LambdaRankObj.sortedList preds info k).map ListEntry.rindex).Nodup :=
    hperm.nodup_iff.mpr (by unfold groupRows; exact List.nodup_range' _ _)
  have hx' : x < ((LambdaRankObj.sortedList preds info k).map ListEntry.rindex).length := by
    simpa using hx
  have hy' : y < ((LambdaRankObj.sortedList preds info k).map ListEntry.rindex).length := by
    simpa using hy
  have hget : ((LambdaRankObj.sortedList preds info k).map ListEntry.rindex)[x]
      = ((LambdaRankObj.sortedList preds info k).map ListEntry.rindex)[y] := by
    rw [List.getD_eq_getElem?_getD, List.getD_eq_getElem?_getD, List.getElem?_eq_getElem hx,
      List.getElem?_eq_getElem hy] at h
    simpa using h
  exact (List.Nodup.getElem_inj_iff hnd).mp hget

/-- Both rows of a weighted pair of group `k` are rows of the group, and they differ. -/
theorem LambdaRankObj.weightedPairs_rows (o : LambdaRankObj)
    (hW : FillsWeights o.GetLambdaWeight) (draws : Nat → ℚ)
    (hd : ∀ m, 0 ≤ draws m ∧ draws m < 1) (preds : List ℚ) (info : Info) (k rnd : Nat)
    (p : LambdaPair) (hp : p ∈ LambdaRankObj.weightedPairs o draws preds info k rnd) :
    LambdaRankObj.posRow preds info k p ∈ groupRows info.group_ptr k ∧
      LambdaRankObj.negRow preds info k p ∈ groupRows info.group_ptr k ∧
      LambdaRankObj.posRow preds info k p ≠ LambdaRankObj.negRow preds info k p := by
  obtain ⟨q, hq, hq1, hq2⟩ := hW.mem _ _ p hp
  have hb := CrossRun.bounds _ q (samplePairs_cross draws hd _ _ rnd q hq)
  rw [hq1, hq2] at hb
  refine ⟨?_, ?_, ?_⟩
  · exact (mem_sortedList preds info k _ (getD_mem_of_lt _ default _ hb.1)).1
  · exact (mem_sortedList preds info k _ (getD_mem_of_lt _ default _ hb.2.1)).1
  · intro h
    exact hb.2.2 (sortedList_rindex_inj preds info k _ _ hb.1 hb.2.1 h)

theorem sum_map_ite_filter {α : Type} (l : List α) (P : α → Prop) [DecidablePred P]
    (f : α → ℚ) :
    (l.map (fun p => if P p then f p else 0)).sum = ((l.filter (fun p => decide (P p))).map f).sum := by
  induction l with
  | nil => rfl
  | cons a l ih =>
    rw [List.map_cons, List.sum_cons, ih, List.filter_cons]
    by_cases h : P a
    · simp [h]
    · simp [h]

theorem sum_map_add' {α : Type} (l : List α) (f g : α → ℚ) :
    (l.map (fun p => f p + g p)).sum = (l.map f).sum + (l.map g).sum := by
  induction l with
  | nil => simp
  | cons a l ih => simp only [List.map_cons, List.sum_cons, ih]; ring

theorem sum_map_sub' {α : Type} (l : List α) (f g : α → ℚ) :
    (l.map (fun p => f p - g p)).sum = (l.map f).sum - (l.map g).sum := by
  induction l with
  | nil => simp
  | cons a l ih => simp only [List.map_cons, List.sum_cons, ih]; ring

/-- The state after the step of group `k`: every in-range row holds its zero-initialised or
previous value plus the contributions of the weighted pairs of the group. -/
theorem LambdaRankObj.group_getD (M : CMath) (o : LambdaRankObj) (draws : Nat → ℚ)
    (preds : List ℚ) (info : Info) (st : LambdaRankObj.State) (k : Nat) (r : Nat) :
    (LambdaRankObj.group M o draws preds info st k).out.grad.length = st.out.grad.length ∧
    (LambdaRankObj.group M o draws preds info st k).out.hess.length = st.out.hess.length ∧
    (r < st.out.grad.length →
      (LambdaRankObj.group M o draws preds info st k).out.grad.getD r 0
        = (if r ∈ groupRows info.group_ptr k then 0 else st.out.grad.getD r 0)
          + ((LambdaRankObj.weightedPairs o draws preds info k st.rnd).map (fun p =>
              (if LambdaRankObj.posRow preds info k p = r then
                LambdaRankObj.pairGrad M o (LambdaRankObj.sortedList preds info k)
                  (o.scale info.group_ptr k) p else 0)
              - (if LambdaRankObj.negRow preds info k p = r then
                LambdaRankObj.pairGrad M o (LambdaRankObj.sortedList preds info k)
                  (o.scale info.group_ptr k) p else 0))).sum) ∧
    (r < st.out.hess.length →
      (LambdaRankObj.group M o draws preds info st k).out.hess.getD r 0
        = (if r ∈ groupRows info.group_ptr k then 0 else st.out.hess.getD r 0)
          + ((LambdaRankObj.weightedPairs o draws preds info k st.rnd).map (fun p =>
              (if LambdaRankObj.posRow preds info k p = r then
                LambdaRankObj.pairHess M o (LambdaRankObj.sortedList preds info k)
                  (o.scale info.group_ptr k) p else 0)
              + (if LambdaRankObj.negRow preds info k p = r then
                LambdaRankObj.pairHess M o (LambdaRankObj.sortedList preds info k)
                  (o.scale info.group_ptr k) p else 0))).sum) := by
  rw [LambdaRankObj.group_eq]
  simp only
  have hl := LambdaRankObj.foldl_accumulate_length M o (LambdaRankObj.sortedList preds info k)
    (o.scale info.group_ptr k)
    (o.GetLambdaWeight (LambdaRankObj.sortedList preds info k)
      (LambdaRankObj.samplePairs draws o.num_pairsample
        (LambdaRankObj.sortedList preds info k) st.rnd).pairs)
    { grad := (groupRows info.group_ptr k).foldl (fun v j => v.set j 0) st.out.grad
      hess := (groupRows info.group_ptr k).foldl (fun v j => v.set j 0) st.out.hess }
  have hf := LambdaRankObj.foldl_accumulate M o (LambdaRankObj.sortedList preds info k)
    (o.scale info.group_ptr k)
    (o.GetLambdaWeight (LambdaRankObj.sortedList preds info k)
      (LambdaRankObj.samplePairs draws o.num_pairsample
        (LambdaRankObj.sortedList preds info k) st.rnd).pairs)
    { grad := (groupRows info.group_ptr k).foldl (fun v j => v.set j 0) st.out.grad
      hess := (groupRows info.group_ptr k).foldl (fun v j => v.set j 0) st.out.hess } r
  simp only [length_foldl_set] at hl hf
  refine ⟨hl.1, hl.2, ?_, ?_⟩
  · intro hr
    rw [hf.1 hr, getD_foldl_set]
    simp only [hr, and_true]
    rfl
  · intro hr
    rw [hf.2 hr, getD_foldl_set]
    simp only [hr, and_true]
    rfl

/-! ## LambdaRankObj: frame of a group step and the whole call -/

/-- The step of group `k` changes `grad` and `hess` on the rows of group `k` only. -/
theorem LambdaRankObj.group_frame (M : CMath) (o : LambdaRankObj)
    (hW : FillsWeights o.GetLambdaWeight) (draws : Nat → ℚ)
    (hd : ∀ m, 0 ≤ draws m ∧ draws m < 1) (preds : List ℚ) (info : Info)
    (st : LambdaRankObj.State) (k : Nat) :
    Frame (fun j => j ∈ groupRows info.group_ptr k) st.out
      (LambdaRankObj.group M o draws preds info st k).out := by
  have hlen := LambdaRankObj.group_getD M o draws preds info st k 0
  refine ⟨hlen.1, hlen.2.1, ?_⟩
  intro j hj
  have h := LambdaRankObj.group_getD M o draws preds info st k j
  have hrows := LambdaRankObj.weightedPairs_rows o hW draws hd preds info k st.rnd
  constructor
  · by_cases hr : j < st.out.grad.length
    · rw [h.2.2.1 hr, if_neg hj]
      rw [List.sum_eq_zero, add_zero]
      intro x hx
      rw [List.mem_map] at hx
      obtain ⟨p, hp, rfl⟩ := hx
      have hp' := hrows p hp
      have e1 : ¬ LambdaRankObj.posRow preds info k p = j := fun e => hj (e ▸ hp'.1)
      have e2 : ¬ LambdaRankObj.negRow preds info k p = j := fun e => hj (e ▸ hp'.2.1)
      rw [if_neg e1, if_neg e2, sub_zero]
    · rw [getD_eq_zero_of_le _ _ (by rw [h.1]; omega), getD_eq_zero_of_le _ _ (by omega)]
  · by_cases hr : j < st.out.hess.length
    · rw [h.2.2.2 hr, if_neg hj]
      rw [List.sum_eq_zero, add_zero]
      intro x hx
      rw [List.mem_map] at hx
      obtain ⟨p, hp, rfl⟩ := hx
      have hp' := hrows p hp
      have e1 : ¬ LambdaRankObj.posRow preds info k p = j := fun e => hj (e ▸ hp'.1)
      have e2 : ¬ LambdaRankObj.negRow preds info k p = j := fun e => hj (e ▸ hp'.2.1)
      rw [if_neg e1, if_neg e2, add_zero]
    · rw [getD_eq_zero_of_le _ _ (by rw [h.2.1]; omega), getD_eq_zero_of_le _ _ (by omega)]

theorem foldlM_ok_eq_foldl {σ : Type} (f : σ → Nat → σ) (l : List Nat) (s : σ) :
    l.foldlM (fun s k => (Except.ok (f s k) : Except Error σ)) s = .ok (l.foldl f s) := by
  induction l generalizing s with
  | nil => rfl
  | cons a l ih =>
    rw [List.foldlM_cons, List.foldl_cons]
    exact ih (f s a)

theorem LambdaRankObj.GetGradient_lambda_eq (M : CMath) (o : LambdaRankObj) (draws : Nat → ℚ)
    (preds : List ℚ) (info : Info) (grad hess : List ℚ)
    (hlen : preds.length = info.labels.length)
    (hne : info.group_ptr ≠ []) (hlast : info.group_ptr.getLastD 0 = preds.length) :
    LambdaRankObj.GetGradient M o draws preds info grad hess
      = .ok ((List.range (info.group_ptr.length - 1)).foldl
          (LambdaRankObj.group M o draws preds info)
          { out := { grad := resize grad preds.length, hess := resize hess preds.length }
            rnd := 0 }).out := by
  unfold LambdaRankObj.GetGradient
  rw [if_neg (not_not.mpr hlen)]
  have h : info.group_ptr.length ≠ 0 ∧ info.group_ptr.getLastD 0 = preds.length :=
    ⟨fun h => hne (List.length_eq_zero.mp h), hlast⟩
  rw [if_neg (not_not.mpr h)]

/-- The whole call of `LambdaRankObj::GetGradient` returns, and a property `Q k` of the rows
of group `k` that every step of group `k` establishes holds of the returned vectors. -/
theorem LambdaRankObj.GetGradient_lift (M : CMath) (o : LambdaRankObj)
    (hW : FillsWeights o.GetLambdaWeight) (draws : Nat → ℚ)
    (hd : ∀ m, 0 ≤ draws m ∧ draws m < 1) (preds : List ℚ) (info : Info)
    (grad hess : List ℚ) (hlen : preds.length = info.labels.length)
    (hne : info.group_ptr ≠ []) (hlast : info.group_ptr.getLastD 0 = preds.length)
    (hs : info.group_ptr.Sorted (· ≤ ·))
    (Q : Nat → GradHess → Prop)
    (hQ : ∀ k a b, Q k a → AgreeOn (fun j => j ∈ groupRows info.group_ptr k) a b → Q k b)
    (hstep : ∀ k, k + 1 < info.group_ptr.length → ∀ st : LambdaRankObj.State,
      st.out.grad.length = preds.length → st.out.hess.length = preds.length →
      Q k (LambdaRankObj.group M o draws preds info st k).out) :
    ∃ out, LambdaRankObj.GetGradient M o draws preds info grad hess = .ok out ∧
      out.grad.length = preds.length ∧ out.hess.length = preds.length ∧
      ∀ k, k + 1 < info.group_ptr.length → Q k out := by
  rw [LambdaRankObj.GetGradient_lambda_eq M o draws preds info grad hess hlen hne hlast]
  have hpos : 0 < info.group_ptr.length := List.length_pos.mpr hne
  obtain ⟨out, hout, hg, hh, hQs, _⟩ := foldlM_frames LambdaRankObj.State.out
    (fun s k => (Except.ok (LambdaRankObj.group M o draws preds info s k)))
    (fun k j => j ∈ groupRows info.group_ptr k) preds.length Q hQ
    (info.group_ptr.length - 1)
    (fun k l j hkl hl hj => groupRows_disjoint info.group_ptr hs k l j hkl (by omega) hj)
    (fun k hk s hsg hsh =>
      ⟨_, rfl, hstep k (by omega) s hsg hsh,
        LambdaRankObj.group_frame M o hW draws hd preds info s k⟩)
    { out := { grad := resize grad preds.length, hess := resize hess preds.length }, rnd := 0 }
    (length_resize _ _) (length_resize _ _)
  rw [foldlM_ok_eq_foldl] at hout
  injection hout with hout
  refine ⟨out.out, by rw [hout], hg, hh, fun k hk => hQs k (by omega)⟩

/-! ## C2 -/

/-- C2: in a call of `LambdaRankObj::GetGradient` that passes its assertions (ordered group
boundaries, draws in `[0, 1)`, a strategy that only fills weights), for every group `k`, with
`pairs` the generated pairs of the group carrying their weights and `scale` the scale of the
group, every row `r` of the group ends with
`grad[r] = (sum of g*w over the pairs whose pos entry is row r) - (sum of g*w over the pairs
whose neg entry is row r)` and `hess[r] = sum of 2*h*w over the pairs having row r as pos or
neg entry`, where `g*w` is `pairGrad` and `2*h*w` is `pairHess`: the rows are zero-initialised
and the contributions accumulated. -/
theorem C2_lambda_accumulation (M : CMath) (o : LambdaRankObj)
    (hW : FillsWeights o.GetLambdaWeight) (draws : Nat → ℚ)
    (hd : ∀ m, 0 ≤ draws m ∧ draws m < 1) (preds : List ℚ) (info : Info)
    (grad hess : List ℚ) (hlen : preds.length = info.labels.length)
    (hne : info.group_ptr ≠ []) (hlast : info.group_ptr.getLastD 0 = preds.length)
    (hs : info.group_ptr.Sorted (· ≤ ·)) :
    ∃ out, LambdaRankObj.GetGradient M o draws preds info grad hess = .ok out ∧
      ∀ k, k + 1 < info.group_ptr.length → ∃ rnd, ∀ r, r ∈ groupRows info.group_ptr k →
        out.grad.getD r 0
          = (((LambdaRankObj.weightedPairs o draws preds info k rnd).filter
                (fun p => decide (LambdaRankObj.posRow preds info k p = r))).map
              (LambdaRankObj.pairGrad M o (LambdaRankObj.sortedList preds info k)
                (o.scale info.group_ptr k))).sum
            - (((LambdaRankObj.weightedPairs o draws preds info k rnd).filter
                (fun p => decide (LambdaRankObj.negRow preds info k p = r))).map
              (LambdaRankObj.pairGrad M o (LambdaRankObj.sortedList preds info k)
                (o.scale info.group_ptr k))).sum ∧
        out.hess.getD r 0
          = (((LambdaRankObj.weightedPairs o draws preds info k rnd).filter
                (fun p => decide (LambdaRankObj.posRow preds info k p = r ∨
                  LambdaRankObj.negRow preds info k p = r))).map
              (LambdaRankObj.pairHess M o (LambdaRankObj.sortedList preds info k)
                (o.scale info.group_ptr k))).sum := by
  obtain ⟨out, hout, _, _, hQ⟩ := LambdaRankObj.GetGradient_lift M o hW draws hd preds info
    grad hess hlen hne hlast hs
    (fun k gh => ∃ rnd, ∀ r, r ∈ groupRows info.group_ptr k →
        gh.grad.getD r 0
          = (((LambdaRankObj.weightedPairs o draws preds info k rnd).filter
                (fun p => decide (LambdaRankObj.posRow preds info k p = r))).map
              (LambdaRankObj.pairGrad M o (LambdaRankObj.sortedList preds info k)
                (o.scale info.group_ptr k))).sum
            - (((LambdaRankObj.weightedPairs o draws preds info k rnd).filter
                (fun p => decide (LambdaRankObj.negRow preds info k p = r))).map
              (LambdaRankObj.pairGrad M o (LambdaRankObj.sortedList preds info k)
                (o.scale info.group_ptr k))).sum ∧
        gh.hess.getD r 0
          = (((LambdaRankObj.weightedPairs o draws preds info k rnd).filter
                (fun p => decide (LambdaRankObj.posRow preds info k p = r ∨
                  LambdaRankObj.negRow preds info k p = r))).map
              (LambdaRankObj.pairHess M o (LambdaRankObj.sortedList preds info k)
                (o.scale info.group_ptr k))).sum)
    (fun k a b hQa hab => by
      obtain ⟨rnd, h⟩ := hQa
      refine ⟨rnd, fun r hr => ?_⟩
      rw [(hab r hr).1, (hab r hr).2]
      exact h r hr)
    (fun k hk st hsg hsh => by
      refine ⟨st.rnd, fun r hr => ?_⟩
      have hrn : r < preds.length := by
        rw [← hlast]; exact groupRows_lt info.group_ptr hs k r hk hr
      have h := LambdaRankObj.group_getD M o draws preds info st k r
      have hrows := LambdaRankObj.weightedPairs_rows o hW draws hd preds info k st.rnd
      constructor
      · rw [h.2.2.1 (by omega), if_pos hr, zero_add, sum_map_sub', sum_map_ite_filter,
          sum_map_ite_filter]
      · rw [h.2.2.2 (by omega), if_pos hr, zero_add, ← sum_map_ite_filter]
        congr 1
        apply List.map_congr_left
        intro p hp
        have hp' := hrows p hp
        by_cases h1 : LambdaRankObj.posRow preds info k p = r
        · have h2 : ¬ LambdaRankObj.negRow preds info k p = r := fun e => hp'.2.2 (h1.trans e.symm)
          rw [if_pos h1, if_neg h2, if_pos (Or.inl h1), add_zero]
        · by_cases h2 : LambdaRankObj.negRow preds info k p = r
          · rw [if_neg h1, if_pos h2, if_pos (Or.inr h2), zero_add]
          · rw [if_neg h1, if_neg h2, if_neg (fun e => e.elim h1 h2), add_zero])
  exact ⟨out, hout, hQ⟩

/-- C2 at a concrete call: one group of two rows with labels 0 and 1, pairwise weights. -/
theorem C2_lambda_accumulation_witness :
    ∃ out, LambdaRankObj.GetGradient CMath.rational
      ⟨⟨.LogisticRaw, 0⟩, 1, 0, PairwiseRankObj.GetLambdaWeight⟩ (fun _ => 1 / 2) [1, 2]
      ⟨[0, 1], none, [0, 2]⟩ [] [] = .ok out :=
  let ⟨out, h, _⟩ := C2_lambda_accumulation CMath.rational
    ⟨⟨.LogisticRaw, 0⟩, 1, 0, PairwiseRankObj.GetLambdaWeight⟩ PairwiseRankObj.fillsWeights
    (fun _ => 1 / 2) (fun _ => by norm_num) [1, 2] ⟨[0, 1], none, [0, 2]⟩ [] [] rfl
    (by simp) rfl (by simp)
  ⟨out, h⟩

/-! ## C3 -/

/-- C3: in a call of `LambdaRankObj::GetGradient` that passes its assertions, for every group
whose labels are all equal (any size, any scores, any `num_pairsample`, any draws in `[0, 1)`,
any strategy that only fills weights), no pair is generated for the group and `grad` and `hess`
are 0 on every row of the group. -/
theorem C3_equal_labels_no_pairs (M : CMath) (o : LambdaRankObj)
    (hW : FillsWeights o.GetLambdaWeight) (draws : Nat → ℚ)
    (hd : ∀ m, 0 ≤ draws m ∧ draws m < 1) (preds : List ℚ) (info : Info)
    (grad hess : List ℚ) (hlen : preds.length = info.labels.length)
    (hne : info.group_ptr ≠ []) (hlast : info.group_ptr.getLastD 0 = preds.length)
    (hs : info.group_ptr.Sorted (· ≤ ·)) :
    ∃ out, LambdaRankObj.GetGradient M o draws preds info grad hess = .ok out ∧
      ∀ k, k + 1 < info.group_ptr.length → ∀ c,
        (∀ j, j ∈ groupRows info.group_ptr k → info.labels.getD j 0 = c) →
        (∀ rnd, (LambdaRankObj.samplePairs draws o.num_pairsample
            (LambdaRankObj.sortedList preds info k) rnd).pairs = []) ∧
        ∀ j, j ∈ groupRows info.group_ptr k →
          out.grad.getD j 0 = 0 ∧ out.hess.getD j 0 = 0 := by
  have hnone : ∀ k c, (∀ j, j ∈ groupRows info.group_ptr k → info.labels.getD j 0 = c) →
      ∀ rnd, LambdaRankObj.samplePairs draws o.num_pairsample
        (LambdaRankObj.sortedList preds info k) rnd = { pairs := [], rnd := rnd } := by
    intro k c heq rnd
    unfold LambdaRankObj.samplePairs
    exact enumBuckets_all_eq draws _ _ c (sortedRec_label_const preds info k c heq) _
  obtain ⟨out, hout, _, _, hQ⟩ := LambdaRankObj.GetGradient_lift M o hW draws hd preds info
    grad hess hlen hne hlast hs
    (fun k gh => ∀ c, (∀ j, j ∈ groupRows info.group_ptr k → info.labels.getD j 0 = c) →
      ∀ j, j ∈ groupRows info.group_ptr k → gh.grad.getD j 0 = 0 ∧ gh.hess.getD j 0 = 0)
    (fun k a b hQa hab c hc j hj => by
      rw [(hab j hj).1, (hab j hj).2]
      exact hQa c hc j hj)
    (fun k hk st hsg hsh c hc j hj => by
      have hjn : j < preds.length := by
        rw [← hlast]; exact groupRows_lt info.group_ptr hs k j hk hj
      have h := LambdaRankObj.group_getD M o draws preds info st k j
      have hp : LambdaRankObj.weightedPairs o draws preds info k st.rnd = [] := by
        unfold LambdaRankObj.weightedPairs
        rw [hnone k c hc st.rnd]
        exact hW.nil _
      rw [h.2.2.1 (by omega), h.2.2.2 (by omega), hp, if_pos hj, if_pos hj]
      simp)
  refine ⟨out, hout, fun k hk c hc => ⟨fun rnd => ?_, hQ k hk c hc⟩⟩
  rw [hnone k c hc rnd]

/-- C3 at a concrete call: one group of two rows, both labelled 1. -/
theorem C3_equal_labels_no_pairs_witness :
    ∃ out, LambdaRankObj.GetGradient CMath.rational
        ⟨⟨.LogisticRaw, 0⟩, 1, 0, PairwiseRankObj.GetLambdaWeight⟩ (fun _ => 1 / 2) [1, 2]
        ⟨[1, 1], none, [0, 2]⟩ [] [] = .ok out ∧
      out.grad.getD 0 0 = 0 ∧ out.grad.getD 1 0 = 0 :=
  let ⟨out, h, hz⟩ := C3_equal_labels_no_pairs CMath.rational
    ⟨⟨.LogisticRaw, 0⟩, 1, 0, PairwiseRankObj.GetLambdaWeight⟩ PairwiseRankObj.fillsWeights
    (fun _ => 1 / 2) (fun _ => by norm_num) [1, 2] ⟨[1, 1], none, [0, 2]⟩ [] [] rfl
    (by simp) rfl (by simp)
  have hc : ∀ j, j ∈ groupRows [0, 2] 0 →
      (⟨[1, 1], none, [0, 2]⟩ : Info).labels.getD j 0 = 1 := by
    intro j hj
    simp [groupRows, List.range'] at hj
    rcases hj with h | h <;> subst h <;> simp
  ⟨out, h, ((hz 0 (by simp) 1 hc).2 0 (by simp [groupRows, List.range'])).1,
    ((hz 0 (by simp) 1 hc).2 1 (by simp [groupRows, List.range'])).1⟩

/-! ## LambdaRankObj_MAP: the accumulators -/

theorem hitsUpTo_succ (l : List ListEntry) (m : Nat) :
    hitsUpTo l (m + 1) = hitsUpTo l m + (if 0 < (l.getD m default).label then 1 else 0) := by
  unfold hitsUpTo
  rw [Finset.sum_range_succ]

theorem apPrefix_succ (l : List ListEntry) (d : ℚ) (m : Nat) :
    apPrefix l d (m + 1) = apPrefix l d m + apTerm l d m := by
  unfold apPrefix
  rw [Finset.sum_range_succ]

theorem apPrefix_zero (l : List ListEntry) (d : ℚ) : apPrefix l d 0 = 0 := by
  simp [apPrefix]

theorem getD_set_quad (v : List Quadruple) (a r : Nat) (x : Quadruple) :
    (v.set a x).getD r default = if r = a ∧ a < v.length then x else v.getD r default := by
  rw [List.getD_eq_getElem?_getD, List.getD_eq_getElem?_getD, List.getElem?_set]
  by_cases h : a = r
  · subst h
    by_cases h2 : a < v.length
    · simp [h2]
    · simp [h2]
      rw [List.getElem?_eq_none (by omega)]; rfl
  · have h' : ¬ r = a := fun e => h e.symm
    simp [h, h']

theorem LambdaRankObj_MAP.accStep_pos (l : List ListEntry) (st : MAPAccState) (m : Nat)
    (hp : toInt (l.getD m default).label > 0) :
    LambdaRankObj_MAP.accStep l st (1 + m)
      = { hit := st.hit + 1
          acc1 := st.acc1 + (st.hit + 1) / (((1 + m : Nat)) : ℚ)
          acc2 := st.acc2 + ((st.hit + 1) - 1) / (((1 + m : Nat)) : ℚ)
          acc3 := st.acc3 + ((st.hit + 1) + 1) / (((1 + m : Nat)) : ℚ)
          map_acc := st.map_acc.set m
            { ap_acc_ := st.acc1 + (st.hit + 1) / (((1 + m : Nat)) : ℚ)
              ap_acc_miss_ := st.acc2 + ((st.hit + 1) - 1) / (((1 + m : Nat)) : ℚ)
              ap_acc_add_ := st.acc3 + ((st.hit + 1) + 1) / (((1 + m : Nat)) : ℚ)
              hits_ := st.hit + 1 } } := by
  have hsub : 1 + m - 1 = m := by omega
  unfold LambdaRankObj_MAP.accStep
  simp only [hsub, hp, if_true]

theorem LambdaRankObj_MAP.accStep_neg (l : List ListEntry) (st : MAPAccState) (m : Nat)
    (hp : ¬ toInt (l.getD m default).label > 0) :
    LambdaRankObj_MAP.accStep l st (1 + m)
      = { hit := st.hit, acc1 := st.acc1, acc2 := st.acc2, acc3 := st.acc3
          map_acc := st.map_acc.set m
            { ap_acc_ := st.acc1, ap_acc_miss_ := st.acc2, ap_acc_add_ := st.acc3,
              hits_ := st.hit } } := by
  have hsub : 1 + m - 1 = m := by omega
  unfold LambdaRankObj_MAP.accStep
  simp only [hsub, hp, if_false]

/-- Loop invariant of `GetMAPAcc`: after the iterations `i = 1 .. m`, the running variables
are the hit count and the three accumulated precisions of the first `m` positions, and
`map_acc[k]` holds those of the first `k + 1` positions for every `k < m`. -/
theorem LambdaRankObj_MAP.foldl_accStep (l : List ListEntry)
    (hcoh : ∀ k, k < l.length →
      (0 < toInt (l.getD k default).label ↔ 0 < (l.getD k default).label))
    (m : Nat) (hm : m ≤ l.length) :
    ((List.range' 1 m).foldl (LambdaRankObj_MAP.accStep l)
        { hit := 0, acc1 := 0, acc2 := 0, acc3 := 0,
          map_acc := List.replicate l.length default }).hit = hitsUpTo l m ∧
    ((List.range' 1 m).foldl (LambdaRankObj_MAP.accStep l)
        { hit := 0, acc1 := 0, acc2 := 0, acc3 := 0,
          map_acc := List.replicate l.length default }).acc1 = apPrefix l 0 m ∧
    ((List.range' 1 m).foldl (LambdaRankObj_MAP.accStep l)
        { hit := 0, acc1 := 0, acc2 := 0, acc3 := 0,
          map_acc := List.replicate l.length default }).acc2 = apPrefix l (-1) m ∧
    ((List.range' 1 m).foldl (LambdaRankObj_MAP.accStep l)
        { hit := 0, acc1 := 0, acc2 := 0, acc3 := 0,
          map_acc := List.replicate l.length default }).acc3 = apPrefix l 1 m ∧
    ((List.range' 1 m).foldl (LambdaRankObj_MAP.accStep l)
        { hit := 0, acc1 := 0, acc2 := 0, acc3 := 0,
          map_acc := List.replicate l.length default }).map_acc.length = l.length ∧
    ∀ k, k < m →
      ((List.range' 1 m).foldl (LambdaRankObj_MAP.accStep l)
        { hit := 0, acc1 := 0, acc2 := 0, acc3 := 0,
          map_acc := List.replicate l.length default }).map_acc.getD k default
        = { ap_acc_ := apPrefix l 0 (k + 1), ap_acc_miss_ := apPrefix l (-1) (k + 1),
            ap_acc_add_ := apPrefix l 1 (k + 1), hits_ := hitsUpTo l (k + 1) } := by
  induction m with
  | zero =>
    refine ⟨by simp [hitsUpTo], by simp [apPrefix], by simp [apPrefix], by simp [apPrefix],
      by simp, ?_⟩
    intro k hk; omega
  | succ m ih =>
    obtain ⟨h1, h2, h3, h4, h5, h6⟩ := ih (by omega)
    rw [List.range'_1_concat, List.foldl_append]
    simp only [List.foldl_cons, List.foldl_nil]
    generalize (List.range' 1 m).foldl (LambdaRankObj_MAP.accStep l)
        { hit := 0, acc1 := 0, acc2 := 0, acc3 := 0,
          map_acc := List.replicate l.length default } = st at h1 h2 h3 h4 h5 h6
    have hcast : (((1 + m : Nat)) : ℚ) = (m : ℚ) + 1 := by push_cast; ring
    by_cases hp : 0 < (l.getD m default).label
    · have hp' : toInt (l.getD m default).label > 0 := (hcoh m (by omega)).mpr hp
      have hH : hitsUpTo l (m + 1) = hitsUpTo l m + 1 := by
        rw [hitsUpTo_succ, if_pos hp]
      rw [LambdaRankObj_MAP.accStep_pos l st m hp']
      have e1 : st.acc1 + (st.hit + 1) / (((1 + m : Nat)) : ℚ) = apPrefix l 0 (m + 1) := by
        rw [apPrefix_succ, apTerm, if_pos hp, hH, h1, h2, hcast, add_zero]
      have e2 : st.acc2 + ((st.hit + 1) - 1) / (((1 + m : Nat)) : ℚ)
          = apPrefix l (-1) (m + 1) := by
        rw [apPrefix_succ, apTerm, if_pos hp, hH, h1, h3, hcast, sub_eq_add_neg]
      have e3 : st.acc3 + ((st.hit + 1) + 1) / (((1 + m : Nat)) : ℚ)
          = apPrefix l 1 (m + 1) := by
        rw [apPrefix_succ, apTerm, if_pos hp, hH, h1, h4, hcast]
      have e0 : st.hit + 1 = hitsUpTo l (m + 1) := by rw [hH, h1]
      refine ⟨e0, e1, e2, e3, by simp [h5], ?_⟩
      intro k hk
      show (st.map_acc.set m _).getD k default = _
      rw [getD_set_quad]
      by_cases hkm : k = m
      · subst hkm
        rw [if_pos ⟨rfl, by omega⟩, e1, e2, e3, e0]
      · rw [if_neg (fun e => hkm e.1)]
        exact h6 k (by omega)
    · have hp' : ¬ toInt (l.getD m default).label > 0 := fun e => hp ((hcoh m (by omega)).mp e)
      have hH : hitsUpTo l (m + 1) = hitsUpTo l m := by
        rw [hitsUpTo_succ, if_neg hp, add_zero]
      rw [LambdaRankObj_MAP.accStep_neg l st m hp']
      have e1 : st.acc1 = apPrefix l 0 (m + 1) := by
        rw [apPrefix_succ, apTerm, if_neg hp, h2, add_zero]
      have e2 : st.acc2 = apPrefix l (-1) (m + 1) := by
        rw [apPrefix_succ, apTerm, if_neg hp, h3, add_zero]
      have e3 : st.acc3 = apPrefix l 1 (m + 1) := by
        rw [apPrefix_succ, apTerm, if_neg hp, h4, add_zero]
      have e0 : st.hit = hitsUpTo l (m + 1) := by rw [hH, h1]
      refine ⟨e0, e1, e2, e3, by simp [h5], ?_⟩
      intro k hk
      show (st.map_acc.set m _).getD k default = _
      rw [getD_set_quad]
      by_cases hkm : k = m
      · subst hkm
        rw [if_pos ⟨rfl, by omega⟩, e1, e2, e3, e0]
      · rw [if_neg (fun e => hkm e.1)]
        exact h6 k (by omega)

/-- The quadruples of `GetMAPAcc`. -/
theorem LambdaRankObj_MAP.GetMAPAcc_spec (l : List ListEntry)
    (hcoh : ∀ k, k < l.length →
      (0 < toInt (l.getD k default).label ↔ 0 < (l.getD k default).label)) :
    (LambdaRankObj_MAP.GetMAPAcc l).length = l.length ∧
    ∀ k, k < l.length →
      (LambdaRankObj_MAP.GetMAPAcc l).getD k default
        = { ap_acc_ := apPrefix l 0 (k + 1), ap_acc_miss_ := apPrefix l (-1) (k + 1),
            ap_acc_add_ := apPrefix l 1 (k + 1), hits_ := hitsUpTo l (k + 1) } := by
  have h := LambdaRankObj_MAP.foldl_accStep l hcoh l.length (le_refl _)
  exact ⟨h.2.2.2.2.1, h.2.2.2.2.2⟩

/-! ## LambdaRankObj_MAP: exchanging two entries -/

theorem length_swapEntries (l : List ListEntry) (i j : Nat) :
    (swapEntries l i j).length = l.length := by
  simp [swapEntries]

theorem getD_swapEntries (l : List ListEntry) (i j k : Nat) (hi : i < l.length)
    (hj : j < l.length) :
    (swapEntries l i j).getD k default
      = if k = j then l.getD i default else if k = i then l.getD j default
        else l.getD k default := by
  unfold swapEntries
  rw [List.getD_eq_getElem?_getD, List.getElem?_set, List.getElem?_set]
  by_cases h1 : j = k
  · subst h1
    simp [hj]
  · have h1' : ¬ k = j := fun e => h1 e.symm
    by_cases h2 : i = k
    · subst h2
      simp [h1, h1', hi]
    · have h2' : ¬ k = i := fun e => h2 e.symm
      simp [h1, h1', h2, h2']

theorem swapEntries_comm (l : List ListEntry) (i j : Nat) (hi : i < l.length)
    (hj : j < l.length) : swapEntries l i j = swapEntries l j i := by
  apply List.ext_getElem
  · simp [swapEntries]
  · intro k h1 h2
    have e1 := getD_swapEntries l i j k hi hj
    have e2 := getD_swapEntries l j i k hj hi
    rw [List.getD_eq_getElem?_getD, List.getElem?_eq_getElem h1] at e1
    rw [List.getD_eq_getElem?_getD, List.getElem?_eq_getElem h2] at e2
    simp only [Option.getD_some] at e1 e2
    rw [e1, e2]
    by_cases hkj : k = j
    · by_cases hki : k = i
      · rw [if_pos hkj, if_pos hki, hki.symm.trans hkj]
      · rw [if_pos hkj, if_neg hki, if_pos hkj]
    · by_cases hki : k = i
      · rw [if_neg hkj, if_pos hki, if_pos hki]
      · rw [if_neg hkj, if_neg hki, if_neg hki, if_neg hkj]

/-- The hit counts after exchanging the entries at `a < c`: shifted, on the prefixes that
contain `a` but not `c`, by the difference of the two indicators. -/
theorem hitsUpTo_swapEntries (l : List ListEntry) (a c : Nat) (hac : a < c)
    (hc : c < l.length) (m : Nat) :
    hitsUpTo (swapEntries l a c) m
      = hitsUpTo l m + (if a < m ∧ m ≤ c then
          (if 0 < (l.getD c default).label then (1 : ℚ) else 0)
            - (if 0 < (l.getD a default).label then 1 else 0) else 0) := by
  have ha : a < l.length := by omega
  induction m with
  | zero => simp [hitsUpTo]
  | succ m ih =>
    rw [hitsUpTo_succ, hitsUpTo_succ, ih, getD_swapEntries l a c m ha hc]
    by_cases h1 : m = c
    · subst h1
      split_ifs <;> first | (exfalso; omega) | ring
    · by_cases h2 : m = a
      · subst h2
        split_ifs <;> first | (exfalso; omega) | ring
      · split_ifs <;> first | (exfalso; omega) | ring

/-- The accumulated precision after exchanging the entries at `a < c`, `δ` being the shift
of the hit counts strictly between the two positions. -/
theorem apPrefix_swapEntries (l : List ListEntry) (a c : Nat) (hac : a < c)
    (hc : c < l.length) (δ : ℚ)
    (hδ : δ = (if 0 < (l.getD c default).label then (1 : ℚ) else 0)
            - (if 0 < (l.getD a default).label then 1 else 0)) (m : Nat) :
    apPrefix (swapEntries l a c) 0 m
      = if m ≤ a then apPrefix l 0 m
        else if m ≤ c then
          apPrefix l 0 a + apTerm (swapEntries l a c) 0 a
            + (apPrefix l δ m - apPrefix l δ (a + 1))
        else
          apPrefix l 0 a + apTerm (swapEntries l a c) 0 a
            + (apPrefix l δ c - apPrefix l δ (a + 1))
            + apTerm (swapEntries l a c) 0 c
            + (apPrefix l 0 m - apPrefix l 0 (c + 1)) := by
  have ha : a < l.length := by omega
  induction m with
  | zero => simp [apPrefix]
  | succ m ih =>
    rw [apPrefix_succ, ih]
    by_cases h1 : m < a
    · have : apTerm (swapEntries l a c) 0 m = apTerm l 0 m := by
        unfold apTerm
        rw [getD_swapEntries l a c m ha hc, hitsUpTo_swapEntries l a c hac hc]
        split_ifs <;> first | (exfalso; omega) | ring
      rw [this, apPrefix_succ l 0 m]
      split_ifs <;> first | (exfalso; omega) | ring
    · by_cases h2 : m = a
      · subst h2
        split_ifs <;> first | (exfalso; omega) | ring
      · by_cases h3 : m < c
        · have : apTerm (swapEntries l a c) 0 m = apTerm l δ m := by
            unfold apTerm
            rw [getD_swapEntries l a c m ha hc, hitsUpTo_swapEntries l a c hac hc, ← hδ]
            split_ifs <;> first | (exfalso; omega) | ring
          rw [this, apPrefix_succ l δ m]
          split_ifs <;> first | (exfalso; omega) | ring
        · by_cases h4 : m = c
          · subst h4
            split_ifs <;> first | (exfalso; omega) | ring
          · have : apTerm (swapEntries l a c) 0 m = apTerm l 0 m := by
              unfold apTerm
              rw [getD_swapEntries l a c m ha hc, hitsUpTo_swapEntries l a c hac hc]
              split_ifs <;> first | (exfalso; omega) | ring
            rw [this, apPrefix_succ l 0 m]
            split_ifs <;> first | (exfalso; omega) | ring

/-! ## C5 -/

theorem ite_neg_eq_abs (x : ℚ) : (if x < 0 then -x else x) = |x| := by
  split
  · rename_i h; rw [abs_of_neg h]
  · rename_i h; rw [abs_of_nonneg (not_lt.mp h)]

theorem AP_eq (l : List ListEntry) :
    AP l = (1 / hitsUpTo l l.length) * apPrefix l 0 l.length := by
  unfold AP apPrefix apTerm
  simp only [add_zero]

theorem hitsUpTo_pos (l : List ListEntry) (k : Nat) (hk : k < l.length)
    (hp : 0 < (l.getD k default).label) : 0 < hitsUpTo l l.length := by
  unfold hitsUpTo
  have h1 : (if 0 < (l.getD k default).label then (1 : ℚ) else 0)
      ≤ Finset.sum (Finset.range l.length)
        (fun k => if 0 < (l.getD k default).label then (1 : ℚ) else 0) :=
    Finset.single_le_sum (f := fun k => if 0 < (l.getD k default).label then (1 : ℚ) else 0)
      (fun i _ => by beta_reduce; split <;> norm_num) (Finset.mem_range.mpr hk)
  rw [if_pos hp] at h1
  linarith

theorem binary_coherent (l : List ListEntry) (hb : ∀ e, e ∈ l → e.label = 0 ∨ e.label = 1)
    (k : Nat) (hk : k < l.length) :
    (0 < toInt (l.getD k default).label ↔ 0 < (l.getD k default).label) := by
  rcases hb _ (getD_mem_of_lt l default k hk) with h | h
  · rw [h]
    have : toInt (0 : ℚ) = 0 := by have := toInt_intCast 0; simpa using this
    rw [this]; simp
  · rw [h]
    have : toInt (1 : ℚ) = 1 := by have := toInt_intCast 1; simpa using this
    rw [this]; simp

/-- The closed form of `GetLambdaMAP` for two positions `a < c` with different 0/1 labels
is the change of the accumulated precision of the whole list under the exchange. -/
theorem LambdaRankObj_MAP.delta_ordered (l : List ListEntry)
    (hb : ∀ e, e ∈ l → e.label = 0 ∨ e.label = 1) (a c : Nat) (hac : a < c)
    (hc : c < l.length)
    (hlab : (l.getD a default).label ≠ (l.getD c default).label) :
    apPrefix (swapEntries l a c) 0 l.length - apPrefix l 0 l.length
      = (if (l.getD a default).label < (l.getD c default).label then
          (0 + (apPrefix l 1 c - apPrefix l 1 (a + 1)))
            + (hitsUpTo l (a + 1) + 1) / ((a : ℚ) + 1)
        else
          (0 + (apPrefix l (-1) c - apPrefix l (-1) (a + 1)))
            + hitsUpTo l (c + 1) / ((c : ℚ) + 1))
        - (apPrefix l 0 (c + 1) - apPrefix l 0 a) := by
  have ha : a < l.length := by omega
  have hla := hb _ (getD_mem_of_lt l default a ha)
  have hlc := hb _ (getD_mem_of_lt l default c hc)
  have hsa : ((swapEntries l a c).getD a default).label = (l.getD c default).label := by
    rw [getD_swapEntries l a c a ha hc, if_neg (by omega), if_pos rfl]
  have hsc : ((swapEntries l a c).getD c default).label = (l.getD a default).label := by
    rw [getD_swapEntries l a c c ha hc, if_pos rfl]
  have hHa := hitsUpTo_swapEntries l a c hac hc (a + 1)
  have hHc := hitsUpTo_swapEntries l a c hac hc (c + 1)
  rw [if_pos ⟨by omega, by omega⟩] at hHa
  rw [if_neg (by omega)] at hHc
  rcases hla with hla | hla <;> rcases hlc with hlc | hlc
  · exact absurd (hla.trans hlc.symm) hlab
  · -- label a = 0, label c = 1
    have h := apPrefix_swapEntries l a c hac hc 1 (by rw [hla, hlc]; norm_num) l.length
    rw [if_neg (by omega), if_neg (by omega)] at h
    rw [h, hla, hlc, if_pos (by norm_num)]
    unfold apTerm
    rw [hsa, hsc, hla, hlc, if_pos (by norm_num), if_neg (by norm_num), hHa, hla, hlc]
    norm_num
    ring
  · -- label a = 1, label c = 0
    have h := apPrefix_swapEntries l a c hac hc (-1) (by rw [hla, hlc]; norm_num) l.length
    rw [if_neg (by omega), if_neg (by omega)] at h
    rw [h, hla, hlc, if_neg (by norm_num)]
    unfold apTerm
    rw [hsa, hsc, hla, hlc, if_neg (by norm_num), if_pos (by norm_num), hHc]
    ring
  · exact absurd (hla.trans hlc.symm) hlab

/-- The change of average precision under the exchange of two positions `a < c` with
different 0/1 labels, in the closed form of `GetLambdaMAP`. -/
theorem LambdaRankObj_MAP.abs_delta_ordered (l : List ListEntry)
    (hb : ∀ e, e ∈ l → e.label = 0 ∨ e.label = 1)
    (a c : Nat) (hac : a < c) (hc : c < l.length)
    (hlab : (l.getD a default).label ≠ (l.getD c default).label) :
    |AP (swapEntries l a c) - AP l|
      = |((if (l.getD a default).label < (l.getD c default).label then
          (0 + (apPrefix l 1 c - apPrefix l 1 (a + 1)))
            + (hitsUpTo l (a + 1) + 1) / ((a : ℚ) + 1)
        else
          (0 + (apPrefix l (-1) c - apPrefix l (-1) (a + 1)))
            + hitsUpTo l (c + 1) / ((c : ℚ) + 1))
        - (apPrefix l 0 (c + 1) - apPrefix l 0 a)) / hitsUpTo l l.length| := by
  have hH := hitsUpTo_swapEntries l a c hac hc l.length
  rw [if_neg (by omega), add_zero] at hH
  rw [AP_eq, AP_eq, length_swapEntries, hH,
    ← LambdaRankObj_MAP.delta_ordered l hb a c hac hc hlab]
  congr 1
  ring

/-- The value of `GetLambdaMAP` on the accumulators of `GetMAPAcc`, for positions `a < c` with different
0/1 labels. -/
theorem LambdaRankObj_MAP.GetLambdaMAP_code (l : List ListEntry)
    (hb : ∀ e, e ∈ l → e.label = 0 ∨ e.label = 1)
    (hpos : ∃ e, e ∈ l ∧ e.label = 1) (i1 i2 : Nat) (h1 : i1 < l.length) (h2 : i2 < l.length)
    (hne : i1 ≠ i2) (hlab : (l.getD i1 default).label ≠ (l.getD i2 default).label)
    (a c : Nat) (ha : a = if i1 > i2 then i2 else i1) (hc : c = if i1 > i2 then i1 else i2) :
    LambdaRankObj_MAP.GetLambdaMAP l i1 i2 (LambdaRankObj_MAP.GetMAPAcc l)
      = |((if (l.getD a default).label < (l.getD c default).label then
          (0 + (apPrefix l 1 c - apPrefix l 1 (a + 1)))
            + (hitsUpTo l (a + 1) + 1) / ((a : ℚ) + 1)
        else
          (0 + (apPrefix l (-1) c - apPrefix l (-1) (a + 1)))
            + hitsUpTo l (c + 1) / ((c : ℚ) + 1))
        - (apPrefix l 0 (c + 1) - apPrefix l 0 a)) / hitsUpTo l l.length| := by
  obtain ⟨hlen, hacc⟩ := LambdaRankObj_MAP.GetMAPAcc_spec l (binary_coherent l hb)
  have hac : a < c := by rw [ha, hc]; split <;> omega
  have hcn : c < l.length := by rw [hc]; split <;> omega
  have hHpos : 0 < hitsUpTo l l.length := by
    obtain ⟨e, he, hl⟩ := hpos
    obtain ⟨k, hk, hke⟩ := List.getElem_of_mem he
    apply hitsUpTo_pos l k hk
    rw [List.getD_eq_getElem?_getD, List.getElem?_eq_getElem hk]
    simp only [Option.getD_some]
    rw [hke, hl]; norm_num
  have hlast : ((LambdaRankObj_MAP.GetMAPAcc l).getD
      ((LambdaRankObj_MAP.GetMAPAcc l).length - 1) default).hits_ = hitsUpTo l l.length := by
    rw [hlen, hacc (l.length - 1) (by omega)]
    have : l.length - 1 + 1 = l.length := by omega
    simp only [this]
  unfold LambdaRankObj_MAP.GetLambdaMAP
  rw [if_neg (by
    rintro (h | h | h)
    · exact hne h
    · exact hlab h
    · rw [hlast] at h; exact (ne_of_gt hHpos) h)]
  simp only [← ha, ← hc, hlast]
  have e1 : ((LambdaRankObj_MAP.GetMAPAcc l).getD c default).ap_acc_ = apPrefix l 0 (c + 1) := by
    rw [hacc c hcn]
  have e2 : ((LambdaRankObj_MAP.GetMAPAcc l).getD a default).ap_acc_add_
      = apPrefix l 1 (a + 1) := by rw [hacc a (by omega)]
  have e3 : ((LambdaRankObj_MAP.GetMAPAcc l).getD a default).ap_acc_miss_
      = apPrefix l (-1) (a + 1) := by rw [hacc a (by omega)]
  have e4 : ((LambdaRankObj_MAP.GetMAPAcc l).getD a default).hits_ = hitsUpTo l (a + 1) := by
    rw [hacc a (by omega)]
  have e5 : ((LambdaRankObj_MAP.GetMAPAcc l).getD c default).hits_ = hitsUpTo l (c + 1) := by
    rw [hacc c hcn]
  have e6 : ((LambdaRankObj_MAP.GetMAPAcc l).getD (c - 1) default).ap_acc_add_
      = apPrefix l 1 c := by
    rw [hacc (c - 1) (by omega)]
    have : c - 1 + 1 = c := by omega
    simp only [this]
  have e7 : ((LambdaRankObj_MAP.GetMAPAcc l).getD (c - 1) default).ap_acc_miss_
      = apPrefix l (-1) c := by
    rw [hacc (c - 1) (by omega)]
    have : c - 1 + 1 = c := by omega
    simp only [this]
  have e8 : (if a ≠ 0 then apPrefix l 0 (c + 1)
        - ((LambdaRankObj_MAP.GetMAPAcc l).getD (a - 1) default).ap_acc_
      else apPrefix l 0 (c + 1)) = apPrefix l 0 (c + 1) - apPrefix l 0 a := by
    by_cases h0 : a = 0
    · rw [if_neg (not_not.mpr h0), h0, apPrefix_zero, sub_zero]
    · rw [if_pos h0, hacc (a - 1) (by omega)]
      have : a - 1 + 1 = a := by omega
      simp only [this]
  rw [e1, e2, e3, e4, e5, e6, e7, e8]
  exact ite_neg_eq_abs _

/-- C5: for every prediction-sorted list whose labels are all 0 or 1 with at least one label
1, and every two positions `index1 != index2` carrying different labels, `GetLambdaMAP`
applied to the accumulators built by `GetMAPAcc` returns exactly
`|AP(list with the two entries exchanged) - AP(list)|`. -/
theorem C5_map_delta_exact (l : List ListEntry)
    (hb : ∀ e, e ∈ l → e.label = 0 ∨ e.label = 1)
    (hpos : ∃ e, e ∈ l ∧ e.label = 1) (index1 index2 : Nat) (h1 : index1 < l.length)
    (h2 : index2 < l.length) (hne : index1 ≠ index2)
    (hlab : (l.getD index1 default).label ≠ (l.getD index2 default).label) :
    LambdaRankObj_MAP.GetLambdaMAP l index1 index2 (LambdaRankObj_MAP.GetMAPAcc l)
      = |AP (swapEntries l index1 index2) - AP l| := by
  by_cases hgt : index1 > index2
  · rw [LambdaRankObj_MAP.GetLambdaMAP_code l hb hpos index1 index2 h1 h2 hne hlab index2 index1
      (by rw [if_pos hgt]) (by rw [if_pos hgt]),
      swapEntries_comm l index1 index2 h1 h2,
      LambdaRankObj_MAP.abs_delta_ordered l hb index2 index1 hgt h1 (Ne.symm hlab)]
  · have hlt : index1 < index2 := by omega
    rw [LambdaRankObj_MAP.GetLambdaMAP_code l hb hpos index1 index2 h1 h2 hne hlab index1 index2
      (by rw [if_neg hgt]) (by rw [if_neg hgt]),
      LambdaRankObj_MAP.abs_delta_ordered l hb index1 index2 hlt h2 hlab]

/-- C5 at a concrete list: labels `[1, 0, 1, 0]`, positions 1 and 2. -/
theorem C5_map_delta_exact_witness :
    LambdaRankObj_MAP.GetLambdaMAP [⟨4, 1, 0⟩, ⟨3, 0, 1⟩, ⟨2, 1, 2⟩, ⟨1, 0, 3⟩] 1 2
        (LambdaRankObj_MAP.GetMAPAcc [⟨4, 1, 0⟩, ⟨3, 0, 1⟩, ⟨2, 1, 2⟩, ⟨1, 0, 3⟩])
      = |AP (swapEntries [⟨4, 1, 0⟩, ⟨3, 0, 1⟩, ⟨2, 1, 2⟩, ⟨1, 0, 3⟩] 1 2)
          - AP [⟨4, 1, 0⟩, ⟨3, 0, 1⟩, ⟨2, 1, 2⟩, ⟨1, 0, 3⟩]| :=
  C5_map_delta_exact [⟨4, 1, 0⟩, ⟨3, 0, 1⟩, ⟨2, 1, 2⟩, ⟨1, 0, 3⟩]
    (by intro e he; simp at he; rcases he with h | h | h | h <;> subst h <;> simp)
    ⟨⟨4, 1, 0⟩, by simp, rfl⟩ 1 2 (by simp) (by simp) (by decide) (by simp)

/-! ## C6 -/

theorem toInt_zero : toInt (0 : ℚ) = 0 := by
  have := toInt_intCast 0; simpa using this

theorem toInt_one : toInt (1 : ℚ) = 1 := by
  have := toInt_intCast 1; simpa using this

/-- The weight `GetLambdaWeight` of `LambdaRankObj_NDCG` gives to the pair `(0, 1)` of the list
with labels `[1, 0]`, for any logarithm with `logf 2 ≠ 0`: the ideal DCG is computed in base 2
(`logf(2) * gain / logf(i + 2)`, here `1`) and the delta with the natural logarithm. -/
theorem LambdaRankObj_NDCG.weight_labels_one_zero (M : CMath) (h2 : M.logf 2 ≠ 0) :
    LambdaRankObj_NDCG.GetLambdaWeight M [⟨2, 1, 0⟩, ⟨1, 0, 1⟩] [LambdaPair.new 0 1]
      = [⟨0, 1, |1 / M.logf 2 - 1 / M.logf 3|⟩] := by
  have hs : ([⟨2, 1, 0⟩, ⟨1, 0, 1⟩] : List ListEntry).map (fun e => e.label) = [1, 0] := rfl
  have hsort : ([1, 0] : List ℚ).insertionSort (fun a b => b ≤ a) = [1, 0] := by decide
  have hI : LambdaRankObj_NDCG.GetIDCG M [⟨2, 1, 0⟩, ⟨1, 0, 1⟩] = 1 := by
    unfold LambdaRankObj_NDCG.GetIDCG
    rw [hs, hsort]
    simp [LambdaRankObj_NDCG.CalcDCG, List.range_succ, toInt_one, toInt_zero]
    norm_num
    field_simp
  unfold LambdaRankObj_NDCG.GetLambdaWeight
  rw [hI]
  simp only [List.map_cons, List.map_nil, LambdaPair.new, LambdaRankObj_NDCG.GetLambdaNDCG,
    List.getD_cons_zero, List.getD_cons_succ, toInt_one, toInt_zero, div_one]
  have e : ((2 : ℚ) ^ (1 : Int).toNat / M.logf (((0 : Nat) : ℚ) + 2)
        + (2 : ℚ) ^ (0 : Int).toNat / M.logf (((1 : Nat) : ℚ) + 2)
      - ((2 : ℚ) ^ (0 : Int).toNat / M.logf (((0 : Nat) : ℚ) + 2)
        + (2 : ℚ) ^ (1 : Int).toNat / M.logf (((1 : Nat) : ℚ) + 2)))
      = 1 / M.logf 2 - 1 / M.logf 3 := by
    norm_num
    ring
  rw [e, ite_neg_eq_abs]

/-- The weight the claim prescribes for the same pair, for any logarithm. -/
theorem specNDCGWeight_labels_one_zero (lg : ℚ → ℚ) :
    specNDCGWeight lg [1, 0] 0 1 = |1 / lg 2 - 1 / lg 3| / (1 / lg 2) := by
  have hsort : ([1, 0] : List Nat).insertionSort (fun a b => b ≤ a) = [1, 0] := by decide
  unfold specNDCGWeight
  simp only [hsort]
  simp [List.range_succ]
  norm_num

/-- For every logarithm with `log 2 ≠ 0`, `log 3 ≠ 0`, `log 2 ≠ log 3` and `log 2 ≠ 1` (the
real logarithm is one), the weight set by the code for the pair `(0, 1)` of the labels
`[1, 0]` differs from `|Δ| / IdealDCG` computed with that logarithm throughout. -/
theorem LambdaRankObj_NDCG.weight_ne_spec (M : CMath) (h2 : M.logf 2 ≠ 0) (h3 : M.logf 3 ≠ 0)
    (h23 : M.logf 2 ≠ M.logf 3) (h1 : M.logf 2 ≠ 1) :
    (LambdaRankObj_NDCG.GetLambdaWeight M [⟨2, 1, 0⟩, ⟨1, 0, 1⟩]
        [LambdaPair.new 0 1]).map (fun p => p.weight)
      ≠ [specNDCGWeight M.logf [1, 0] 0 1] := by
  rw [LambdaRankObj_NDCG.weight_labels_one_zero M h2, specNDCGWeight_labels_one_zero]
  simp only [List.map_cons, List.map_nil, ne_eq, List.cons.injEq, and_true]
  intro h
  have hx : 1 / M.logf 2 - 1 / M.logf 3 ≠ 0 := by
    intro e
    apply h23
    field_simp at e
    linarith
  have habs : |1 / M.logf 2 - 1 / M.logf 3| ≠ 0 := abs_ne_zero.mpr hx
  rw [div_div_eq_mul_div, div_one] at h
  have : M.logf 2 = 1 := by
    have h' : |1 / M.logf 2 - 1 / M.logf 3| * 1 = |1 / M.logf 2 - 1 / M.logf 3| * M.logf 2 := by
      rw [mul_one]; exact h
    exact (mul_left_cancel₀ habs h').symm
  exact h1 this

/-- C6 fails on the code: for the list with labels `[1, 0]` and the pair `(0, 1)`, the code
sets the weight `|1/log 2 - 1/log 3|` (`1/2` with the rational stand-in, `0.5325...` with the
real logarithm) while `|Δ| / IdealDCG` with one logarithm base is `1/3` (`0.369...`): the
ideal DCG is computed in base 2, the delta with the natural logarithm. -/
theorem C6_ndcg_weight_base_mismatch :
    (LambdaRankObj_NDCG.GetLambdaWeight CMath.rational [⟨2, 1, 0⟩, ⟨1, 0, 1⟩]
        [LambdaPair.new 0 1]).map (fun p => p.weight) = [1 / 2] ∧
      specNDCGWeight CMath.rational.logf [1, 0] 0 1 = 1 / 3 := by
  constructor
  · rw [LambdaRankObj_NDCG.weight_labels_one_zero CMath.rational
      (by simp [CMath.rational]; norm_num)]
    simp [CMath.rational]
    norm_num
  · rw [specNDCGWeight_labels_one_zero]
    simp [CMath.rational]
    rw [abs_of_pos (by norm_num)]
    norm_num

/-! ## C11 -/

/-- With `0 < nclass < 2^31` and `preds` of `nclass * ndata < 2^64` entries, the call passes
its two assertions and runs the row loop. -/
theorem SoftmaxMultiClassObj.GetGradient_run (M : CMath) (K : Nat) (hK : 0 < K)
    (hK31 : K < 2 ^ 31) (preds : List ℚ) (info : Info) (grad hess : List ℚ)
    (hp : preds.length = K * info.labels.length) (hsz : preds.length < 2 ^ 64) :
    SoftmaxMultiClassObj.GetGradient M ⟨(K : Int)⟩ preds info grad hess
      = (List.range info.labels.length).foldlM
          (SoftmaxMultiClassObj.row M ⟨(K : Int)⟩ preds info info.labels.length)
          { grad := resize grad preds.length, hess := resize hess preds.length } := by
  unfold SoftmaxMultiClassObj.GetGradient
  have h1 : ((K : Int) ≠ 0) := by exact_mod_cast (Nat.pos_iff_ne_zero.mp hK)
  have h2 : preds.length = (toSizeT (K : Int) * info.labels.length) % 2 ^ 64 := by
    rw [toSizeT_natCast K hK31, ← hp, Nat.mod_eq_of_lt hsz]
  have h3 : ¬ ((K : Int) < 0) := by omega
  rw [if_neg (not_not.mpr h1), if_neg (not_not.mpr h2), if_neg h3]

/-- A row step fails exactly when the decoded label is not below `nclass`. -/
theorem SoftmaxMultiClassObj.row_error_iff (M : CMath) (o : SoftmaxMultiClassObj)
    (preds : List ℚ) (info : Info) (ndata : Nat) (s : GradHess) (j : Nat) :
    (¬ SoftmaxMultiClassObj.decode (toInt (info.labels.getD j 0)) < o.nclass →
      SoftmaxMultiClassObj.row M o preds info ndata s j = .error .labelExceedNumClass) ∧
    (SoftmaxMultiClassObj.decode (toInt (info.labels.getD j 0)) < o.nclass →
      ∃ s', SoftmaxMultiClassObj.row M o preds info ndata s j = .ok s') := by
  unfold SoftmaxMultiClassObj.row SoftmaxMultiClassObj.decode
  constructor
  · intro h
    simp only [h, not_false_eq_true, if_true]
  · intro h
    simp only [h, not_true_eq_false, if_false]
    exact ⟨_, rfl⟩

/-- C11: for `K = nclass > 0`, integral labels and `preds` of length `K * labels.length`,
`SoftmaxMultiClassObj::GetGradient` fails with "SoftmaxMultiClassObj: label exceed num_class"
if and only if the decoded class of some row (`L` if `L >= 0`, else `-L - 1`) is at least
`K`; the label `-2` decodes to class `1`, which is below `5`. -/
theorem C11_label_out_of_range (M : CMath) (K : Nat) (hK : 0 < K) (hK31 : K < 2 ^ 31)
    (L : List Int) (preds : List ℚ) (info : Info) (grad hess : List ℚ)
    (hlab : info.labels = L.map (fun z : Int => (z : ℚ)))
    (hp : preds.length = K * L.length) (hsz : preds.length < 2 ^ 64) :
    (SoftmaxMultiClassObj.GetGradient M ⟨(K : Int)⟩ preds info grad hess
        = .error .labelExceedNumClass ↔
      ∃ j, j < L.length ∧
        (K : Int) ≤ (if 0 ≤ L.getD j 0 then L.getD j 0 else -L.getD j 0 - 1)) ∧
    SoftmaxMultiClassObj.decode (-2) = 1 ∧ SoftmaxMultiClassObj.decode (-2) < 5 := by
  have hnd : info.labels.length = L.length := by rw [hlab, List.length_map]
  refine ⟨?_, by decide, by decide⟩
  rw [SoftmaxMultiClassObj.GetGradient_run M K hK hK31 preds info grad hess (by rw [hnd]; exact hp)
    hsz]
  have hdec : ∀ j, SoftmaxMultiClassObj.decode (toInt (info.labels.getD j 0))
      = (if 0 ≤ L.getD j 0 then L.getD j 0 else -L.getD j 0 - 1) := by
    intro j
    rw [hlab, getD_map_intCast, toInt_intCast]
    unfold SoftmaxMultiClassObj.decode
    by_cases h0 : 0 ≤ L.getD j 0
    · rw [if_pos h0, if_neg (by omega)]
    · rw [if_neg h0, if_pos (by omega)]
  rw [foldlM_error_iff (SoftmaxMultiClassObj.row M ⟨(K : Int)⟩ preds info info.labels.length)
    .labelExceedNumClass
    (fun j => (K : Int) ≤ (if 0 ≤ L.getD j 0 then L.getD j 0 else -L.getD j 0 - 1))]
  · rw [hnd]
    constructor
    · rintro ⟨j, hj, hF⟩; exact ⟨j, List.mem_range.mp hj, hF⟩
    · rintro ⟨j, hj, hF⟩; exact ⟨j, List.mem_range.mpr hj, hF⟩
  · intro j _ s
    have h := SoftmaxMultiClassObj.row_error_iff M ⟨(K : Int)⟩ preds info info.labels.length s j
    rw [hdec j] at h
    constructor
    · intro hF; exact h.1 (by simp only; omega)
    · intro hF; exact h.2 (by simp only; omega)

/-- C11 at a concrete call: `nclass = 5`, one row labelled `-2`: the call does not fail with
"label exceed num_class". -/
theorem C11_label_out_of_range_witness :
    ¬ (SoftmaxMultiClassObj.GetGradient CMath.rational ⟨5⟩ [0, 0, 0, 0, 0]
        ⟨[-2], none, []⟩ [] [] = .error .labelExceedNumClass) := by
  intro h
  obtain ⟨j, hj, hd⟩ := (C11_label_out_of_range CMath.rational 5 (by decide) (by decide)
    [-2] [0, 0, 0, 0, 0] ⟨[-2], none, []⟩ [] [] (by simp) rfl (by simp)).1.mp h
  have hj0 : j = 0 := by simp at hj; omega
  subst hj0
  simp at hd

/-! ## C12 -/

/-- C12 as stated fails: with `nclass = -1`, one label and no prediction, the call passes the
assertion `nclass != 0` and fails on the size assertion instead. -/
theorem C12_negative_num_class_counterexample :
    SoftmaxMultiClassObj.GetGradient CMath.rational ⟨-1⟩ [] ⟨[0], none, []⟩ [] []
        = .error .multiClassSizeNotMatch ∧
      SoftmaxMultiClassObj.GetGradient CMath.rational ⟨-1⟩ [] ⟨[0], none, []⟩ [] []
        ≠ .error .mustSetNumClass := by
  have h : SoftmaxMultiClassObj.GetGradient CMath.rational ⟨-1⟩ [] ⟨[0], none, []⟩ [] []
      = .error .multiClassSizeNotMatch := by
    unfold SoftmaxMultiClassObj.GetGradient
    rw [if_neg (by decide), if_pos (by decide)]
  exact ⟨h, by rw [h]; intro e; cases e⟩

/-- C12 (amended): when `nclass` is 0 (unset or set to zero), for every `preds` and `labels`,
`SoftmaxMultiClassObj::GetGradient` fails with "must set num_class to use softmax" and returns
no gradient; when `nclass` is negative the call returns no gradient either, but it fails on
the size assertion or on the allocation of `rec`, never with "must set num_class". -/
theorem C12_zero_num_class (M : CMath) (o : SoftmaxMultiClassObj) (preds : List ℚ)
    (info : Info) (grad hess : List ℚ) :
    (o.nclass = 0 →
      SoftmaxMultiClassObj.GetGradient M o preds info grad hess = .error .mustSetNumClass) ∧
    (o.nclass < 0 →
      SoftmaxMultiClassObj.GetGradient M o preds info grad hess = .error .multiClassSizeNotMatch ∨
      SoftmaxMultiClassObj.GetGradient M o preds info grad hess = .error .vectorLength) := by
  constructor
  · intro h
    unfold SoftmaxMultiClassObj.GetGradient
    rw [if_pos (not_not.mpr h)]
  · intro h
    unfold SoftmaxMultiClassObj.GetGradient
    rw [if_neg (not_not.mpr (by omega))]
    by_cases h2 : preds.length = (toSizeT o.nclass * info.labels.length) % 2 ^ 64
    · rw [if_neg (not_not.mpr h2), if_pos h]
      exact Or.inr rfl
    · rw [if_pos h2]
      exact Or.inl rfl

/-- C12 (amended) at concrete calls: `nclass = 0` with empty inputs, `nclass = -3` with empty
inputs. -/
theorem C12_zero_num_class_witness :
    SoftmaxMultiClassObj.GetGradient CMath.rational ⟨0⟩ [] ⟨[], none, []⟩ [] []
        = .error .mustSetNumClass ∧
      (SoftmaxMultiClassObj.GetGradient CMath.rational ⟨-3⟩ [] ⟨[], none, []⟩ [] []
          = .error .multiClassSizeNotMatch ∨
        SoftmaxMultiClassObj.GetGradient CMath.rational ⟨-3⟩ [] ⟨[], none, []⟩ [] []
          = .error .vectorLength) :=
  ⟨(C12_zero_num_class CMath.rational ⟨0⟩ [] ⟨[], none, []⟩ [] []).1 rfl,
   (C12_zero_num_class CMath.rational ⟨-3⟩ [] ⟨[], none, []⟩ [] []).2 (by decide)⟩

/-! ## C13 -/

theorem getD_resize_of_lt (v : List ℚ) (n j : Nat) (h : j < n) (hn : n ≤ v.length) :
    (resize v n).getD j 0 = v.getD j 0 := by
  unfold resize
  rw [List.getD_eq_getElem?_getD, List.getD_eq_getElem?_getD,
    List.getElem?_append_left (by rw [List.length_take]; omega), List.getElem?_take_of_lt h]

/-- The scan of `FindMaxIndex` over the positions `1 .. n`: the result is the first position
holding the maximum of the positions `0 .. n`. -/
theorem FindMaxIndex_scan (f : Nat → ℚ) (n : Nat) :
    (List.range' 1 n).foldl (fun mxid i => if f i > f mxid then i else mxid) 0 ≤ n ∧
    (∀ k, k ≤ n →
      f k ≤ f ((List.range' 1 n).foldl (fun mxid i => if f i > f mxid then i else mxid) 0)) ∧
    (∀ k, k < (List.range' 1 n).foldl (fun mxid i => if f i > f mxid then i else mxid) 0 →
      f k < f ((List.range' 1 n).foldl (fun mxid i => if f i > f mxid then i else mxid) 0)) := by
  induction n with
  | zero =>
    refine ⟨le_refl _, ?_, ?_⟩
    · intro k hk
      have : k = 0 := by omega
      subst this; exact le_refl _
    · intro k hk
      simp at hk
  | succ n ih =>
    rw [List.range'_concat, List.foldl_append]
    simp only [List.foldl_cons, List.foldl_nil, Nat.one_mul]
    obtain ⟨h1, h2, h3⟩ := ih
    generalize (List.range' 1 n).foldl (fun mxid i => if f i > f mxid then i else mxid) 0 = r
      at h1 h2 h3 ⊢
    by_cases hc : f (1 + n) > f r
    · rw [if_pos hc]
      refine ⟨by omega, ?_, ?_⟩
      · intro k hk
        by_cases hkn : k ≤ n
        · exact le_of_lt (lt_of_le_of_lt (h2 k hkn) hc)
        · have : k = 1 + n := by omega
          subst this; exact le_refl _
      · intro k hk
        exact lt_of_le_of_lt (h2 k (by omega)) hc
    · rw [if_neg hc]
      refine ⟨by omega, ?_, h3⟩
      intro k hk
      by_cases hkn : k ≤ n
      · exact h2 k hkn
      · have : k = 1 + n := by omega
        subst this; exact not_lt.mp hc

/-- The first position of the maximum: the contract of `FindMaxIndex`. -/
theorem FindMaxIndex_spec (rec_ : List ℚ) (h : 0 < rec_.length) :
    FindMaxIndex rec_ < rec_.length ∧
    (∀ k, k < rec_.length → rec_.getD k 0 ≤ rec_.getD (FindMaxIndex rec_) 0) ∧
    (∀ k, k < FindMaxIndex rec_ → rec_.getD k 0 < rec_.getD (FindMaxIndex rec_) 0) := by
  obtain ⟨h1, h2, h3⟩ := FindMaxIndex_scan (fun i => rec_.getD i 0) (rec_.length - 1)
  unfold FindMaxIndex
  exact ⟨by omega, fun k hk => h2 k (by omega), h3⟩

/-- The first position of the maximum is unique. -/
theorem FindMaxIndex_unique (rec_ : List ℚ) (h : 0 < rec_.length) (c : Nat)
    (hc : c < rec_.length) (hmax : ∀ k, k < rec_.length → rec_.getD k 0 ≤ rec_.getD c 0)
    (hfirst : ∀ k, k < c → rec_.getD k 0 < rec_.getD c 0) : FindMaxIndex rec_ = c := by
  obtain ⟨h1, h2, h3⟩ := FindMaxIndex_spec rec_ h
  rcases Nat.lt_trichotomy (FindMaxIndex rec_) c with hlt | heq | hgt
  · exact absurd (hfirst _ hlt) (not_lt.mpr (h2 c hc))
  · exact heq
  · exact absurd (h3 _ hgt) (not_lt.mpr (hmax _ h1))

theorem getD_map_range (K : Nat) (g : Nat → ℚ) (k : Nat) (hk : k < K) :
    ((List.range K).map g).getD k 0 = g k := by
  rw [List.getD_eq_getElem?_getD, List.getElem?_map, List.getElem?_range hk]
  rfl

/-- Invariant of the row loop of `PredTransform`: after the rows `0 .. m-1` the positions
below `m` hold the class indices of the original rows and every other position is as it was. -/
theorem SoftmaxMultiClassObj.foldl_predRow (K ndata : Nat) (preds : List ℚ)
    (hp : preds.length = K * ndata) (hK : 0 < K) (m : Nat) (hm : m ≤ ndata) :
    ((List.range m).foldl (SoftmaxMultiClassObj.predRow K ndata) preds).length = preds.length ∧
    (∀ i, m ≤ i →
      ((List.range m).foldl (SoftmaxMultiClassObj.predRow K ndata) preds).getD i 0
        = preds.getD i 0) ∧
    (∀ j, j < m →
      ((List.range m).foldl (SoftmaxMultiClassObj.predRow K ndata) preds).getD j 0
        = ((FindMaxIndex ((List.range K).map (fun k => preds.getD (j + k * ndata) 0)) : Nat)
            : ℚ)) := by
  induction m with
  | zero =>
    exact ⟨rfl, fun _ _ => rfl, fun j hj => absurd hj (Nat.not_lt_zero j)⟩
  | succ m ih =>
    obtain ⟨h1, h2, h3⟩ := ih (by omega)
    rw [List.range_succ, List.foldl_append]
    simp only [List.foldl_cons, List.foldl_nil]
    generalize (List.range m).foldl (SoftmaxMultiClassObj.predRow K ndata) preds = P
      at h1 h2 h3 ⊢
    have hrow : (List.range K).map (fun k => P.getD (m + k * ndata) 0)
        = (List.range K).map (fun k => preds.getD (m + k * ndata) 0) := by
      apply List.map_congr_left
      intro k _
      exact h2 _ (by omega)
    have hmlen : m < P.length := by
      rw [h1, hp]
      calc m < ndata := by omega
        _ = 1 * ndata := by ring
        _ ≤ K * ndata := Nat.mul_le_mul_right _ hK
    unfold SoftmaxMultiClassObj.predRow
    simp only
    rw [hrow]
    refine ⟨by rw [List.length_set]; exact h1, ?_, ?_⟩
    · intro i hi
      rw [getD_set_eq, if_neg (by omega)]
      exact h2 i (by omega)
    · intro j hj
      rw [getD_set_eq]
      by_cases hjm : j = m
      · subst hjm
        rw [if_pos ⟨rfl, hmlen⟩]
      · rw [if_neg (fun h => hjm h.1)]
        exact h3 j (by omega)

/-- With `0 < nclass < 2^31` and `preds` of `nclass * ndata` entries, `PredTransform` passes
its two assertions, runs the row loop over `ndata` rows and shrinks the result. -/
theorem SoftmaxMultiClassObj.PredTransform_run (K ndata : Nat) (hK : 0 < K)
    (hK31 : K < 2 ^ 31) (preds : List ℚ) (hp : preds.length = K * ndata) :
    SoftmaxMultiClassObj.PredTransform ⟨(K : Int)⟩ preds
      = .ok (resize ((List.range ndata).foldl (SoftmaxMultiClassObj.predRow K ndata) preds)
          ndata) := by
  have hdiv : preds.length / K = ndata := by
    rw [hp, Nat.mul_div_cancel_left _ hK]
  unfold SoftmaxMultiClassObj.PredTransform
  have h1 : ((K : Int) ≠ 0) := by exact_mod_cast (Nat.pos_iff_ne_zero.mp hK)
  have h2 : preds.length % toSizeT (K : Int) = 0 := by
    rw [toSizeT_natCast K hK31, hp, Nat.mul_mod_right]
  have h3 : ¬ ((K : Int) < 0) := by omega
  rw [if_neg (not_not.mpr h1), if_neg (not_not.mpr h2)]
  simp only
  rw [if_neg h3, toSizeT_natCast K hK31, hdiv, Int.toNat_ofNat]

/-- The output of `PredTransform`: `ndata` entries, entry `j` being `FindMaxIndex` of the
original scores of row `j`. -/
theorem SoftmaxMultiClassObj.PredTransform_rows (K ndata : Nat) (hK : 0 < K)
    (hK31 : K < 2 ^ 31) (preds : List ℚ) (hp : preds.length = K * ndata) :
    ∃ out, SoftmaxMultiClassObj.PredTransform ⟨(K : Int)⟩ preds = .ok out ∧
      out.length = ndata ∧
      ∀ j, j < ndata → out.getD j 0
        = ((FindMaxIndex ((List.range K).map (fun k => preds.getD (j + k * ndata) 0)) : Nat)
            : ℚ) := by
  obtain ⟨i1, _, i3⟩ := SoftmaxMultiClassObj.foldl_predRow K ndata preds hp hK ndata (le_refl _)
  have hle : ndata ≤ preds.length := by
    rw [hp]
    calc ndata = 1 * ndata := by ring
      _ ≤ K * ndata := Nat.mul_le_mul_right _ hK
  refine ⟨_, SoftmaxMultiClassObj.PredTransform_run K ndata hK hK31 preds hp,
    length_resize _ _, ?_⟩
  intro j hj
  rw [getD_resize_of_lt _ _ _ hj (by rw [i1]; exact hle)]
  exact i3 j hj

/-- C13: for `K = nclass > 0` and `preds` of length `K * ndata`,
`SoftmaxMultiClassObj::PredTransform` returns `preds` with exactly `ndata` entries; for every
row `j < ndata` the new `preds[j]` is the class index `c < K` that maximises the original
`preds[j + k*ndata]` over `k < K`, every earlier class being strictly smaller (first
occurrence); and after any number `m` of rows the scores of the rows `j >= m` are those of the
original `preds`. -/
theorem C13_pred_transform_argmax (K ndata : Nat) (hK : 0 < K) (hK31 : K < 2 ^ 31)
    (preds : List ℚ) (hp : preds.length = K * ndata) :
    (∃ out, SoftmaxMultiClassObj.PredTransform ⟨(K : Int)⟩ preds = .ok out ∧
      out.length = ndata ∧
      ∀ j, j < ndata → ∃ c : Nat, out.getD j 0 = (c : ℚ) ∧ c < K ∧
        (∀ k, k < K → preds.getD (j + k * ndata) 0 ≤ preds.getD (j + c * ndata) 0) ∧
        (∀ k, k < c → preds.getD (j + k * ndata) 0 < preds.getD (j + c * ndata) 0)) ∧
    (∀ m j k, m ≤ j → j < ndata → k < K →
      ((List.range m).foldl (SoftmaxMultiClassObj.predRow K ndata) preds).getD
        (j + k * ndata) 0 = preds.getD (j + k * ndata) 0) := by
  have hrun := SoftmaxMultiClassObj.PredTransform_run K ndata hK hK31 preds hp
  obtain ⟨i1, i2, i3⟩ := SoftmaxMultiClassObj.foldl_predRow K ndata preds hp hK ndata (le_refl _)
  have hle : ndata ≤ preds.length := by
    rw [hp]
    calc ndata = 1 * ndata := by ring
      _ ≤ K * ndata := Nat.mul_le_mul_right _ hK
  refine ⟨⟨_, hrun, length_resize _ _, ?_⟩, ?_⟩
  · intro j hj
    have hlen : ((List.range K).map (fun k => preds.getD (j + k * ndata) 0)).length = K := by
      rw [List.length_map, List.length_range]
    obtain ⟨s1, s2, s3⟩ := FindMaxIndex_spec
      ((List.range K).map (fun k => preds.getD (j + k * ndata) 0)) (by rw [hlen]; exact hK)
    rw [hlen] at s1 s2
    refine ⟨FindMaxIndex ((List.range K).map (fun k => preds.getD (j + k * ndata) 0)), ?_, s1,
      ?_, ?_⟩
    · rw [getD_resize_of_lt _ _ _ hj (by rw [i1]; exact hle)]
      exact i3 j hj
    · intro k hk
      have := s2 k hk
      rw [getD_map_range K _ k hk, getD_map_range K _ _ s1] at this
      exact this
    · intro k hk
      have := s3 k hk
      rw [getD_map_range K _ k (by omega), getD_map_range K _ _ s1] at this
      exact this
  · intro m j k hmj hj _
    exact (SoftmaxMultiClassObj.foldl_predRow K ndata preds hp hK m (by omega)).2.1 _ (by omega)

/-- C13 at a concrete call: three classes, two rows; row 0 has scores `1, 3, 3` (class 1, the
first of the tied maxima), row 1 has scores `5, 2, 4` (class 0). -/
theorem C13_pred_transform_argmax_witness :
    SoftmaxMultiClassObj.PredTransform ⟨3⟩ [1, 5, 3, 2, 3, 4] = .ok [1, 0] ∧
    (∃ out, SoftmaxMultiClassObj.PredTransform ⟨((3 : Nat) : Int)⟩ [1, 5, 3, 2, 3, 4] = .ok out ∧
      out.length = 2 ∧
      ∀ j, j < 2 → ∃ c : Nat, out.getD j 0 = (c : ℚ) ∧ c < 3 ∧
        (∀ k, k < 3 → ([1, 5, 3, 2, 3, 4] : List ℚ).getD (j + k * 2) 0
          ≤ ([1, 5, 3, 2, 3, 4] : List ℚ).getD (j + c * 2) 0) ∧
        (∀ k, k < c → ([1, 5, 3, 2, 3, 4] : List ℚ).getD (j + k * 2) 0
          < ([1, 5, 3, 2, 3, 4] : List ℚ).getD (j + c * 2) 0)) :=
  ⟨by rfl, (C13_pred_transform_argmax 3 2 (by decide) (by decide) [1, 5, 3, 2, 3, 4] rfl).1⟩

/-! ## C14 -/

/-- Entry `k` of `Softmax`: the exponential of the shifted score over the sum of the
exponentials. -/
theorem getD_Softmax (M : CMath) (l : List ℚ) (k : Nat) (hk : k < l.length) :
    (Softmax M l).getD k 0
      = M.expf (l.getD k 0 - l.foldl max (l.headD 0))
          / (l.map (fun x => M.expf (x - l.foldl max (l.headD 0)))).sum := by
  unfold Softmax
  simp only
  rw [List.getD_eq_getElem?_getD, List.getD_eq_getElem?_getD, List.getElem?_map,
    List.getElem?_map, List.getElem?_eq_getElem hk]
  rfl

/-- With a positive, strictly increasing `expf`, `Softmax` keeps the order of the scores. -/
theorem Softmax_lt (M : CMath) (hmono : StrictMono M.expf) (hpos : ∀ x, 0 < M.expf x)
    (l : List ℚ) (a b : Nat) (ha : a < l.length) (hb : b < l.length)
    (h : l.getD a 0 < l.getD b 0) : (Softmax M l).getD a 0 < (Softmax M l).getD b 0 := by
  rw [getD_Softmax M l a ha, getD_Softmax M l b hb]
  have hS : 0 < (l.map (fun x => M.expf (x - l.foldl max (l.headD 0)))).sum := by
    apply sum_pos_of_forall_pos
    · intro e
      rw [List.map_eq_nil_iff] at e
      rw [e] at ha
      exact Nat.not_lt_zero _ ha
    · intro x hx
      rw [List.mem_map] at hx
      obtain ⟨y, _, rfl⟩ := hx
      exact hpos _
  exact div_lt_div_of_pos_right (hmono (by linarith)) hS

theorem Softmax_le (M : CMath) (hmono : StrictMono M.expf) (hpos : ∀ x, 0 < M.expf x)
    (l : List ℚ) (a b : Nat) (ha : a < l.length) (hb : b < l.length)
    (h : l.getD a 0 ≤ l.getD b 0) : (Softmax M l).getD a 0 ≤ (Softmax M l).getD b 0 := by
  rcases lt_or_eq_of_le h with hlt | heq
  · exact le_of_lt (Softmax_lt M hmono hpos l a b ha hb hlt)
  · rw [getD_Softmax M l a ha, getD_Softmax M l b hb, heq]

/-- The first arg-max of the softmax probabilities is the first arg-max of the scores. -/
theorem FindMaxIndex_Softmax (M : CMath) (hmono : StrictMono M.expf)
    (hpos : ∀ x, 0 < M.expf x) (l : List ℚ) (hl : 0 < l.length) :
    FindMaxIndex (Softmax M l) = FindMaxIndex l := by
  obtain ⟨h1, h2, h3⟩ := FindMaxIndex_spec l hl
  apply FindMaxIndex_unique
  · rw [length_Softmax]; exact hl
  · rw [length_Softmax]; exact h1
  · intro k hk
    rw [length_Softmax] at hk
    exact Softmax_le M hmono hpos l k _ hk h1 (h2 k hk)
  · intro k hk
    exact Softmax_lt M hmono hpos l k _ (by omega) h1 (h3 k hk)

theorem CMath.rational_expf_strictMono : StrictMono CMath.rational.expf := by
  intro x y hxy
  show (if 0 ≤ x then 1 + x else 1 / (1 - x)) < (if 0 ≤ y then 1 + y else 1 / (1 - y))
  by_cases hx : 0 ≤ x
  · rw [if_pos hx, if_pos (by linarith)]
    linarith
  · push_neg at hx
    rw [if_neg (by linarith)]
    have h1 : 1 / (1 - x) < 1 := by
      rw [div_lt_one (by linarith)]
      linarith
    by_cases hy : 0 ≤ y
    · rw [if_pos hy]
      linarith
    · push_neg at hy
      rw [if_neg (by linarith)]
      exact one_div_lt_one_div_of_lt (by linarith) (by linarith)

/-- C14: with an exponential that is positive and strictly increasing (as the real one is),
for `K = nclass > 0` and `preds` of length `K * ndata`, the class index that
`SoftmaxMultiClassObj::PredTransform` writes for row `j` (first arg-max of the raw scores of
the row) is the first arg-max of the softmax probabilities that `GetGradient` computes for that
row. -/
theorem C14_argmax_softmax_agree (M : CMath) (hmono : StrictMono M.expf)
    (hpos : ∀ x, 0 < M.expf x) (K ndata : Nat) (hK : 0 < K) (hK31 : K < 2 ^ 31)
    (preds : List ℚ) (hp : preds.length = K * ndata) :
    ∃ out, SoftmaxMultiClassObj.PredTransform ⟨(K : Int)⟩ preds = .ok out ∧
      ∀ j, j < ndata →
        out.getD j 0
          = ((FindMaxIndex
              (Softmax M ((List.range K).map (fun k => preds.getD (j + k * ndata) 0))) : Nat)
              : ℚ) ∧
        FindMaxIndex ((List.range K).map (fun k => preds.getD (j + k * ndata) 0))
          = FindMaxIndex
              (Softmax M ((List.range K).map (fun k => preds.getD (j + k * ndata) 0))) := by
  obtain ⟨out, hrun, _, hrows⟩ :=
    SoftmaxMultiClassObj.PredTransform_rows K ndata hK hK31 preds hp
  refine ⟨out, hrun, ?_⟩
  intro j hj
  have hsm := FindMaxIndex_Softmax M hmono hpos
    ((List.range K).map (fun k => preds.getD (j + k * ndata) 0))
    (by rw [List.length_map, List.length_range]; exact hK)
  exact ⟨by rw [hrows j hj, hsm], hsm.symm⟩

/-- C14 at a concrete call: three classes, two rows, the rational stand-in for `expf`. -/
theorem C14_argmax_softmax_agree_witness :
    ∃ out, SoftmaxMultiClassObj.PredTransform ⟨((3 : Nat) : Int)⟩ [1, 5, 3, 2, 3, 4] = .ok out ∧
      ∀ j, j < 2 →
        out.getD j 0
          = ((FindMaxIndex (Softmax CMath.rational ((List.range 3).map
              (fun k => ([1, 5, 3, 2, 3, 4] : List ℚ).getD (j + k * 2) 0))) : Nat) : ℚ) ∧
        FindMaxIndex ((List.range 3).map
            (fun k => ([1, 5, 3, 2, 3, 4] : List ℚ).getD (j + k * 2) 0))
          = FindMaxIndex (Softmax CMath.rational ((List.range 3).map
              (fun k => ([1, 5, 3, 2, 3, 4] : List ℚ).getD (j + k * 2) 0))) :=
  C14_argmax_softmax_agree CMath.rational CMath.rational_expf_strictMono
    CMath.rational_expf_pos 3 2 (by decide) (by decide) [1, 5, 3, 2, 3, 4] rfl

/-! ## C15 -/

/-- The rows written by `RegressionObj::GetGradient` when the sizes match. -/
theorem RegressionObj.GetGradient_rows (M : CMath) (o : RegressionObj) (preds : List ℚ)
    (info : Info) (grad hess : List ℚ) (hlen : preds.length = info.labels.length) :
    ∃ out, o.GetGradient M preds info grad hess = .ok out ∧
      ∀ j, j < preds.length →
        out.grad.getD j 0 = o.gradAt M preds info j ∧
        out.hess.getD j 0 = o.hessAt M preds info j := by
  have hrun : o.GetGradient M preds info grad hess
      = .ok ((List.range preds.length).foldl (RegressionObj.row M o preds info)
          { grad := resize grad preds.length, hess := resize hess preds.length }) := by
    unfold RegressionObj.GetGradient
    rw [if_neg (not_not.mpr hlen)]
  refine ⟨_, hrun, ?_⟩
  intro j hj
  rw [RegressionObj.foldl_row]
  simp only [getD_foldl_set, List.mem_range, length_resize, hj, and_self, if_true]

theorem CMath.rational_sigmoid_zero : sigmoid CMath.rational 0 = 1 / 2 := by
  unfold sigmoid CMath.rational
  norm_num

theorem CMath.rational_sigmoid_one : sigmoid CMath.rational 1 = 2 / 3 := by
  unfold sigmoid CMath.rational
  norm_num

/-- The hessian of a row of label 0 and weight 1 under `LogisticClassify`. -/
theorem RegressionObj.hessAt_logistic (M : CMath) (spw eps : ℚ) (preds labels : List ℚ)
    (j : Nat) (h : ¬ labels.getD j 0 = 1) :
    RegressionObj.hessAt M ⟨spw, ⟨.LogisticClassify, eps⟩⟩ preds ⟨labels, none, []⟩ j
      = max (sigmoid M (preds.getD j 0) * (1 - sigmoid M (preds.getD j 0))) eps := by
  unfold RegressionObj.hessAt LossType.SecondOrderGradient LossType.PredTransform Info.GetWeight
  simp only [if_neg h, mul_one]

/-- C15 as stated fails for the hessian: with the rational stand-in for `expf`, `eps = 1/100`,
one row of score 0, label 0 and weight 1, `p = 1/2` and `hess[0] = 1/4`, not
`p*(1-p)*2 = 1/2`; and no value of `eps` reconciles the two formulas on the two rows of
scores 0 and 1. -/
theorem C15_logistic_hessian_counterexample :
    (∃ out, RegressionObj.GetGradient CMath.rational ⟨1, ⟨.LogisticClassify, 1 / 100⟩⟩ [0]
        ⟨[0], none, []⟩ [] [] = .ok out ∧
      out.hess.getD 0 0 = 1 / 4 ∧
      sigmoid CMath.rational 0 * (1 - sigmoid CMath.rational 0) * 2 * (1 * 1) = 1 / 2 ∧
      out.hess.getD 0 0
        ≠ sigmoid CMath.rational 0 * (1 - sigmoid CMath.rational 0) * 2 * (1 * 1)) ∧
    (∀ eps : ℚ, ∃ out, RegressionObj.GetGradient CMath.rational
        ⟨1, ⟨.LogisticClassify, eps⟩⟩ [0, 1] ⟨[0, 0], none, []⟩ [] [] = .ok out ∧
      ¬ (out.hess.getD 0 0
          = sigmoid CMath.rational 0 * (1 - sigmoid CMath.rational 0) * 2 * (1 * 1) ∧
        out.hess.getD 1 0
          = sigmoid CMath.rational 1 * (1 - sigmoid CMath.rational 1) * 2 * (1 * 1))) := by
  constructor
  · obtain ⟨out, hrun, hrows⟩ := RegressionObj.GetGradient_rows CMath.rational
      ⟨1, ⟨.LogisticClassify, 1 / 100⟩⟩ [0] ⟨[0], none, []⟩ [] [] rfl
    have h0 := (hrows 0 (by decide)).2
    rw [RegressionObj.hessAt_logistic _ _ _ _ _ _ (by norm_num)] at h0
    have hp : ([0] : List ℚ).getD 0 0 = 0 := rfl
    rw [hp, CMath.rational_sigmoid_zero] at h0
    have hv : out.hess.getD 0 0 = 1 / 4 := by
      rw [h0]; norm_num
    refine ⟨out, hrun, hv, ?_, ?_⟩
    · rw [CMath.rational_sigmoid_zero]; norm_num
    · rw [hv, CMath.rational_sigmoid_zero]; norm_num
  · intro eps
    obtain ⟨out, hrun, hrows⟩ := RegressionObj.GetGradient_rows CMath.rational
      ⟨1, ⟨.LogisticClassify, eps⟩⟩ [0, 1] ⟨[0, 0], none, []⟩ [] [] rfl
    refine ⟨out, hrun, ?_⟩
    have h0 := (hrows 0 (by decide)).2
    have h1 := (hrows 1 (by decide)).2
    rw [RegressionObj.hessAt_logistic _ _ _ _ _ _ (by norm_num)] at h0 h1
    have hp0 : ([0, 1] : List ℚ).getD 0 0 = 0 := rfl
    have hp1 : ([0, 1] : List ℚ).getD 1 0 = 1 := rfl
    rw [hp0, CMath.rational_sigmoid_zero] at h0
    rw [hp1, CMath.rational_sigmoid_one] at h1
    rw [h0, h1, CMath.rational_sigmoid_zero, CMath.rational_sigmoid_one]
    rintro ⟨e0, e1⟩
    have a0 : max ((1 : ℚ) / 2 * (1 - 1 / 2)) eps = 1 / 2 := by rw [e0]; norm_num
    have a1 : max ((2 : ℚ) / 3 * (1 - 2 / 3)) eps = 4 / 9 := by rw [e1]; norm_num
    have b0 : eps = 1 / 2 := by
      rcases max_cases ((1 : ℚ) / 2 * (1 - 1 / 2)) eps with ⟨hm, _⟩ | ⟨hm, _⟩
      · rw [hm] at a0; norm_num at a0
      · rw [hm] at a0; exact a0
    rw [b0] at a1
    rcases max_cases ((2 : ℚ) / 3 * (1 - 2 / 3)) (1 / 2) with ⟨hm, _⟩ | ⟨hm, _⟩
    · rw [hm] at a1; norm_num at a1
    · rw [hm] at a1; norm_num at a1

/-- C15 (amended): for `RegressionObj::GetGradient` with the `LogisticClassify` loss and
`preds`, `labels` of equal length, for every row `j`, with `p = sigmoid(preds[j])` and
`weight_effective = weight[j] * (scale_pos_weight if labels[j] == 1.0 else 1.0)`:
`grad[j] = (p - label) * weight_effective` and
`hess[j] = max(p*(1-p), eps) * weight_effective`, which is `p*(1-p) * weight_effective`
(no factor 2) whenever `eps <= p*(1-p)`. -/
theorem C15_logistic_classify_gradient (M : CMath) (o : RegressionObj) (preds : List ℚ)
    (info : Info) (grad hess : List ℚ) (hloss : o.loss.loss_type = .LogisticClassify)
    (hlen : preds.length = info.labels.length) :
    ∃ out, o.GetGradient M preds info grad hess = .ok out ∧
      ∀ j, j < preds.length →
        out.grad.getD j 0
          = (sigmoid M (preds.getD j 0) - info.labels.getD j 0)
            * (info.GetWeight j * (if info.labels.getD j 0 = 1 then o.scale_pos_weight else 1)) ∧
        out.hess.getD j 0
          = max (sigmoid M (preds.getD j 0) * (1 - sigmoid M (preds.getD j 0))) o.loss.eps
            * (info.GetWeight j * (if info.labels.getD j 0 = 1 then o.scale_pos_weight else 1)) ∧
        (o.loss.eps ≤ sigmoid M (preds.getD j 0) * (1 - sigmoid M (preds.getD j 0)) →
          out.hess.getD j 0
            = sigmoid M (preds.getD j 0) * (1 - sigmoid M (preds.getD j 0))
              * (info.GetWeight j
                * (if info.labels.getD j 0 = 1 then o.scale_pos_weight else 1))) := by
  obtain ⟨out, hrun, hrows⟩ := RegressionObj.GetGradient_rows M o preds info grad hess hlen
  refine ⟨out, hrun, ?_⟩
  intro j hj
  obtain ⟨hg, hh⟩ := hrows j hj
  have hw : (if info.labels.getD j 0 = 1 then info.GetWeight j * o.scale_pos_weight
      else info.GetWeight j)
      = info.GetWeight j * (if info.labels.getD j 0 = 1 then o.scale_pos_weight else 1) := by
    split <;> simp
  have hg' : out.grad.getD j 0
      = (sigmoid M (preds.getD j 0) - info.labels.getD j 0)
        * (info.GetWeight j * (if info.labels.getD j 0 = 1 then o.scale_pos_weight else 1)) := by
    rw [hg, RegressionObj.gradAt, hw, LossType.FirstOrderGradient, LossType.PredTransform, hloss]
  have hh' : out.hess.getD j 0
      = max (sigmoid M (preds.getD j 0) * (1 - sigmoid M (preds.getD j 0))) o.loss.eps
        * (info.GetWeight j * (if info.labels.getD j 0 = 1 then o.scale_pos_weight else 1)) := by
    rw [hh, RegressionObj.hessAt, hw, LossType.SecondOrderGradient, LossType.PredTransform,
      hloss]
  refine ⟨hg', hh', ?_⟩
  intro he
  rw [hh', max_eq_left he]

/-- C15 (amended) at a concrete call: two rows, `scale_pos_weight = 3`, the second row
positive. -/
theorem C15_logistic_classify_gradient_witness :
    ∃ out, RegressionObj.GetGradient CMath.rational ⟨3, ⟨.LogisticClassify, 1 / 100⟩⟩ [0, 1]
        ⟨[0, 1], none, []⟩ [] [] = .ok out ∧
      ∀ j, j < 2 →
        out.grad.getD j 0
          = (sigmoid CMath.rational (([0, 1] : List ℚ).getD j 0) - ([0, 1] : List ℚ).getD j 0)
            * (Info.GetWeight ⟨[0, 1], none, []⟩ j
                * (if ([0, 1] : List ℚ).getD j 0 = 1 then 3 else 1)) ∧
        out.hess.getD j 0
          = max (sigmoid CMath.rational (([0, 1] : List ℚ).getD j 0)
                * (1 - sigmoid CMath.rational (([0, 1] : List ℚ).getD j 0))) (1 / 100)
            * (Info.GetWeight ⟨[0, 1], none, []⟩ j
                * (if ([0, 1] : List ℚ).getD j 0 = 1 then 3 else 1)) :=
  let ⟨out, h, hr⟩ := C15_logistic_classify_gradient CMath.rational
    ⟨3, ⟨.LogisticClassify, 1 / 100⟩⟩ [0, 1] ⟨[0, 1], none, []⟩ [] [] rfl rfl
  ⟨out, h, fun j hj => ⟨(hr j hj).1, (hr j hj).2.1⟩⟩

/-! ## C16 -/

/-- An error of a loop is the error of one of its steps. -/
theorem foldlM_error_step {σ : Type} (step : σ → Nat → Except Error σ) (e : Error)
    (l : List Nat) (s : σ) (h : l.foldlM step s = .error e) :
    ∃ k s', k ∈ l ∧ step s' k = .error e := by
  induction l generalizing s with
  | nil => cases h
  | cons a l ih =>
    rw [List.foldlM_cons] at h
    cases hs : step s a with
    | error e' =>
      rw [hs] at h
      have : e' = e := by
        change (Except.error e' : Except Error σ) = .error e at h
        injection h
      subst this
      exact ⟨a, s, List.mem_cons_self _ _, hs⟩
    | ok s1 =>
      rw [hs] at h
      obtain ⟨k, s', hk, hstep⟩ := ih s1 h
      exact ⟨k, s', List.mem_cons_of_mem _ hk, hstep⟩

/-- The only failure of a group step of `SoftmaxRankObj::GetGradient` is "softmax does not
allow multiple labels". -/
theorem SoftmaxRankObj.group_error_kind (M : CMath) (preds : List ℚ) (info : Info)
    (s : GradHess) (k : Nat) (e : Error)
    (h : SoftmaxRankObj.group M preds info s k = .error e) : e = .softmaxMultipleLabels := by
  unfold SoftmaxRankObj.group at h
  simp only at h
  split_ifs at h
  injection h with h'
  exact h'.symm

/-- Both group-based objectives reject a call whose group boundaries are missing or do not end
at `preds.size()` with the single assertion "rank loss must have group file". -/
theorem group_check_fails (M : CMath) (o : LambdaRankObj) (draws : Nat → ℚ) (preds : List ℚ)
    (info : Info) (grad hess : List ℚ) (hlen : preds.length = info.labels.length)
    (h : ¬ (info.group_ptr.length ≠ 0 ∧ info.group_ptr.getLastD 0 = preds.length)) :
    SoftmaxRankObj.GetGradient M preds info grad hess = .error .rankLossMustHaveGroupFile ∧
    LambdaRankObj.GetGradient M o draws preds info grad hess
      = .error .rankLossMustHaveGroupFile := by
  constructor
  · unfold SoftmaxRankObj.GetGradient
    rw [if_neg (not_not.mpr hlen)]
    simp only
    rw [if_pos h]
  · unfold LambdaRankObj.GetGradient
    rw [if_neg (not_not.mpr hlen)]
    simp only
    rw [if_pos h]

/-- C16 as stated fails: with one prediction, one label and the boundaries `[0, 2]` (last
boundary 2, `preds.size()` 1), both objectives fail with "rank loss must have group file",
the failure of a call without boundaries, and not with the size-mismatch failure
"label size predict size not match". -/
theorem C16_last_boundary_counterexample :
    SoftmaxRankObj.GetGradient CMath.rational [0] ⟨[0], none, [0, 2]⟩ [] []
        = .error .rankLossMustHaveGroupFile ∧
    LambdaRankObj.GetGradient CMath.rational
        ⟨⟨.LogisticRaw, 0⟩, 1, 0, PairwiseRankObj.GetLambdaWeight⟩ (fun _ => 0) [0]
        ⟨[0], none, [0, 2]⟩ [] [] = .error .rankLossMustHaveGroupFile ∧
    SoftmaxRankObj.GetGradient CMath.rational [0] ⟨[0], none, []⟩ [] []
        = .error .rankLossMustHaveGroupFile ∧
    LambdaRankObj.GetGradient CMath.rational
        ⟨⟨.LogisticRaw, 0⟩, 1, 0, PairwiseRankObj.GetLambdaWeight⟩ (fun _ => 0) [0]
        ⟨[0], none, []⟩ [] [] = .error .rankLossMustHaveGroupFile ∧
    (Except.error Error.rankLossMustHaveGroupFile : Except Error GradHess)
      ≠ .error .labelSizePredictSizeNotMatch := by
  have h1 := group_check_fails CMath.rational
    ⟨⟨.LogisticRaw, 0⟩, 1, 0, PairwiseRankObj.GetLambdaWeight⟩ (fun _ => 0) [0]
    ⟨[0], none, [0, 2]⟩ [] [] rfl (by decide)
  have h2 := group_check_fails CMath.rational
    ⟨⟨.LogisticRaw, 0⟩, 1, 0, PairwiseRankObj.GetLambdaWeight⟩ (fun _ => 0) [0]
    ⟨[0], none, []⟩ [] [] rfl (by decide)
  refine ⟨h1.1, h1.2, h2.1, h2.2, ?_⟩
  intro e
  injection e with e'
  cases e'

/-- C16 (amended): for `SoftmaxRankObj::GetGradient` and `LambdaRankObj::GetGradient` and
`preds`, `labels` of equal length: the call fails with "rank loss must have group file" when
`info` carries no group boundaries, fails with that same error when the last boundary differs
from `preds.size()`, and when boundaries are present and the last one equals `preds.size()`
it fails on neither check (`LambdaRankObj` returns a result, `SoftmaxRankObj` can only fail
with "softmax does not allow multiple labels"). -/
theorem C16_group_boundary_checks (M : CMath) (o : LambdaRankObj) (draws : Nat → ℚ)
    (preds : List ℚ) (info : Info) (grad hess : List ℚ)
    (hlen : preds.length = info.labels.length) :
    (info.group_ptr = [] →
      SoftmaxRankObj.GetGradient M preds info grad hess = .error .rankLossMustHaveGroupFile ∧
      LambdaRankObj.GetGradient M o draws preds info grad hess
        = .error .rankLossMustHaveGroupFile) ∧
    (info.group_ptr ≠ [] → info.group_ptr.getLastD 0 ≠ preds.length →
      SoftmaxRankObj.GetGradient M preds info grad hess = .error .rankLossMustHaveGroupFile ∧
      LambdaRankObj.GetGradient M o draws preds info grad hess
        = .error .rankLossMustHaveGroupFile) ∧
    (info.group_ptr ≠ [] → info.group_ptr.getLastD 0 = preds.length →
      (∃ out, LambdaRankObj.GetGradient M o draws preds info grad hess = .ok out) ∧
      (∀ e, SoftmaxRankObj.GetGradient M preds info grad hess = .error e →
        e = .softmaxMultipleLabels)) := by
  refine ⟨?_, ?_, ?_⟩
  · intro h
    apply group_check_fails M o draws preds info grad hess hlen
    rw [h]
    simp
  · intro _ h
    apply group_check_fails M o draws preds info grad hess hlen
    exact fun hc => h hc.2
  · intro hne hlast
    have hc : info.group_ptr.length ≠ 0 ∧ info.group_ptr.getLastD 0 = preds.length :=
      ⟨fun h0 => hne (List.length_eq_zero.mp h0), hlast⟩
    constructor
    · unfold LambdaRankObj.GetGradient
      rw [if_neg (not_not.mpr hlen)]
      simp only
      rw [if_neg (not_not.mpr hc)]
      exact ⟨_, rfl⟩
    · intro e he
      unfold SoftmaxRankObj.GetGradient at he
      rw [if_neg (not_not.mpr hlen)] at he
      simp only at he
      rw [if_neg (not_not.mpr hc)] at he
      obtain ⟨k, s', _, hstep⟩ := foldlM_error_step _ e _ _ he
      exact SoftmaxRankObj.group_error_kind M preds info s' k e hstep

/-- C16 (amended) at concrete calls: two rows, boundaries `[]`, `[0, 3]` and `[0, 2]`. -/
theorem C16_group_boundary_checks_witness :
    SoftmaxRankObj.GetGradient CMath.rational [2, 1] ⟨[1, 0], none, []⟩ [] []
        = .error .rankLossMustHaveGroupFile ∧
    LambdaRankObj.GetGradient CMath.rational
        ⟨⟨.LogisticRaw, 0⟩, 1, 0, PairwiseRankObj.GetLambdaWeight⟩ (fun _ => 0) [2, 1]
        ⟨[1, 0], none, [0, 3]⟩ [] [] = .error .rankLossMustHaveGroupFile ∧
    (∃ out, LambdaRankObj.GetGradient CMath.rational
        ⟨⟨.LogisticRaw, 0⟩, 1, 0, PairwiseRankObj.GetLambdaWeight⟩ (fun _ => 0) [2, 1]
        ⟨[1, 0], none, [0, 2]⟩ [] [] = .ok out) :=
  ⟨((C16_group_boundary_checks CMath.rational
      ⟨⟨.LogisticRaw, 0⟩, 1, 0, PairwiseRankObj.GetLambdaWeight⟩ (fun _ => 0) [2, 1]
      ⟨[1, 0], none, []⟩ [] [] rfl).1 rfl).1,
   ((C16_group_boundary_checks CMath.rational
      ⟨⟨.LogisticRaw, 0⟩, 1, 0, PairwiseRankObj.GetLambdaWeight⟩ (fun _ => 0) [2, 1]
      ⟨[1, 0], none, [0, 3]⟩ [] [] rfl).2.1 (by decide) (by decide)).2,
   ((C16_group_boundary_checks CMath.rational
      ⟨⟨.LogisticRaw, 0⟩, 1, 0, PairwiseRankObj.GetLambdaWeight⟩ (fun _ => 0) [2, 1]
      ⟨[1, 0], none, [0, 2]⟩ [] [] rfl).2.2 (by decide) (by decide)).1⟩

/-! ## C17 -/

theorem toInt_nonpos (x : ℚ) (hx : x ≤ 0) : toInt x ≤ 0 := by
  unfold toInt
  split
  · have : x = 0 := le_antisymm hx (by assumption)
    rw [this]; simp
  · exact Int.ceil_le.mpr (by simpa using hx)

/-- A list without positive label has no hit. -/
theorem hitsUpTo_eq_zero (l : List ListEntry)
    (h : ∀ k, k < l.length → (l.getD k default).label ≤ 0) (m : Nat) (hm : m ≤ l.length) :
    hitsUpTo l m = 0 := by
  unfold hitsUpTo
  apply Finset.sum_eq_zero
  intro k hk
  rw [if_neg (not_lt.mpr (h k (by have := Finset.mem_range.mp hk; omega)))]

/-- The total hit count read by `GetLambdaMAP` is 0 on a non-empty list without positive
label. -/
theorem LambdaRankObj_MAP.total_hits_zero (l : List ListEntry) (hl : 0 < l.length)
    (h : ∀ k, k < l.length → (l.getD k default).label ≤ 0) :
    ((LambdaRankObj_MAP.GetMAPAcc l).getD ((LambdaRankObj_MAP.GetMAPAcc l).length - 1)
      default).hits_ = 0 := by
  have hcoh : ∀ k, k < l.length →
      (0 < toInt (l.getD k default).label ↔ 0 < (l.getD k default).label) := by
    intro k hk
    constructor
    · intro h0
      have := toInt_nonpos _ (h k hk)
      omega
    · intro h0
      exact absurd h0 (not_lt.mpr (h k hk))
  obtain ⟨h1, h2⟩ := LambdaRankObj_MAP.GetMAPAcc_spec l hcoh
  rw [h1, h2 (l.length - 1) (by omega)]
  simp only
  exact hitsUpTo_eq_zero l h _ (by omega)

/-- C17: for every prediction-sorted list and positions `index1`, `index2` inside it,
`LambdaRankObj_MAP::GetLambdaMAP` (on the accumulators of `GetMAPAcc`) returns 0 whenever
`index1 == index2`, or the two positions carry the same label, or no label of the list is
positive (then the total hit count is 0); in each of these cases the call returns before the
division by the total hit count. -/
theorem C17_map_weight_zero_cases (l : List ListEntry) (index1 index2 : Nat)
    (h1 : index1 < l.length) (h2 : index2 < l.length)
    (h : index1 = index2
      ∨ (l.getD index1 default).label = (l.getD index2 default).label
      ∨ ∀ k, k < l.length → (l.getD k default).label ≤ 0) :
    LambdaRankObj_MAP.GetLambdaMAP l index1 index2 (LambdaRankObj_MAP.GetMAPAcc l) = 0 ∧
    LambdaRankObj_MAP.GetLambdaMAP_divisor l index1 index2 (LambdaRankObj_MAP.GetMAPAcc l)
      = none ∧
    ((∀ k, k < l.length → (l.getD k default).label ≤ 0) →
      ((LambdaRankObj_MAP.GetMAPAcc l).getD ((LambdaRankObj_MAP.GetMAPAcc l).length - 1)
        default).hits_ = 0) := by
  have hz := LambdaRankObj_MAP.total_hits_zero l (Nat.lt_of_le_of_lt (Nat.zero_le (max index1 index2)) (max_lt h1 h2))
  have hc : index1 = index2
      ∨ (l.getD index1 default).label = (l.getD index2 default).label
      ∨ ((LambdaRankObj_MAP.GetMAPAcc l).getD ((LambdaRankObj_MAP.GetMAPAcc l).length - 1)
          default).hits_ = 0 := by
    rcases h with h | h | h
    · exact Or.inl h
    · exact Or.inr (Or.inl h)
    · exact Or.inr (Or.inr (hz h))
  refine ⟨?_, ?_, hz⟩
  · unfold LambdaRankObj_MAP.GetLambdaMAP
    rw [if_pos hc]
  · unfold LambdaRankObj_MAP.GetLambdaMAP_divisor
    rw [if_pos hc]

/-- C17 at concrete calls: labels `[1, 0, 1, 0]`, the positions 0 and 2 carry the same label;
labels `[0, 0]`, no positive label. -/
theorem C17_map_weight_zero_cases_witness :
    LambdaRankObj_MAP.GetLambdaMAP [⟨4, 1, 0⟩, ⟨3, 0, 1⟩, ⟨2, 1, 2⟩, ⟨1, 0, 3⟩] 0 2
        (LambdaRankObj_MAP.GetMAPAcc [⟨4, 1, 0⟩, ⟨3, 0, 1⟩, ⟨2, 1, 2⟩, ⟨1, 0, 3⟩]) = 0 ∧
    LambdaRankObj_MAP.GetLambdaMAP_divisor [⟨2, 0, 0⟩, ⟨1, 0, 1⟩] 0 1
        (LambdaRankObj_MAP.GetMAPAcc [⟨2, 0, 0⟩, ⟨1, 0, 1⟩]) = none :=
  ⟨(C17_map_weight_zero_cases [⟨4, 1, 0⟩, ⟨3, 0, 1⟩, ⟨2, 1, 2⟩, ⟨1, 0, 3⟩] 0 2 (by decide)
      (by decide) (Or.inr (Or.inl rfl))).1,
   (C17_map_weight_zero_cases [⟨2, 0, 0⟩, ⟨1, 0, 1⟩] 0 1 (by decide) (by decide)
      (Or.inr (Or.inr (by
        intro k hk
        have hk2 : k < 2 := hk
        interval_cases k <;> exact le_refl _)))).2.1⟩

/-! ## C18 -/

/-- The hit count as a number of positions. -/
theorem hitsUpTo_eq_card (l : List ListEntry) (m : Nat) :
    hitsUpTo l m
      = (((Finset.range m).filter (fun k => 0 < (l.getD k default).label)).card : ℚ) := by
  unfold hitsUpTo
  rw [Finset.sum_boole]

/-- The accumulated precision as a sum over the positions carrying a positive label. -/
theorem apPrefix_eq_sum_filter (l : List ListEntry) (d : ℚ) (m : Nat) :
    apPrefix l d m
      = Finset.sum ((Finset.range m).filter (fun k => 0 < (l.getD k default).label))
          (fun k => (hitsUpTo l (k + 1) + d) / ((k : ℚ) + 1)) := by
  unfold apPrefix apTerm
  rw [Finset.sum_filter]

theorem integer_coherent (l : List ListEntry)
    (hint : ∀ k, k < l.length → ∃ z : Int, (l.getD k default).label = (z : ℚ))
    (k : Nat) (hk : k < l.length) :
    (0 < toInt (l.getD k default).label ↔ 0 < (l.getD k default).label) := by
  obtain ⟨z, hz⟩ := hint k hk
  rw [hz, toInt_intCast]
  exact Int.cast_pos.symm

/-- C18: for a prediction-sorted list of length `n` with integer labels, `GetMAPAcc` returns
`n` quadruples such that at every 0-indexed position `i`: `hits[i]` is the number of positions
`k <= i` with label > 0; `ap_acc[i]` is the sum over the positions `k <= i` with label > 0 of
`hits[k] / (k+1)`; `ap_acc_miss[i]` is the same sum of `(hits[k] - 1) / (k+1)`;
`ap_acc_add[i]` is the same sum of `(hits[k] + 1) / (k+1)`. -/
theorem C18_map_accumulators (l : List ListEntry)
    (hint : ∀ k, k < l.length → ∃ z : Int, (l.getD k default).label = (z : ℚ)) :
    (LambdaRankObj_MAP.GetMAPAcc l).length = l.length ∧
    ∀ i, i < l.length →
      ((LambdaRankObj_MAP.GetMAPAcc l).getD i default).hits_
        = (((Finset.range (i + 1)).filter (fun k => 0 < (l.getD k default).label)).card : ℚ) ∧
      ((LambdaRankObj_MAP.GetMAPAcc l).getD i default).ap_acc_
        = Finset.sum ((Finset.range (i + 1)).filter (fun k => 0 < (l.getD k default).label))
            (fun k => ((LambdaRankObj_MAP.GetMAPAcc l).getD k default).hits_ / ((k : ℚ) + 1)) ∧
      ((LambdaRankObj_MAP.GetMAPAcc l).getD i default).ap_acc_miss_
        = Finset.sum ((Finset.range (i + 1)).filter (fun k => 0 < (l.getD k default).label))
            (fun k => (((LambdaRankObj_MAP.GetMAPAcc l).getD k default).hits_ - 1)
              / ((k : ℚ) + 1)) ∧
      ((LambdaRankObj_MAP.GetMAPAcc l).getD i default).ap_acc_add_
        = Finset.sum ((Finset.range (i + 1)).filter (fun k => 0 < (l.getD k default).label))
            (fun k => (((LambdaRankObj_MAP.GetMAPAcc l).getD k default).hits_ + 1)
              / ((k : ℚ) + 1)) := by
  obtain ⟨h1, h2⟩ := LambdaRankObj_MAP.GetMAPAcc_spec l (integer_coherent l hint)
  refine ⟨h1, ?_⟩
  intro i hi
  have hk : ∀ k, k ∈ (Finset.range (i + 1)).filter (fun k => 0 < (l.getD k default).label) →
      ((LambdaRankObj_MAP.GetMAPAcc l).getD k default).hits_ = hitsUpTo l (k + 1) := by
    intro k hk
    have hlt := Finset.mem_range.mp (Finset.mem_filter.mp hk).1
    rw [h2 k (by omega)]
  rw [h2 i hi]
  simp only
  refine ⟨hitsUpTo_eq_card l (i + 1), ?_, ?_, ?_⟩
  · rw [apPrefix_eq_sum_filter]
    apply Finset.sum_congr rfl
    intro k hkm
    rw [hk k hkm, add_zero]
  · rw [apPrefix_eq_sum_filter]
    apply Finset.sum_congr rfl
    intro k hkm
    rw [hk k hkm, sub_eq_add_neg]
  · rw [apPrefix_eq_sum_filter]
    apply Finset.sum_congr rfl
    intro k hkm
    rw [hk k hkm]

/-- C18 at a concrete list: the labels `[1, 0, 1, 0]` give the hits `[1, 1, 2, 2]`. -/
theorem C18_map_accumulators_witness :
    (LambdaRankObj_MAP.GetMAPAcc [⟨4, 1, 0⟩, ⟨3, 0, 1⟩, ⟨2, 1, 2⟩, ⟨1, 0, 3⟩]).map
        (fun q => q.hits_) = [1, 1, 2, 2] ∧
    (LambdaRankObj_MAP.GetMAPAcc [⟨4, 1, 0⟩, ⟨3, 0, 1⟩, ⟨2, 1, 2⟩, ⟨1, 0, 3⟩]).length = 4 ∧
    ((LambdaRankObj_MAP.GetMAPAcc [⟨4, 1, 0⟩, ⟨3, 0, 1⟩, ⟨2, 1, 2⟩, ⟨1, 0, 3⟩]).getD 3
        default).hits_
      = (((Finset.range (3 + 1)).filter (fun k => 0 <
          (([⟨4, 1, 0⟩, ⟨3, 0, 1⟩, ⟨2, 1, 2⟩, ⟨1, 0, 3⟩] : List ListEntry).getD k
            default).label)).card : ℚ) :=
  have h := C18_map_accumulators [⟨4, 1, 0⟩, ⟨3, 0, 1⟩, ⟨2, 1, 2⟩, ⟨1, 0, 3⟩] (by
    intro k hk
    have hk4 : k < 4 := hk
    interval_cases k
    · exact ⟨1, by norm_num⟩
    · exact ⟨0, by norm_num⟩
    · exact ⟨1, by norm_num⟩
    · exact ⟨0, by norm_num⟩)
  ⟨by
    simp [LambdaRankObj_MAP.GetMAPAcc, LambdaRankObj_MAP.accStep, List.range', toInt_one,
      toInt_zero]
    norm_num, h.1, (h.2 3 (by decide)).1⟩

/-! ## C19 -/

/-- The list of the group with predictions `[2, 1]` and labels `[1/2, 0]`: both relevances
`(unsigned)label` are 0, so the ideal DCG is 0 for any logarithm. -/
theorem LambdaRankObj_NDCG.GetIDCG_half_zero (M : CMath) :
    LambdaRankObj_NDCG.GetIDCG M [⟨2, 1 / 2, 0⟩, ⟨1, 0, 1⟩] = 0 := by
  have hs : ([⟨2, 1 / 2, 0⟩, ⟨1, 0, 1⟩] : List ListEntry).map (fun e => e.label)
      = [1 / 2, 0] := rfl
  have hsort : ([1 / 2, 0] : List ℚ).insertionSort (fun a b => b ≤ a) = [1 / 2, 0] := by
    simp [List.insertionSort, List.orderedInsert]
  unfold LambdaRankObj_NDCG.GetIDCG
  rw [hs, hsort]
  unfold LambdaRankObj_NDCG.CalcDCG
  have h0 : ([1 / 2, 0] : List ℚ).getD 0 0 = 1 / 2 := rfl
  have h1 : ([1 / 2, 0] : List ℚ).getD 1 0 = 0 := rfl
  simp only [List.length_cons, List.length_nil, List.range_succ, List.range_zero,
    List.nil_append, List.cons_append, List.foldl_cons, List.foldl_nil, h0, h1, toInt_half,
    toInt_zero, Int.toNat_zero, ne_eq, not_true_eq_false, if_false]

theorem LambdaRankObj.sortedList_half_zero :
    LambdaRankObj.sortedList [2, 1] ⟨[1 / 2, 0], none, [0, 2]⟩ 0
      = [⟨2, 1 / 2, 0⟩, ⟨1, 0, 1⟩] := by
  simp [LambdaRankObj.sortedList, groupRows, LambdaRankObj.scanRow, sortByPred, List.range',
    List.insertionSort, List.orderedInsert]

/-- The group with predictions `[2, 1]` and labels `[1/2, 0]` is sampled into two pairs. -/
theorem LambdaRankObj.samplePairs_half_zero :
    (LambdaRankObj.samplePairs (fun _ => 1 / 2) 1
      (LambdaRankObj.sortedList [2, 1] ⟨[1 / 2, 0], none, [0, 2]⟩ 0) 0).pairs
      = [⟨1, 0, 1⟩, ⟨1, 0, 1⟩] := by
  have hl : LambdaRankObj.sortedList [2, 1] ⟨[1 / 2, 0], none, [0, 2]⟩ 0
      = [⟨2, 1 / 2, 0⟩, ⟨1, 0, 1⟩] := LambdaRankObj.sortedList_half_zero
  have hr : LambdaRankObj.sortedRec [⟨2, 1 / 2, 0⟩, ⟨1, 0, 1⟩] = [(0, 1), (1 / 2, 0)] := by
    simp [LambdaRankObj.sortedRec, sortRec, List.range_succ, List.insertionSort,
      List.orderedInsert]
  rw [hl]
  unfold LambdaRankObj.samplePairs
  rw [hr]
  simp [enumBuckets, bucketEnd, sampleBucket, samplePid, List.range', LambdaPair.new,
    List.range_succ]
  norm_num [toInt, Int.floor_eq_iff]

/-- C19 fails in the code: `LambdaRankObj_NDCG::GetLambdaNDCG` divides by `IDCG` without any
test, so on a list whose ideal DCG is 0 every pair weight comes from a division by zero (an
infinity or a NaN in the source, never the value 0 the claim states): for every pair of
positions, and for every pair list handed to `GetLambdaWeight`. -/
theorem C19_ndcg_zero_idcg_unguarded (M : CMath) (l : List ListEntry)
    (h : LambdaRankObj_NDCG.GetIDCG M l = 0) :
    (∀ index1 index2,
      LambdaRankObj_NDCG.GetLambdaNDCG_ieee M l index1 index2
        (LambdaRankObj_NDCG.GetIDCG M l) = none) ∧
    (∀ pairs, LambdaRankObj_NDCG.GetLambdaWeight_ieee M l pairs
      = pairs.map (fun _ => none)) := by
  have h1 : ∀ index1 index2,
      LambdaRankObj_NDCG.GetLambdaNDCG_ieee M l index1 index2
        (LambdaRankObj_NDCG.GetIDCG M l) = none := by
    intro index1 index2
    unfold LambdaRankObj_NDCG.GetLambdaNDCG_ieee fdiv
    simp only [h, if_true, Option.map_none']
  refine ⟨h1, ?_⟩
  intro pairs
  unfold LambdaRankObj_NDCG.GetLambdaWeight_ieee
  simp only
  apply List.map_congr_left
  intro p _
  exact h1 _ _

/-- C19 at a concrete group: predictions `[2, 1]`, labels `[1/2, 0]`, every draw `1/2`: the
ideal DCG is 0, two pairs are sampled, and the weight of each comes from a division by zero. -/
theorem C19_ndcg_zero_idcg_unguarded_witness :
    LambdaRankObj_NDCG.GetIDCG CMath.rational
        (LambdaRankObj.sortedList [2, 1] ⟨[1 / 2, 0], none, [0, 2]⟩ 0) = 0 ∧
    LambdaRankObj_NDCG.GetLambdaWeight_ieee CMath.rational
        (LambdaRankObj.sortedList [2, 1] ⟨[1 / 2, 0], none, [0, 2]⟩ 0)
        (LambdaRankObj.samplePairs (fun _ => 1 / 2) 1
          (LambdaRankObj.sortedList [2, 1] ⟨[1 / 2, 0], none, [0, 2]⟩ 0) 0).pairs
      = [none, none] := by
  have hl : LambdaRankObj.sortedList [2, 1] ⟨[1 / 2, 0], none, [0, 2]⟩ 0
      = [⟨2, 1 / 2, 0⟩, ⟨1, 0, 1⟩] := LambdaRankObj.sortedList_half_zero
  have hI : LambdaRankObj_NDCG.GetIDCG CMath.rational
      (LambdaRankObj.sortedList [2, 1] ⟨[1 / 2, 0], none, [0, 2]⟩ 0) = 0 := by
    rw [hl]; exact LambdaRankObj_NDCG.GetIDCG_half_zero CMath.rational
  refine ⟨hI, ?_⟩
  rw [(C19_ndcg_zero_idcg_unguarded CMath.rational _ hI).2, LambdaRankObj.samplePairs_half_zero]
  rfl

/-! ## C20 -/

/-- Every visit of a position `pid` pushes exactly one pair, of weight 1. -/
theorem samplePid_count (draws : Nat → ℚ) (rec_ : List (ℚ × Nat)) (i j nleft nright : Nat)
    (st : Sampler) (pid : Nat) (hw : ∀ p, p ∈ st.pairs → p.weight = 1) :
    (samplePid draws rec_ i j nleft nright st pid).pairs.length = st.pairs.length + 1 ∧
    ∀ p, p ∈ (samplePid draws rec_ i j nleft nright st pid).pairs → p.weight = 1 := by
  unfold samplePid
  simp only
  split
  · refine ⟨by simp, ?_⟩
    intro p hp
    rcases List.mem_append.mp hp with h | h
    · exact hw p h
    · rw [List.mem_singleton.mp h]; rfl
  · refine ⟨by simp, ?_⟩
    intro p hp
    rcases List.mem_append.mp hp with h | h
    · exact hw p h
    · rw [List.mem_singleton.mp h]; rfl

theorem foldl_samplePid_count (draws : Nat → ℚ) (rec_ : List (ℚ × Nat))
    (i j nleft nright : Nat) (l : List Nat) (st : Sampler)
    (hw : ∀ p, p ∈ st.pairs → p.weight = 1) :
    (l.foldl (samplePid draws rec_ i j nleft nright) st).pairs.length
      = st.pairs.length + l.length ∧
    ∀ p, p ∈ (l.foldl (samplePid draws rec_ i j nleft nright) st).pairs → p.weight = 1 := by
  induction l generalizing st with
  | nil => exact ⟨rfl, hw⟩
  | cons a l ih =>
    obtain ⟨h1, h2⟩ := samplePid_count draws rec_ i j nleft nright st a hw
    obtain ⟨h3, h4⟩ := ih (samplePid draws rec_ i j nleft nright st a) h2
    rw [List.foldl_cons]
    refine ⟨?_, h4⟩
    rw [h3, h1, List.length_cons]
    omega

/-- A bucket `[i, j)` with something outside it pushes `num_pairsample * (j - i)` pairs. -/
theorem sampleBucket_count (draws : Nat → ℚ) (nps : Nat) (rec_ : List (ℚ × Nat))
    (i j : Nat) (st : Sampler) (hout : i + (rec_.length - j) ≠ 0)
    (hw : ∀ p, p ∈ st.pairs → p.weight = 1) :
    (sampleBucket draws nps rec_ i j st).pairs.length = st.pairs.length + nps * (j - i) ∧
    ∀ p, p ∈ (sampleBucket draws nps rec_ i j st).pairs → p.weight = 1 := by
  unfold sampleBucket
  simp only
  rw [if_pos hout]
  have key : ∀ (l : List Nat) (st : Sampler), (∀ p, p ∈ st.pairs → p.weight = 1) →
      (l.foldl (fun st _ => (List.range' i (j - i)).foldl
          (samplePid draws rec_ i j i (rec_.length - j)) st) st).pairs.length
        = st.pairs.length + l.length * (j - i) ∧
      ∀ p, p ∈ (l.foldl (fun st _ => (List.range' i (j - i)).foldl
          (samplePid draws rec_ i j i (rec_.length - j)) st) st).pairs → p.weight = 1 := by
    intro l
    induction l with
    | nil => intro st hw; exact ⟨by simp, hw⟩
    | cons a l ih =>
      intro st hw
      obtain ⟨h1, h2⟩ := foldl_samplePid_count draws rec_ i j i (rec_.length - j)
        (List.range' i (j - i)) st hw
      obtain ⟨h3, h4⟩ := ih _ h2
      rw [List.foldl_cons]
      refine ⟨?_, h4⟩
      rw [h3, h1, List.length_range', List.length_cons, Nat.succ_mul]
      omega
  have h := key (List.range nps) st hw
  rw [List.length_range] at h
  exact h

/-- When `rec` holds two different labels every bucket has something outside it, and the
buckets from `i` on push `num_pairsample * (rec.size() - i)` pairs, all of weight 1. -/
theorem enumBuckets_count (draws : Nat → ℚ) (nps : Nat) (rec_ : List (ℚ × Nat))
    (hdist : ∃ a b, a < rec_.length ∧ b < rec_.length ∧
      (rec_.getD a (0, 0)).1 ≠ (rec_.getD b (0, 0)).1)
    (fuel i : Nat) (st : Sampler) (hi : i ≤ rec_.length) (hf : rec_.length - i ≤ fuel)
    (hw : ∀ p, p ∈ st.pairs → p.weight = 1) :
    (enumBuckets draws nps rec_ fuel i st).pairs.length
      = st.pairs.length + nps * (rec_.length - i) ∧
    ∀ p, p ∈ (enumBuckets draws nps rec_ fuel i st).pairs → p.weight = 1 := by
  induction fuel generalizing i st with
  | zero =>
    have : rec_.length - i = 0 := by omega
    rw [this]
    exact ⟨by simp [enumBuckets], by simpa [enumBuckets] using hw⟩
  | succ fuel ih =>
    unfold enumBuckets
    by_cases hlt : i < rec_.length
    · rw [if_pos hlt]
      simp only
      obtain ⟨b1, b2, b3, _⟩ := bucketEnd_spec rec_ i (rec_.length - (i + 1)) (i + 1)
        (by omega) (by omega) (by omega)
        (by
          intro t h1 h2
          have : t = i := by omega
          rw [this])
      generalize bucketEnd rec_ i (rec_.length - (i + 1)) (i + 1) = j at b1 b2 b3 ⊢
      have hout : i + (rec_.length - j) ≠ 0 := by
        intro h0
        have hi0 : i = 0 := by omega
        have hjn : j = rec_.length := by omega
        obtain ⟨a, b, ha, hb, hab⟩ := hdist
        apply hab
        rw [b3 a (by omega) (by omega), b3 b (by omega) (by omega)]
      obtain ⟨s1, s2⟩ := sampleBucket_count draws nps rec_ i j st hout hw
      obtain ⟨e1, e2⟩ := ih j (sampleBucket draws nps rec_ i j st) b2 (by omega) s2
      refine ⟨?_, e2⟩
      rw [e1, s1]
      have hsplit : rec_.length - i = (j - i) + (rec_.length - j) := by omega
      rw [hsplit, Nat.mul_add]
      omega
    · rw [if_neg hlt]
      have : rec_.length - i = 0 := by omega
      rw [this]
      exact ⟨by simp, hw⟩

/-- The label of every row of a group is recorded in `rec`. -/
theorem sortedRec_has_label (preds : List ℚ) (info : Info) (k a : Nat)
    (ha : a ∈ groupRows info.group_ptr k) :
    ∃ t, t < (LambdaRankObj.sortedRec (LambdaRankObj.sortedList preds info k)).length ∧
      ((LambdaRankObj.sortedRec (LambdaRankObj.sortedList preds info k)).getD t (0, 0)).1
        = info.labels.getD a 0 := by
  have hmem : ({ pred := preds.getD a 0, label := info.labels.getD a 0, rindex := a }
      : ListEntry) ∈ LambdaRankObj.sortedList preds info k := by
    rw [LambdaRankObj.sortedList_eq]
    unfold sortByPred
    rw [(List.perm_insertionSort _ _).mem_iff]
    exact List.mem_map.mpr ⟨a, ha, rfl⟩
  obtain ⟨i, hi, hget⟩ := List.getElem_of_mem hmem
  have hrec : (info.labels.getD a 0, i)
      ∈ LambdaRankObj.sortedRec (LambdaRankObj.sortedList preds info k) := by
    unfold LambdaRankObj.sortedRec sortRec
    rw [(List.perm_insertionSort _ _).mem_iff]
    refine List.mem_map.mpr ⟨i, List.mem_range.mpr hi, ?_⟩
    rw [List.getD_eq_getElem _ _ hi, hget]
  obtain ⟨t, ht, hgt⟩ := List.getElem_of_mem hrec
  refine ⟨t, ht, ?_⟩
  rw [List.getD_eq_getElem _ _ ht, hgt]

theorem sum_map_weight_one (l : List LambdaPair) (s : ℚ)
    (hw : ∀ p, p ∈ l → p.weight = 1) :
    (l.map (fun p => p.weight * s)).sum = (l.length : ℚ) * s := by
  induction l with
  | nil => simp
  | cons a l ih =>
    rw [List.map_cons, List.sum_cons, ih (fun p hp => hw p (List.mem_cons_of_mem _ hp)),
      hw a (List.mem_cons_self _ _), List.length_cons]
    push_cast
    ring

/-- C20: with the unit pair weights of `PairwiseRankObj`, `fix_list_weight != 0` and
`num_pairsample >= 1`, for every group holding two rows with different labels and every
sequence of random draws (and whatever the generator did before the group): the group loop of
`LambdaRankObj::GetGradient` generates `num_pairsample * groupSize` pairs, and the sum over
these pairs of the effective weight `w = weight * scale` is `fix_list_weight`, whatever the
size of the group. -/
theorem C20_fixed_list_weight (o : LambdaRankObj) (draws : Nat → ℚ) (preds : List ℚ)
    (info : Info) (k rnd a b : Nat)
    (hW : o.GetLambdaWeight = PairwiseRankObj.GetLambdaWeight)
    (hflw : o.fix_list_weight ≠ 0) (hnps : 1 ≤ o.num_pairsample)
    (ha : a ∈ groupRows info.group_ptr k) (hb : b ∈ groupRows info.group_ptr k)
    (hab : info.labels.getD a 0 ≠ info.labels.getD b 0) :
    (o.weightedPairs draws preds info k rnd).length
      = o.num_pairsample * (info.group_ptr.getD (k + 1) 0 - info.group_ptr.getD k 0) ∧
    ((o.weightedPairs draws preds info k rnd).map
      (fun p => p.weight * o.scale info.group_ptr k)).sum = o.fix_list_weight := by
  have hlen : (LambdaRankObj.sortedRec (LambdaRankObj.sortedList preds info k)).length
      = info.group_ptr.getD (k + 1) 0 - info.group_ptr.getD k 0 := by
    rw [length_sortedRec, length_sortedList]
    unfold groupRows
    rw [List.length_range']
  have hsize : 0 < info.group_ptr.getD (k + 1) 0 - info.group_ptr.getD k 0 := by
    have := (mem_groupRows info.group_ptr k a).mp ha
    omega
  obtain ⟨ta, hta, hla⟩ := sortedRec_has_label preds info k a ha
  obtain ⟨tb, htb, hlb⟩ := sortedRec_has_label preds info k b hb
  obtain ⟨c1, c2⟩ := enumBuckets_count draws o.num_pairsample
    (LambdaRankObj.sortedRec (LambdaRankObj.sortedList preds info k))
    ⟨ta, tb, hta, htb, by rw [hla, hlb]; exact hab⟩
    (LambdaRankObj.sortedRec (LambdaRankObj.sortedList preds info k)).length 0
    { pairs := [], rnd := rnd } (Nat.zero_le _) (by omega)
    (fun p hp => absurd hp (List.not_mem_nil p))
  have hwp : o.weightedPairs draws preds info k rnd
      = (LambdaRankObj.samplePairs draws o.num_pairsample
          (LambdaRankObj.sortedList preds info k) rnd).pairs := by
    unfold LambdaRankObj.weightedPairs
    rw [hW]
    rfl
  have hcount : (o.weightedPairs draws preds info k rnd).length
      = o.num_pairsample * (info.group_ptr.getD (k + 1) 0 - info.group_ptr.getD k 0) := by
    rw [hwp]
    unfold LambdaRankObj.samplePairs
    rw [c1, hlen]
    simp
  refine ⟨hcount, ?_⟩
  rw [sum_map_weight_one _ _ (by rw [hwp]; exact c2), hcount]
  unfold LambdaRankObj.scale
  simp only
  rw [if_pos hflw]
  have h1 : ((o.num_pairsample : Nat) : ℚ) ≠ 0 := by
    have : 0 < o.num_pairsample := hnps
    exact_mod_cast (Nat.pos_iff_ne_zero.mp this)
  have h2 : (((info.group_ptr.getD (k + 1) 0 - info.group_ptr.getD k 0 : Nat)) : ℚ) ≠ 0 := by
    exact_mod_cast (Nat.pos_iff_ne_zero.mp hsize)
  rw [Nat.cast_mul]
  generalize ((o.num_pairsample : Nat) : ℚ) = N at h1 ⊢
  generalize (((info.group_ptr.getD (k + 1) 0 - info.group_ptr.getD k 0 : Nat)) : ℚ) = S
    at h2 ⊢
  field_simp

/-- C20 at a concrete group: two rows with labels 0 and 1, `num_pairsample = 1`,
`fix_list_weight = 3`, every draw `1/2`: two pairs, total effective weight 3. -/
theorem C20_fixed_list_weight_witness :
    (LambdaRankObj.weightedPairs ⟨⟨.LogisticRaw, 0⟩, 1, 3, PairwiseRankObj.GetLambdaWeight⟩
        (fun _ => 1 / 2) [1, 2] ⟨[0, 1], none, [0, 2]⟩ 0 0).length = 1 * (2 - 0) ∧
    ((LambdaRankObj.weightedPairs ⟨⟨.LogisticRaw, 0⟩, 1, 3, PairwiseRankObj.GetLambdaWeight⟩
        (fun _ => 1 / 2) [1, 2] ⟨[0, 1], none, [0, 2]⟩ 0 0).map
      (fun p => p.weight * LambdaRankObj.scale
        ⟨⟨.LogisticRaw, 0⟩, 1, 3, PairwiseRankObj.GetLambdaWeight⟩ [0, 2] 0)).sum = 3 :=
  C20_fixed_list_weight ⟨⟨.LogisticRaw, 0⟩, 1, 3, PairwiseRankObj.GetLambdaWeight⟩
    (fun _ => 1 / 2) [1, 2] ⟨[0, 1], none, [0, 2]⟩ 0 0 0 1 rfl (by norm_num) (by decide)
    (by decide) (by decide) (by decide)

/-! ## C21 -/

/-- The list of group `k` is built from the values of `preds` and `labels` on the rows of the
group only. -/
theorem LambdaRankObj.sortedList_congr (preds preds' : List ℚ) (info info' : Info) (k : Nat)
    (hg : info'.group_ptr = info.group_ptr)
    (hrows : ∀ j, j ∈ groupRows info.group_ptr k →
      preds'.getD j 0 = preds.getD j 0 ∧ info'.labels.getD j 0 = info.labels.getD j 0) :
    LambdaRankObj.sortedList preds' info' k = LambdaRankObj.sortedList preds info k := by
  rw [LambdaRankObj.sortedList_eq, LambdaRankObj.sortedList_eq, hg]
  congr 1
  apply List.map_congr_left
  intro j hj
  rw [(hrows j hj).1, (hrows j hj).2]

/-- The step of group `k` reads `preds` and `labels` on the rows of the group only. -/
theorem LambdaRankObj.group_congr (M : CMath) (o : LambdaRankObj) (draws : Nat → ℚ)
    (preds preds' : List ℚ) (info info' : Info) (st : LambdaRankObj.State) (k : Nat)
    (hg : info'.group_ptr = info.group_ptr)
    (hrows : ∀ j, j ∈ groupRows info.group_ptr k →
      preds'.getD j 0 = preds.getD j 0 ∧ info'.labels.getD j 0 = info.labels.getD j 0) :
    LambdaRankObj.group M o draws preds' info' st k
      = LambdaRankObj.group M o draws preds info st k := by
  rw [LambdaRankObj.group_eq, LambdaRankObj.group_eq,
    LambdaRankObj.sortedList_congr preds preds' info info' k hg hrows, hg]

/-- With boundaries starting at 0, every row below the last boundary lies in a
group. -/
theorem groupRows_cover (gptr : List Nat) (h0 : gptr.getD 0 0 = 0)
    (j : Nat) (hj : j < gptr.getLastD 0) :
    ∃ k, k + 1 < gptr.length ∧ j ∈ groupRows gptr k := by
  have hne : gptr ≠ [] := by
    intro h
    rw [h] at hj
    exact Nat.not_lt_zero _ hj
  have hpos : 0 < gptr.length := List.length_pos.mpr hne
  have hl : gptr.getLastD 0 = gptr.getD (gptr.length - 1) 0 := by
    rw [List.getLastD_eq_getLast?, List.getLast?_eq_getElem?, List.getD_eq_getElem?_getD]
  have hex : ∃ m, j < gptr.getD m 0 := ⟨gptr.length - 1, by rw [← hl]; exact hj⟩
  have hm := Nat.find_spec hex
  have hmin := fun m => Nat.find_min hex (m := m)
  generalize Nat.find hex = m at hm hmin
  have hm0 : m ≠ 0 := by
    intro h
    rw [h, h0] at hm
    exact Nat.not_lt_zero _ hm
  have hmlen : m < gptr.length := by
    by_contra hge
    rw [List.getD_eq_getElem?_getD, List.getElem?_eq_none (by omega)] at hm
    exact Nat.not_lt_zero _ hm
  refine ⟨m - 1, by omega, ?_⟩
  rw [mem_groupRows]
  have hprev := hmin (m - 1) (by omega)
  have hm1 : m - 1 + 1 = m := by omega
  rw [hm1]
  exact ⟨not_lt.mp hprev, hm⟩

/-- With ordered boundaries a row lies in at most one group. -/
theorem groupRows_unique (gptr : List Nat) (hs : gptr.Sorted (· ≤ ·)) (k l j : Nat)
    (hk : k + 1 < gptr.length) (hl : l + 1 < gptr.length)
    (hjk : j ∈ groupRows gptr k) (hjl : j ∈ groupRows gptr l) : k = l := by
  rcases Nat.lt_trichotomy k l with h | h | h
  · exact absurd hjl (groupRows_disjoint gptr hs k l j h (by omega) hjk)
  · exact h
  · exact absurd hjk (groupRows_disjoint gptr hs l k j h (by omega) hjl)

/-- C21: for group boundaries that are non-decreasing with `g[0] == 0` and last boundary
`preds.size()` (draws in `[0, 1)`, a strategy that only fills weights), the step of group `k`
of `LambdaRankObj::GetGradient` reads `preds` and `labels` only at the rows of
`[g[k], g[k+1])` (changing them anywhere else does not change the step) and writes `grad`
and `hess` only at these rows, every other entry keeping its value; no row belongs to two
groups and every row below `preds.size()` belongs to exactly one group, so every row of the
output is written by exactly one group. -/
theorem C21_group_frame (M : CMath) (o : LambdaRankObj)
    (hW : FillsWeights o.GetLambdaWeight) (draws : Nat → ℚ)
    (hd : ∀ m, 0 ≤ draws m ∧ draws m < 1) (preds : List ℚ) (info : Info)
    (hs : info.group_ptr.Sorted (· ≤ ·)) (h0 : info.group_ptr.getD 0 0 = 0)
    (hlast : info.group_ptr.getLastD 0 = preds.length) :
    (∀ k st preds' info', info'.group_ptr = info.group_ptr →
      (∀ j, j ∈ groupRows info.group_ptr k →
        preds'.getD j 0 = preds.getD j 0 ∧ info'.labels.getD j 0 = info.labels.getD j 0) →
      LambdaRankObj.group M o draws preds' info' st k
        = LambdaRankObj.group M o draws preds info st k) ∧
    (∀ k st,
      (LambdaRankObj.group M o draws preds info st k).out.grad.length = st.out.grad.length ∧
      (LambdaRankObj.group M o draws preds info st k).out.hess.length = st.out.hess.length ∧
      ∀ j, j ∉ groupRows info.group_ptr k →
        (LambdaRankObj.group M o draws preds info st k).out.grad.getD j 0
          = st.out.grad.getD j 0 ∧
        (LambdaRankObj.group M o draws preds info st k).out.hess.getD j 0
          = st.out.hess.getD j 0) ∧
    (∀ k l j, k + 1 < info.group_ptr.length → l + 1 < info.group_ptr.length → k ≠ l →
      j ∈ groupRows info.group_ptr k → j ∉ groupRows info.group_ptr l) ∧
    (∀ j, j < preds.length →
      ∃ k, (k + 1 < info.group_ptr.length ∧ j ∈ groupRows info.group_ptr k) ∧
        ∀ l, l + 1 < info.group_ptr.length ∧ j ∈ groupRows info.group_ptr l → l = k) := by
  refine ⟨?_, ?_, ?_, ?_⟩
  · intro k st preds' info' hg hrows
    exact LambdaRankObj.group_congr M o draws preds preds' info info' st k hg hrows
  · intro k st
    exact LambdaRankObj.group_frame M o hW draws hd preds info st k
  · intro k l j hk hl hkl hjk hjl
    exact hkl (groupRows_unique info.group_ptr hs k l j hk hl hjk hjl)
  · intro j hj
    obtain ⟨k, hk, hjk⟩ := groupRows_cover info.group_ptr h0 j (by rw [hlast]; exact hj)
    exact ⟨k, ⟨hk, hjk⟩, fun l hl =>
      groupRows_unique info.group_ptr hs l k j hl.1 hk hl.2 hjk⟩

/-- C21 at a concrete call: four rows in the groups `[0, 2)` and `[2, 4)`; row 3 belongs to
group 1 and to no other group, and the step of group 0 leaves it as it was. -/
theorem C21_group_frame_witness :
    (∃ k, (k + 1 < ([0, 2, 4] : List Nat).length ∧ 3 ∈ groupRows [0, 2, 4] k) ∧
      ∀ l, l + 1 < ([0, 2, 4] : List Nat).length ∧ 3 ∈ groupRows [0, 2, 4] l → l = k) ∧
    (LambdaRankObj.group CMath.rational
        ⟨⟨.LogisticRaw, 0⟩, 1, 0, PairwiseRankObj.GetLambdaWeight⟩ (fun _ => 1 / 2)
        [4, 3, 2, 1] ⟨[0, 1, 0, 1], none, [0, 2, 4]⟩
        ⟨⟨[7, 7, 7, 7], [7, 7, 7, 7]⟩, 0⟩ 0).out.grad.getD 3 0 = 7 :=
  have h := C21_group_frame CMath.rational
    ⟨⟨.LogisticRaw, 0⟩, 1, 0, PairwiseRankObj.GetLambdaWeight⟩
    PairwiseRankObj.fillsWeights (fun _ => 1 / 2) (fun _ => by norm_num)
    [4, 3, 2, 1] ⟨[0, 1, 0, 1], none, [0, 2, 4]⟩ (by decide) rfl rfl
  ⟨h.2.2.2 3 (by decide),
    ((h.2.1 0 ⟨⟨[7, 7, 7, 7], [7, 7, 7, 7]⟩, 0⟩).2.2 3 (by decide)).1⟩

/-! ## C22 -/

theorem LambdaRankObj.sortedRec_three :
    LambdaRankObj.sortedRec (LambdaRankObj.sortedList [3, 2, 1] ⟨[0, 1, 2], none, [0, 3]⟩ 0)
      = [(0, 0), (1, 1), (2, 2)] := by
  have hl : LambdaRankObj.sortedList [3, 2, 1] ⟨[0, 1, 2], none, [0, 3]⟩ 0
      = [⟨3, 0, 0⟩, ⟨2, 1, 1⟩, ⟨1, 2, 2⟩] := by decide
  rw [hl]
  decide

theorem toInt_half_mul_two : (toInt (1 / 2 * (((1 + (3 - 2) : Nat)) : ℚ))).toNat = 1 := by
  have h : (1 / 2 * (((1 + (3 - 2) : Nat)) : ℚ)) = ((1 : Int) : ℚ) := by norm_num
  rw [h, toInt_intCast]
  rfl

/-- C22 as stated fails: on the group with predictions `[3, 2, 1]` and labels `[0, 1, 2]`,
`rec` is `[(0,0), (1,1), (2,2)]`; for the run `[1, 2)`, `pid = 1` and the draw `1/2` the drawn
integer is `r = 1 = nLeft`, and the code pairs position 1 with the entry `rec[r + j - i] =
rec[2]`, while the index `r - nLeft + j - i = 1` of the statement designates `rec[1]`, the
entry of `pid` itself. -/
theorem C22_outside_index_counterexample :
    LambdaRankObj.sortedRec (LambdaRankObj.sortedList [3, 2, 1] ⟨[0, 1, 2], none, [0, 3]⟩ 0)
      = [(0, 0), (1, 1), (2, 2)] ∧
    (toInt (1 / 2 * (((1 + (3 - 2) : Nat)) : ℚ))).toNat = 1 ∧
    (samplePid (fun _ => 1 / 2) [(0, 0), (1, 1), (2, 2)] 1 2 1 (3 - 2) ⟨[], 0⟩ 1).pairs
      = [⟨1, 2, 1⟩] ∧
    specSamplePair [(0, 0), (1, 1), (2, 2)] 1 2 1 1 = ⟨1, 1, 1⟩ ∧
    (samplePid (fun _ => 1 / 2) [(0, 0), (1, 1), (2, 2)] 1 2 1 (3 - 2) ⟨[], 0⟩ 1).pairs
      ≠ [specSamplePair [(0, 0), (1, 1), (2, 2)] 1 2 1 1] := by
  have hp : (samplePid (fun _ => 1 / 2) [(0, 0), (1, 1), (2, 2)] 1 2 1 (3 - 2) ⟨[], 0⟩ 1).pairs
      = [⟨1, 2, 1⟩] := by
    unfold samplePid
    simp only [toInt_half_mul_two]
    rfl
  have hsp : specSamplePair [(0, 0), (1, 1), (2, 2)] 1 2 1 1 = ⟨1, 1, 1⟩ := by decide
  refine ⟨LambdaRankObj.sortedRec_three, toInt_half_mul_two, hp, hsp, ?_⟩
  rw [hp, hsp]
  decide

/-- C22 (amended): for a run `[i, j)` of `rec`, a position `pid` in `[i, j)` and the drawn
integer `r = (unsigned)(RandDouble() * (nLeft + nRight))` with `nLeft = i`,
`nRight = |rec| - j`, `nLeft + nRight != 0` and a draw in `[0, 1)`: `r` lies in
`[0, nLeft + nRight)`; if `r < nLeft` the pushed pair has `pos_index` the list position stored
in `rec[r]` (an entry before the run) and `neg_index` the one stored in `rec[pid]`; otherwise
it has `pos_index` the list position stored in `rec[pid]` and `neg_index` the one stored in
the entry at index `r + j - i = r - nLeft + j`, which lies in `[j, |rec|)`. -/
theorem C22_pair_construction (draws : Nat → ℚ) (rec_ : List (ℚ × Nat)) (i j pid r : Nat)
    (st : Sampler) (hipid : i ≤ pid) (hpidj : pid < j) (hjn : j ≤ rec_.length)
    (hout : i + (rec_.length - j) ≠ 0)
    (hd : 0 ≤ draws st.rnd ∧ draws st.rnd < 1)
    (hr : (toInt (draws st.rnd * ((i + (rec_.length - j) : Nat) : ℚ))).toNat = r) :
    r < i + (rec_.length - j) ∧ pid < rec_.length ∧
    (r < i →
      (samplePid draws rec_ i j i (rec_.length - j) st pid).pairs
        = st.pairs ++ [⟨(rec_.getD r (0, 0)).2, (rec_.getD pid (0, 0)).2, 1⟩] ∧ r < pid) ∧
    (¬ r < i →
      (samplePid draws rec_ i j i (rec_.length - j) st pid).pairs
        = st.pairs ++ [⟨(rec_.getD pid (0, 0)).2, (rec_.getD (r - i + j) (0, 0)).2, 1⟩] ∧
      r - i + j = r + j - i ∧ pid < r - i + j ∧ j ≤ r - i + j ∧ r - i + j < rec_.length) := by
  have hlt : r < i + (rec_.length - j) := by
    rw [← hr]
    exact toNat_toInt_lt _ _ hd.1 hd.2 (Nat.pos_of_ne_zero hout)
  refine ⟨hlt, by omega, ?_, ?_⟩
  · intro hri
    refine ⟨?_, by omega⟩
    unfold samplePid
    simp only [hr]
    rw [if_pos hri]
    rfl
  · intro hri
    have he : r - i + j = r + j - i := by omega
    refine ⟨?_, he, by omega, by omega, by omega⟩
    unfold samplePid
    simp only [hr]
    rw [if_neg hri, he]
    rfl

/-- C22 (amended) at a concrete visit: the run `[1, 2)` of `rec = [(0,0), (1,1), (2,2)]`,
`pid = 1`, draw `1/2`, drawn integer 1: the pushed pair is `(1, 2)`. -/
theorem C22_pair_construction_witness :
    (samplePid (fun _ => 1 / 2) [(0, 0), (1, 1), (2, 2)] 1 2 1
        (([(0, 0), (1, 1), (2, 2)] : List (ℚ × Nat)).length - 2) ⟨[], 0⟩ 1).pairs
      = [] ++ [⟨(([(0, 0), (1, 1), (2, 2)] : List (ℚ × Nat)).getD 1 (0, 0)).2,
          (([(0, 0), (1, 1), (2, 2)] : List (ℚ × Nat)).getD (1 - 1 + 2) (0, 0)).2, 1⟩] :=
  ((C22_pair_construction (fun _ => 1 / 2) [(0, 0), (1, 1), (2, 2)] 1 2 1 1 ⟨[], 0⟩
    (by decide) (by decide) (by decide) (by decide) (by norm_num)
    toInt_half_mul_two).2.2.2 (by decide)).1

/-! ## C23 -/

theorem sum_map_ite_eq_of_not_mem (rows : List Nat) (a : Nat) (ha : a ∉ rows) (x : ℚ) :
    (rows.map (fun r => if a = r then x else 0)).sum = 0 := by
  apply List.sum_eq_zero
  intro y hy
  rw [List.mem_map] at hy
  obtain ⟨r, hr, rfl⟩ := hy
  have hne : ¬ a = r := fun e => ha (e ▸ hr)
  simp only [hne, if_false]

/-- A value placed at one row of a duplicate-free list of rows is the sum over the rows. -/
theorem sum_map_ite_eq_of_nodup (rows : List Nat) (hn : rows.Nodup) (a : Nat) (ha : a ∈ rows)
    (x : ℚ) : (rows.map (fun r => if a = r then x else 0)).sum = x := by
  induction rows with
  | nil => exact absurd ha (List.not_mem_nil a)
  | cons b l ih =>
    rw [List.nodup_cons] at hn
    rw [List.map_cons, List.sum_cons]
    by_cases hab : a = b
    · rw [if_pos hab, sum_map_ite_eq_of_not_mem l a (by rw [hab]; exact hn.1), add_zero]
    · rw [if_neg hab, zero_add]
      rcases List.mem_cons.mp ha with h | h
      · exact absurd h hab
      · exact ih hn.2 h

/-- Contributions that cancel pair by pair over the rows cancel in total. -/
theorem sum_rows_pairs {α : Type} (rows : List Nat) (pairs : List α) (f : α → Nat → ℚ)
    (h : ∀ p, p ∈ pairs → (rows.map (f p)).sum = 0) :
    (rows.map (fun r => (pairs.map (fun p => f p r)).sum)).sum = 0 := by
  induction pairs with
  | nil =>
    apply List.sum_eq_zero
    intro y hy
    rw [List.mem_map] at hy
    obtain ⟨r, _, rfl⟩ := hy
    rfl
  | cons a l ih =>
    simp only [List.map_cons, List.sum_cons]
    rw [sum_map_add', h a (List.mem_cons_self _ _),
      ih (fun p hp => h p (List.mem_cons_of_mem _ hp)), add_zero]

/-- After the step of group `k` the gradients of the rows of the group sum to 0. -/
theorem LambdaRankObj.group_grad_sum (M : CMath) (o : LambdaRankObj)
    (hW : FillsWeights o.GetLambdaWeight) (draws : Nat → ℚ)
    (hd : ∀ m, 0 ≤ draws m ∧ draws m < 1) (preds : List ℚ) (info : Info)
    (st : LambdaRankObj.State) (k : Nat)
    (hin : ∀ r, r ∈ groupRows info.group_ptr k → r < st.out.grad.length) :
    ((groupRows info.group_ptr k).map
      (fun r => (LambdaRankObj.group M o draws preds info st k).out.grad.getD r 0)).sum = 0 := by
  have hrows := LambdaRankObj.weightedPairs_rows o hW draws hd preds info k st.rnd
  have hnd : (groupRows info.group_ptr k).Nodup := by
    unfold groupRows; exact List.nodup_range' _ _
  have hmap : (groupRows info.group_ptr k).map
      (fun r => (LambdaRankObj.group M o draws preds info st k).out.grad.getD r 0)
      = (groupRows info.group_ptr k).map (fun r =>
          ((LambdaRankObj.weightedPairs o draws preds info k st.rnd).map (fun p =>
              (if LambdaRankObj.posRow preds info k p = r then
                LambdaRankObj.pairGrad M o (LambdaRankObj.sortedList preds info k)
                  (o.scale info.group_ptr k) p else 0)
              - (if LambdaRankObj.negRow preds info k p = r then
                LambdaRankObj.pairGrad M o (LambdaRankObj.sortedList preds info k)
                  (o.scale info.group_ptr k) p else 0))).sum) := by
    apply List.map_congr_left
    intro r hr
    rw [(LambdaRankObj.group_getD M o draws preds info st k r).2.2.1 (hin r hr), if_pos hr,
      zero_add]
  rw [hmap]
  apply sum_rows_pairs (groupRows info.group_ptr k)
    (LambdaRankObj.weightedPairs o draws preds info k st.rnd)
    (fun p r =>
      (if LambdaRankObj.posRow preds info k p = r then
        LambdaRankObj.pairGrad M o (LambdaRankObj.sortedList preds info k)
          (o.scale info.group_ptr k) p else 0)
      - (if LambdaRankObj.negRow preds info k p = r then
        LambdaRankObj.pairGrad M o (LambdaRankObj.sortedList preds info k)
          (o.scale info.group_ptr k) p else 0))
  intro p hp
  obtain ⟨h1, h2, _⟩ := hrows p hp
  rw [sum_map_sub', sum_map_ite_eq_of_nodup _ hnd _ h1, sum_map_ite_eq_of_nodup _ hnd _ h2,
    sub_self]

/-- C23: in a call of `LambdaRankObj::GetGradient` that passes its assertions (ordered group
boundaries, draws in `[0, 1)`, a weighting strategy that only fills weights), for every
`num_pairsample`, every `fix_list_weight` and every group, the gradients written on the rows
of the group sum to exactly 0 over exact arithmetic: the pos row and the neg row of every
pair lie in the group, one receiving `g*w` and the other `-g*w`. -/
theorem C23_group_gradient_sum_zero (M : CMath) (o : LambdaRankObj)
    (hW : FillsWeights o.GetLambdaWeight) (draws : Nat → ℚ)
    (hd : ∀ m, 0 ≤ draws m ∧ draws m < 1) (preds : List ℚ) (info : Info)
    (grad hess : List ℚ) (hlen : preds.length = info.labels.length)
    (hne : info.group_ptr ≠ []) (hlast : info.group_ptr.getLastD 0 = preds.length)
    (hs : info.group_ptr.Sorted (· ≤ ·)) :
    ∃ out, LambdaRankObj.GetGradient M o draws preds info grad hess = .ok out ∧
      ∀ k, k + 1 < info.group_ptr.length →
        ((groupRows info.group_ptr k).map (fun j => out.grad.getD j 0)).sum = 0 ∧
        ∀ rnd p, p ∈ LambdaRankObj.weightedPairs o draws preds info k rnd →
          LambdaRankObj.posRow preds info k p ∈ groupRows info.group_ptr k ∧
          LambdaRankObj.negRow preds info k p ∈ groupRows info.group_ptr k := by
  obtain ⟨out, hout, _, _, hQ⟩ := LambdaRankObj.GetGradient_lift M o hW draws hd preds info
    grad hess hlen hne hlast hs
    (fun k gh => ((groupRows info.group_ptr k).map (fun j => gh.grad.getD j 0)).sum = 0)
    (fun k a b hQa hab => by
      have hmap : (groupRows info.group_ptr k).map (fun j => b.grad.getD j 0)
          = (groupRows info.group_ptr k).map (fun j => a.grad.getD j 0) := by
        apply List.map_congr_left
        intro j hj
        exact (hab j hj).1
      show ((groupRows info.group_ptr k).map (fun j => b.grad.getD j 0)).sum = 0
      rw [hmap]
      exact hQa)
    (fun k hk st hsg _ => by
      apply LambdaRankObj.group_grad_sum M o hW draws hd preds info st k
      intro r hr
      rw [hsg, ← hlast]
      exact groupRows_lt info.group_ptr hs k r hk hr)
  refine ⟨out, hout, fun k hk => ⟨hQ k hk, ?_⟩⟩
  intro rnd p hp
  have h := LambdaRankObj.weightedPairs_rows o hW draws hd preds info k rnd p hp
  exact ⟨h.1, h.2.1⟩

/-- C23 at a concrete call: two rows with labels 0 and 1 in one group, every draw `1/2`. -/
theorem C23_group_gradient_sum_zero_witness :
    ∃ out, LambdaRankObj.GetGradient CMath.rational
        ⟨⟨.LogisticRaw, 1 / 100⟩, 1, 3, PairwiseRankObj.GetLambdaWeight⟩ (fun _ => 1 / 2)
        [1, 2] ⟨[0, 1], none, [0, 2]⟩ [] [] = .ok out ∧
      ((groupRows [0, 2] 0).map (fun j => out.grad.getD j 0)).sum = 0 :=
  let ⟨out, h, hk⟩ := C23_group_gradient_sum_zero CMath.rational
    ⟨⟨.LogisticRaw, 1 / 100⟩, 1, 3, PairwiseRankObj.GetLambdaWeight⟩
    PairwiseRankObj.fillsWeights (fun _ => 1 / 2) (fun _ => by norm_num)
    [1, 2] ⟨[0, 1], none, [0, 2]⟩ [] [] rfl (by decide) rfl (by decide)
  ⟨out, h, (hk 0 (by decide)).1⟩

end regrank
end xgboost
